import Mathlib

/-!
# Kutt: the hourly aggregate row, the visit classifier, the stats rollup and its cache, the
fallback queue, and two handler checks

A shallow embedding of

* `src/server/queries/visit.queries.js` (`add`, `find`),
* `src/server/queues/visit.js` (`filterInBrowser`, `filterInOs`, `visit`),
* `src/server/queues/queues.js` (the fallback `visit.add`),
* `src/server/utils/utils.js` (`removeWww`, `dateToUTC`, `getStatsPeriods`,
  `getDifferenceFunction`, `getInitStats`, `statsObjectToArray`, `isAdmin`, `isPremium`,
  `CustomError`),
* `src/server/consts.js` (`ROLES`),
* `src/server/handlers/links.handler.js` (the check of the custom URL in `create`, steps 7 and
  8 of `redirect`),
* `src/server/handlers/domains.handler.js` (the limit check of `add`),

followed by the properties proved about them.

Conventions of the embedding.

* A JavaScript string is a Lean `String`; the string built-ins are defined on its list of
  characters.  `toLowerCase` is the mapping of `A`..`Z` to `a`..`z`.
* An instant (`Date`) is its time value: milliseconds since the epoch, an `Int`.
* The `visits` table is the list of its rows in storage order.  `new Date()` is an explicit
  argument `now` of `add` and of `find`, and the row default `created_at = now()` takes the same
  instant.
* A failed statement (an unknown column) aborts the transaction: `add` returns `none` and the
  table is left as it was.
* Platform and library functions the code calls (`URL.parse`, `useragent.parse`,
  `geoip.lookup`) are inputs: their results are fields of the job data or a function argument.
* The functions of `date-fns` that `find` calls are embedded as the library computes them when
  the time zone of the process is UTC.
* `find` is the path without a cached response; `findWithCache` adds the two accesses to Redis,
  a key of which holds a value until the instant it expires at.
* A promise is given by the way it settles.  Concurrent calls of `add` are a step relation on
  the committed table and the calls in progress: a transaction is its locking select followed
  by its write and commit, and the select locks the row it returns.
-/

namespace Kutt

/-! ## JavaScript strings -/

/-- `String.prototype.toLowerCase`, on the letters `A`..`Z`. -/
def toLowerCase (s : String) : String := ⟨s.data.map Char.toLower⟩

/-- `String.prototype.includes`: `sub` occurs in `s` as a contiguous run of characters. -/
def includes (s sub : String) : Bool := s.data.tails.any (fun t => sub.data.isPrefixOf t)

/-- `String.prototype.substring(start, end)`: bounds are swapped when `start > end` and clamped
to the length. -/
def substring (s : String) (a b : Nat) : String := ⟨(s.data.take (max a b)).drop (min a b)⟩

/-- Replace the first occurrence of a non-empty `pat` in `s` by `rep`, on character lists. -/
def replaceFirstChars (pat rep : List Char) : List Char → List Char
  | [] => []
  | c :: cs =>
    if pat.isPrefixOf (c :: cs) then rep ++ (c :: cs).drop pat.length
    else c :: replaceFirstChars pat rep cs

/-- `String.prototype.replace(pat, rep)` with a string pattern: only the first occurrence
is replaced. -/
def replaceFirst (s pat rep : String) : String :=
  if pat.data.isEmpty then ⟨rep.data ++ s.data⟩ else ⟨replaceFirstChars pat.data rep.data s.data⟩

/-- The characters matched by the regular expression class `\s`. -/
def isRegexSpace (c : Char) : Bool :=
  c.val = 0x9 || c.val = 0xA || c.val = 0xB || c.val = 0xC || c.val = 0xD || c.val = 0x20 ||
  c.val = 0xA0 || c.val = 0x1680 || (0x2000 ≤ c.val && c.val ≤ 0x200A) || c.val = 0x2028 ||
  c.val = 0x2029 || c.val = 0x202F || c.val = 0x205F || c.val = 0x3000 || c.val = 0xFEFF

/-- `s.replace(/\s/gi, '')`: every whitespace character is removed. -/
def removeSpaces (s : String) : String := ⟨s.data.filter (fun c => !isRegexSpace c)⟩

/-- `s.replace(/\./gi, '[dot]')`: every `.` becomes `[dot]`. -/
def replaceDots (s : String) : String :=
  ⟨s.data.flatMap (fun c => if c = '.' then "[dot]".data else [c])⟩

/-! ## Instants and their UTC fields -/

/-- A proleptic Gregorian calendar date. -/
structure Civil where
  year : Int
  month : Int
  day : Int
deriving DecidableEq, Repr

/-- The calendar date of a day number (days since 1970-01-01), as `YearFromTime`,
`MonthFromTime` (counted from 1) and `DateFromTime` give it. -/
def civilFromDays (days : Int) : Civil :=
  let z := days + 719468
  let era := z / 146097
  let doe := z % 146097
  let yoe := (doe - doe / 1460 + doe / 36524 - doe / 146096) / 365
  let doy := doe - (365 * yoe + yoe / 4 - yoe / 100)
  let mp := (5 * doy + 2) / 153
  let m := if mp < 10 then mp + 3 else mp - 9
  { year := yoe + era * 400 + (if m ≤ 2 then 1 else 0)
    month := m
    day := doy - (153 * mp + 2) / 5 + 1 }

/-- UTC calendar date of an instant. -/
def utcDate (t : Int) : Civil := civilFromDays (t / 86400000)

/-- UTC hour of an instant, `0..23`. -/
def utcHours (t : Int) : Int := t / 3600000 % 24

/-- UTC minute of an instant, `0..59`. -/
def utcMinutes (t : Int) : Int := t / 60000 % 60

/-- UTC second of an instant, `0..59`. -/
def utcSeconds (t : Int) : Int := t / 1000 % 60

/-- Millisecond of an instant, `0..999`. -/
def utcMilliseconds (t : Int) : Int := t % 1000

/-- The decimal digit of the units of `n`. -/
def digit (n : Nat) : Char := Char.ofNat (48 + n % 10)

/-- Two decimal digits, zero padded. -/
def pad2 (n : Int) : List Char := [digit (n.toNat / 10), digit n.toNat]

/-- Three decimal digits, zero padded. -/
def pad3 (n : Int) : List Char := [digit (n.toNat / 100), digit (n.toNat / 10), digit n.toNat]

/-- Four decimal digits, zero padded. -/
def pad4 (n : Int) : List Char :=
  [digit (n.toNat / 1000), digit (n.toNat / 100), digit (n.toNat / 10), digit n.toNat]

/-- Six decimal digits, zero padded. -/
def pad6 (n : Int) : List Char :=
  [digit (n.toNat / 100000), digit (n.toNat / 10000), digit (n.toNat / 1000),
   digit (n.toNat / 100), digit (n.toNat / 10), digit n.toNat]

/-- The year of an ISO-8601 date-time string: four digits for the years 0000..9999, a sign and
six digits outside. -/
def isoYear (y : Int) : List Char :=
  if 0 ≤ y ∧ y ≤ 9999 then pad4 y
  else if y < 0 then '-' :: pad6 (-y) else '+' :: pad6 y

/-- `Date.prototype.toISOString`: `YYYY-MM-DDTHH:mm:ss.sssZ`. -/
def toISOString (t : Int) : String :=
  ⟨isoYear (utcDate t).year ++ '-' :: pad2 (utcDate t).month ++ '-' :: pad2 (utcDate t).day ++
    'T' :: pad2 (utcHours t) ++ ':' :: pad2 (utcMinutes t) ++ ':' :: pad2 (utcSeconds t) ++
    '.' :: pad3 (utcMilliseconds t) ++ ['Z']⟩

/-- The instant's ISO string has the four-digit-year form `YYYY-MM-DDTHH:mm:ss.sssZ`. -/
def FourDigitYear (t : Int) : Prop := 0 ≤ (utcDate t).year ∧ (utcDate t).year ≤ 9999

instance (t : Int) : Decidable (FourDigitYear t) := by unfold FourDigitYear; infer_instance

/-- `dateToUTC` of `utils.js`, SQLite branch: the UTC date formatted `YYYY-MM-DD hh:mm:ss`. -/
def dateToUTC (date : Int) : String :=
  let dateUTC := toISOString date
  substring dateUTC 0 10 ++ " " ++ substring dateUTC 11 19

/-- The constant `truncatedNow` of `add` (lines 26-27): the hour bucket of `now` as text. -/
def truncatedNow (now : Int) : String :=
  let nowUTC := toISOString now
  substring nowUTC 0 10 ++ " " ++ substring nowUTC 11 14 ++ "00:00"

/-- Modelled from the spec: `knexUtils(trx).truncatedTimestamp('created_at', 'hour')` of the
absent `utils/knex.js`; "timestamp truncated to the top of the hour (i.e. minutes/seconds
zeroed), in UTC", in the text form the query compares with `truncatedNow`. -/
def truncatedTimestamp (created_at : Int) : String :=
  ⟨pad4 (utcDate created_at).year ++ '-' :: pad2 (utcDate created_at).month ++ '-' ::
    pad2 (utcDate created_at).day ++ ' ' :: pad2 (utcHours created_at) ++ ":00:00".data⟩

/-! ## JavaScript objects used as tally maps -/

/-- A value stored under a key of a `countries` / `referrers` object: a count, or the string
that `+` produces once an operand is not a number. -/
inductive JsVal where
  | num (n : Nat)
  | str (s : String)
deriving DecidableEq, Repr

/-- A plain object: its own enumerable properties, in insertion order. -/
abbrev JsObj := List (String × JsVal)

/-- The properties every plain object inherits from `Object.prototype`, each with the string
its value converts to under `+`. -/
def objectPrototype : List (String × String) :=
  [("constructor", "function Object() \x7b [native code] \x7d"),
   ("__proto__", "[object Object]"),
   ("__defineGetter__", "function __defineGetter__() \x7b [native code] \x7d"),
   ("__defineSetter__", "function __defineSetter__() \x7b [native code] \x7d"),
   ("__lookupGetter__", "function __lookupGetter__() \x7b [native code] \x7d"),
   ("__lookupSetter__", "function __lookupSetter__() \x7b [native code] \x7d"),
   ("hasOwnProperty", "function hasOwnProperty() \x7b [native code] \x7d"),
   ("isPrototypeOf", "function isPrototypeOf() \x7b [native code] \x7d"),
   ("propertyIsEnumerable", "function propertyIsEnumerable() \x7b [native code] \x7d"),
   ("toLocaleString", "function toLocaleString() \x7b [native code] \x7d"),
   ("toString", "function toString() \x7b [native code] \x7d"),
   ("valueOf", "function valueOf() \x7b [native code] \x7d")]

/-- The own property `key` of `o`, if there is one. -/
def JsObj.own (o : JsObj) (key : String) : Option JsVal := o.lookup key

/-- The property read `o[key]`: the own property, else the inherited one (as the string it
converts to), else `undefined` (`none`). -/
def JsObj.get (o : JsObj) (key : String) : Option JsVal :=
  match o.own key with
  | some v => some v
  | none => (objectPrototype.lookup key).map JsVal.str

/-- The object `{ ...o, [key]: v }`: an own property is overwritten in place, a new one is
appended. -/
def JsObj.set (o : JsObj) (key : String) (v : JsVal) : JsObj :=
  if (o.own key).isSome then o.map (fun kv => if kv.1 = key then (key, v) else kv)
  else o ++ [(key, v)]

/-- The expression `(x ?? 0) + 1`: a number is incremented, `undefined` counts as `0`, and
anything else is converted to a string to which `"1"` is appended. -/
def plusOne : Option JsVal → JsVal
  | none => .num 1
  | some (.num n) => .num (n + 1)
  | some (.str s) => .str (s ++ "1")

/-! ## The `visits` table -/

/-- The counter columns of `visits`. -/
inductive Column where
  | br_chrome | br_edge | br_firefox | br_ie | br_opera | br_other | br_safari
  | os_android | os_ios | os_linux | os_macos | os_other | os_windows
deriving DecidableEq, Repr

/-- The counter column with the given name; `none` when `visits` has no such column. -/
def Column.ofName (name : String) : Option Column :=
  if name = "br_chrome" then some .br_chrome
  else if name = "br_edge" then some .br_edge
  else if name = "br_firefox" then some .br_firefox
  else if name = "br_ie" then some .br_ie
  else if name = "br_opera" then some .br_opera
  else if name = "br_other" then some .br_other
  else if name = "br_safari" then some .br_safari
  else if name = "os_android" then some .os_android
  else if name = "os_ios" then some .os_ios
  else if name = "os_linux" then some .os_linux
  else if name = "os_macos" then some .os_macos
  else if name = "os_other" then some .os_other
  else if name = "os_windows" then some .os_windows
  else none

/-- Modelled from the spec: a row of `visits` (the absent `models/visit.model.js`); the columns
are those `add` writes and `find` reads, "total (integer ≥0), per-browser counters for a fixed
closed set ..., per-OS counters for a fixed closed set ...". -/
structure Visit where
  id : Nat
  link_id : Nat
  user_id : Nat
  created_at : Int
  updated_at : Int
  total : Nat
  br_chrome : Nat
  br_edge : Nat
  br_firefox : Nat
  br_ie : Nat
  br_opera : Nat
  br_other : Nat
  br_safari : Nat
  os_android : Nat
  os_ios : Nat
  os_linux : Nat
  os_macos : Nat
  os_other : Nat
  os_windows : Nat
  countries : JsObj
  referrers : JsObj
deriving DecidableEq, Repr

/-- The value of a counter column of a row. -/
def Visit.get (v : Visit) : Column → Nat
  | .br_chrome => v.br_chrome
  | .br_edge => v.br_edge
  | .br_firefox => v.br_firefox
  | .br_ie => v.br_ie
  | .br_opera => v.br_opera
  | .br_other => v.br_other
  | .br_safari => v.br_safari
  | .os_android => v.os_android
  | .os_ios => v.os_ios
  | .os_linux => v.os_linux
  | .os_macos => v.os_macos
  | .os_other => v.os_other
  | .os_windows => v.os_windows

/-- The row with one counter column replaced. -/
def Visit.put (v : Visit) (c : Column) (n : Nat) : Visit :=
  match c with
  | .br_chrome => { v with br_chrome := n }
  | .br_edge => { v with br_edge := n }
  | .br_firefox => { v with br_firefox := n }
  | .br_ie => { v with br_ie := n }
  | .br_opera => { v with br_opera := n }
  | .br_other => { v with br_other := n }
  | .br_safari => { v with br_safari := n }
  | .os_android => { v with os_android := n }
  | .os_ios => { v with os_ios := n }
  | .os_linux => { v with os_linux := n }
  | .os_macos => { v with os_macos := n }
  | .os_other => { v with os_other := n }
  | .os_windows => { v with os_windows := n }

/-- The knex clause `.increment(column, 1)`. -/
def Visit.increment (v : Visit) (c : Column) : Visit := v.put c (v.get c + 1)

/-- Sum of the seven browser counters of a row. -/
def Visit.browserSum (v : Visit) : Nat :=
  v.br_chrome + v.br_edge + v.br_firefox + v.br_ie + v.br_opera + v.br_other + v.br_safari

/-- Sum of the six OS counters of a row. -/
def Visit.osSum (v : Visit) : Nat :=
  v.os_android + v.os_ios + v.os_linux + v.os_macos + v.os_other + v.os_windows

/-- The argument of `add`. -/
structure VisitParams where
  browser : String
  country : String
  link_id : Nat
  user_id : Nat
  os : String
  referrer : String
deriving DecidableEq, Repr

/-- The constant `data` of `add` (lines 20-24): the parameters with country and referrer
lowercased. -/
def addData (params : VisitParams) : VisitParams :=
  { params with
    country := toLowerCase params.country
    referrer := toLowerCase params.referrer }

/-- Modelled from the spec: the auto-increment primary key `id` of the absent
`models/visit.model.js`; a new row receives an id larger than every id in the table. -/
def nextId (visits : List Visit) : Nat := (visits.map (fun v => v.id)).foldr max 0 + 1

/-- Modelled from the spec: the row `insert` creates from the columns it is given, every other
counter taking the column default of the absent `models/visit.model.js` ("all others 0 or
absent"), `created_at` and `updated_at` the time of the insert. -/
def insertedRow (visits : List Visit) (now : Int) (data : VisitParams) (br os : Column) : Visit :=
  let blank : Visit :=
    { id := nextId visits, link_id := data.link_id, user_id := data.user_id
      created_at := now, updated_at := now, total := 1
      br_chrome := 0, br_edge := 0, br_firefox := 0, br_ie := 0, br_opera := 0, br_other := 0
      br_safari := 0, os_android := 0, os_ios := 0, os_linux := 0, os_macos := 0, os_other := 0
      os_windows := 0
      countries := [(data.country, .num 1)]
      referrers := [(data.referrer, .num 1)] }
  (blank.put br 1).put os 1

/-- The row that the query of lines 31-39 returns: the first row of the link whose `created_at`
truncated to the hour equals `truncatedNow`. -/
def findVisit (visits : List Visit) (now : Int) (link_id : Nat) : Option Visit :=
  visits.find? (fun v => v.link_id = link_id ∧ truncatedTimestamp v.created_at = truncatedNow now)

/-- The row that the `update` of lines 44-59 writes for a row `row` it selects, `visit` being
the row the query returned: three counters incremented, `updated_at` set, and the two tally
objects rebuilt from those of `visit`. -/
def updatedRow (visit : Visit) (now : Int) (data : VisitParams) (br os : Column) (row : Visit) :
    Visit :=
  { ((row.increment br).increment os) with
    total := row.total + 1
    updated_at := now
    countries := visit.countries.set data.country (plusOne (visit.countries.get data.country))
    referrers := visit.referrers.set data.referrer (plusOne (visit.referrers.get data.referrer)) }

/-- The function `add` of `visit.queries.js`, run at the instant `now` on the table `visits`:
the table after the transaction, or `none` when a statement names a column that does not
exist. -/
def add (visits : List Visit) (now : Int) (params : VisitParams) : Option (List Visit) :=
  let data := addData params
  match Column.ofName ("br_" ++ data.browser), Column.ofName ("os_" ++ data.os) with
  | some br, some os =>
    match findVisit visits now data.link_id with
    | some visit =>
      some (visits.map (fun row =>
        if row.id = visit.id then updatedRow visit now data br os row else row))
    | none => some (visits ++ [insertedRow visits now data br os])
  | _, _ => none

/-- The table after a call of `add`: a failed transaction leaves it as it was. -/
def record (visits : List Visit) (now : Int) (params : VisitParams) : List Visit :=
  (add visits now params).getD visits

/-- A visit event as `add` receives it: the instant of the call and the parameters. -/
structure Event where
  now : Int
  params : VisitParams
deriving DecidableEq, Repr

/-- The calls of `add` for a list of events, one after another; `none` as soon as one fails. -/
def addAll : List Visit → List Event → Option (List Visit)
  | visits, [] => some visits
  | visits, e :: es => (add visits e.now e.params).bind (fun visits' => addAll visits' es)

/-! ## The visit processor -/

/-- The constant `browsersList` of `visit.js`. -/
def browsersList : List String := ["IE", "Firefox", "Chrome", "Opera", "Safari", "Edge"]

/-- The constant `osList` of `visit.js`. -/
def osList : List String := ["Windows", "Mac OS", "Linux", "Android", "iOS"]

/-- The result of `useragent.parse`, as far as `visit` reads it. -/
structure Agent where
  family : String
  osFamily : String
deriving DecidableEq, Repr

/-- The predicate `filterInBrowser(agent)` of `visit.js`; `toLocaleLowerCase` is taken in a
locale without special casing rules, where it is `toLowerCase`. -/
def filterInBrowser (agent : Agent) (item : String) : Bool :=
  includes (toLowerCase agent.family) (toLowerCase item)

/-- The predicate `filterInOs(agent)` of `visit.js`; `toLocaleLowerCase` as in
`filterInBrowser`. -/
def filterInOs (agent : Agent) (item : String) : Bool :=
  includes (toLowerCase agent.osFamily) (toLowerCase item)

/-- The function `removeWww` of `utils.js`. -/
def removeWww (host : String) : String := replaceFirst host "www." ""

/-- The link of a visit job, as far as `visit` reads it. -/
structure Link where
  id : Nat
  user_id : Nat
deriving DecidableEq, Repr

/-- The job data of `visit`, with the results of the libraries it calls: `agent` is
`useragent.parse(userAgent)`, `geo` is `geoip.lookup(data.ip)?.country`; an absent header is
`none`. -/
structure VisitJob where
  agent : Agent
  country : Option String
  geo : Option String
  referrer : Option String
  link : Link
deriving DecidableEq, Repr

/-- The value `x || y` on optional strings: the empty string and `undefined` are falsy. -/
def orElse (x y : Option String) : Option String :=
  match x with
  | some s => if s = "" then y else some s
  | none => y

/-- The `browser` argument that `visit` passes to `add` (lines 33 and 41). -/
def visitBrowser (agent : Agent) : String :=
  toLowerCase ((browsersList.filter (filterInBrowser agent)).headD "Other")

/-- The `os` argument that `visit` passes to `add` (lines 34 and 45). -/
def visitOs (agent : Agent) : String :=
  removeSpaces (toLowerCase ((osList.filter (filterInOs agent)).headD "Other"))

/-- The constant `referrer` of `visit` (line 35), `urlHostname` being `URL.parse(_).hostname`
(`none` when the string does not parse): the outer `none` is the thrown `TypeError`, the inner
one a falsy value. -/
def visitReferrerHost (urlHostname : String → Option String) (referrer : Option String) :
    Option (Option String) :=
  match referrer with
  | none => some none
  | some r =>
    if r = "" then some none
    else match urlHostname r with
      | none => none
      | some hostname => some (some (removeWww hostname))

/-- The `referrer` argument that `visit` passes to `add` (line 46). -/
def visitReferrer (referrer : Option String) : String :=
  ((orElse (referrer.map replaceDots) (some "Direct"))).getD "Direct"

/-- The function `visit` of `visit.js`: the parameters it passes to `add`, or `none` when it
throws. -/
def visit (urlHostname : String → Option String) (data : VisitJob) : Option VisitParams :=
  match visitReferrerHost urlHostname data.referrer with
  | none => none
  | some referrer =>
    let country := orElse data.country data.geo
    some
      { browser := visitBrowser data.agent
        country := (orElse country (some "Unknown")).getD "Unknown"
        link_id := data.link.id
        user_id := data.link.user_id
        os := visitOs data.agent
        referrer := visitReferrer referrer }

/-! ## Vocabulary of the properties -/

/-- The closed set of browser classes. -/
def browserNames : List String := ["chrome", "edge", "firefox", "ie", "opera", "safari", "other"]

/-- The closed set of OS classes. -/
def osNames : List String := ["windows", "macos", "linux", "android", "ios", "other"]

/-- The seven browser counters. -/
def Column.isBrowser : Column → Bool
  | .br_chrome | .br_edge | .br_firefox | .br_ie | .br_opera | .br_other | .br_safari => true
  | _ => false

/-- The six OS counters. -/
def Column.isOs : Column → Bool
  | .os_android | .os_ios | .os_linux | .os_macos | .os_other | .os_windows => true
  | _ => false

/-- The key of an aggregate row: its link and its hour bucket. -/
def Visit.key (v : Visit) : Nat × String := (v.link_id, truncatedTimestamp v.created_at)

/-- The rows of one link, in storage order. -/
def rowsOf (link_id : Nat) (visits : List Visit) : List Visit :=
  visits.filter (fun v => v.link_id = link_id)

/-- The start of the UTC hour an instant lies in. -/
def hourStart (t : Int) : Int := t - t % 3600000

/-! ## Calendar arithmetic of `date-fns`, in a process whose time zone is UTC -/

/-- The day number (days since 1970-01-01) of a calendar date; a month outside `1..12` or a
day outside the month carries over, as in the setters of `Date` (`MakeDay`). -/
def daysFromCivil (year month day : Int) : Int :=
  let y0 := year + (month - 1) / 12
  let m := (month - 1) % 12 + 1
  let y := if m ≤ 2 then y0 - 1 else y0
  let era := y / 400
  let yoe := y % 400
  let mp := if m ≤ 2 then m + 9 else m - 3
  let doy := (153 * mp + 2) / 5
  era * 146097 + (yoe * 365 + yoe / 4 - yoe / 100 + doy) + (day - 1) - 719468

/-- The time within the day of an instant, in milliseconds. -/
def timeInDay (t : Int) : Int := t % 86400000

/-- `Math.trunc(a / b)` for a positive `b`: the quotient rounded toward zero. -/
def truncDiv (a b : Int) : Int := if 0 ≤ a then a / b else -((-a) / b)

/-- `compareAsc` of `date-fns`: `1`, `-1` or `0` as the first instant is after, before or equal
to the second. -/
def compareAsc (dateLeft dateRight : Int) : Int :=
  if dateLeft < dateRight then -1 else if dateLeft > dateRight then 1 else 0

/-- `isAfter` of `date-fns`. -/
def isAfter (date dateToCompare : Int) : Bool := decide (date > dateToCompare)

/-- `subHours` of `date-fns`: the instant moved back by `amount` hours of 3 600 000 ms. -/
def subHours (date amount : Int) : Int := date - amount * 3600000

/-- `subDays` of `date-fns`: `setDate(getDate() - amount)`, the time of day kept. -/
def subDays (date amount : Int) : Int :=
  daysFromCivil (utcDate date).year (utcDate date).month ((utcDate date).day - amount) * 86400000 +
    timeInDay date

/-- `addMonths` of `date-fns`: the same day of the month `amount` months later, or the last day
of that month when the month is shorter; the time of day is kept. -/
def addMonths (date amount : Int) : Int :=
  if amount = 0 then date
  else
    let endOfDesiredMonth := daysFromCivil (utcDate date).year ((utcDate date).month + amount + 1) 0
    let daysInMonth := (civilFromDays endOfDesiredMonth).day
    if (utcDate date).day ≥ daysInMonth then endOfDesiredMonth * 86400000 + timeInDay date
    else
      daysFromCivil (civilFromDays endOfDesiredMonth).year (civilFromDays endOfDesiredMonth).month
        (utcDate date).day * 86400000 + timeInDay date

/-- `subMonths` of `date-fns`. -/
def subMonths (date amount : Int) : Int := addMonths date (-amount)

/-- `differenceInHours` of `date-fns`: whole hours, rounded toward zero. -/
def differenceInHours (dateLeft dateRight : Int) : Int := truncDiv (dateLeft - dateRight) 3600000

/-- `differenceInCalendarDays` of `date-fns`. -/
def differenceInCalendarDays (dateLeft dateRight : Int) : Int :=
  dateLeft / 86400000 - dateRight / 86400000

/-- `differenceInDays` of `date-fns`: the calendar-day difference, less one when the last day
is not full. -/
def differenceInDays (dateLeft dateRight : Int) : Int :=
  let sign := compareAsc dateLeft dateRight
  let difference : Int := (differenceInCalendarDays dateLeft dateRight).natAbs
  let moved :=
    daysFromCivil (utcDate dateLeft).year (utcDate dateLeft).month
      ((utcDate dateLeft).day - sign * difference) * 86400000 + timeInDay dateLeft
  let isLastDayNotFull : Int := if compareAsc moved dateRight = -sign then 1 else 0
  sign * (difference - isLastDayNotFull)

/-- `differenceInCalendarMonths` of `date-fns`. -/
def differenceInCalendarMonths (dateLeft dateRight : Int) : Int :=
  ((utcDate dateLeft).year - (utcDate dateRight).year) * 12 +
    ((utcDate dateLeft).month - (utcDate dateRight).month)

/-- `isLastDayOfMonth` of `date-fns`. -/
def isLastDayOfMonth (date : Int) : Bool :=
  decide (daysFromCivil (utcDate date).year (utcDate date).month ((utcDate date).day + 1) =
    daysFromCivil (utcDate date).year ((utcDate date).month + 1) 1)

/-- `differenceInMonths` of `date-fns`: the calendar-month difference, less one when the last
month is not full. The left date is first moved to the 30th when it lies in February after the
27th (`setDate(30)`), then back by the difference (`setMonth`). -/
def differenceInMonths (dateLeft dateRight : Int) : Int :=
  let sign := compareAsc dateLeft dateRight
  let difference : Int := (differenceInCalendarMonths dateLeft dateRight).natAbs
  if difference < 1 then 0
  else
    let day30 :=
      if (utcDate dateLeft).month = 2 ∧ (utcDate dateLeft).day > 27 then
        daysFromCivil (utcDate dateLeft).year (utcDate dateLeft).month 30
      else dateLeft / 86400000
    let moved :=
      daysFromCivil (civilFromDays day30).year ((civilFromDays day30).month - sign * difference)
        (civilFromDays day30).day * 86400000 + timeInDay dateLeft
    let isLastMonthNotFull : Int :=
      if isLastDayOfMonth dateLeft = true ∧ difference = 1 ∧ compareAsc dateLeft dateRight = 1
      then 0
      else if compareAsc moved dateRight = -sign then 1 else 0
    sign * (difference - isLastMonthNotFull)

/-! ## The stats rollup -/

/-- The four period names of `getStatsPeriods`. -/
inductive PeriodType where
  | lastDay | lastWeek | lastMonth | lastYear
deriving DecidableEq, Repr

/-- The function `getStatsPeriods` of `utils.js`: each period with the instant it starts at. -/
def getStatsPeriods (now : Int) : List (PeriodType × Int) :=
  [(.lastDay, subHours now 24), (.lastWeek, subDays now 7), (.lastMonth, subDays now 30),
   (.lastYear, subMonths now 12)]

/-- The function `getDifferenceFunction` of `utils.js`. -/
def getDifferenceFunction : PeriodType → Int → Int → Int
  | .lastDay => differenceInHours
  | .lastWeek => differenceInDays
  | .lastMonth => differenceInDays
  | .lastYear => differenceInMonths

/-- An element of a `views` array: a number, `NaN`, or a hole (read as `undefined`). -/
inductive Cell where
  | num (n : Nat)
  | nan
  | hole
deriving DecidableEq, Repr

/-- The object `stats.browser`. -/
structure BrowserStats where
  chrome : Nat
  edge : Nat
  firefox : Nat
  ie : Nat
  opera : Nat
  other : Nat
  safari : Nat
deriving DecidableEq, Repr

/-- The object `stats.os`. -/
structure OsStats where
  android : Nat
  ios : Nat
  linux : Nat
  macos : Nat
  other : Nat
  windows : Nat
deriving DecidableEq, Repr

/-- The object `stats[type].stats`: the four dimension tallies of a period. -/
structure DimStats where
  browser : BrowserStats
  os : OsStats
  country : JsObj
  referrer : JsObj
deriving DecidableEq, Repr

/-- The object `stats[type]`. -/
structure Period where
  stats : DimStats
  views : List Cell
  total : Nat
deriving DecidableEq, Repr

/-- The object `stats` of `find`. -/
structure Stats where
  lastDay : Period
  lastWeek : Period
  lastMonth : Period
  lastYear : Period
deriving DecidableEq, Repr

/-- The property read `stats[type]`. -/
def Stats.get (s : Stats) : PeriodType → Period
  | .lastDay => s.lastDay
  | .lastWeek => s.lastWeek
  | .lastMonth => s.lastMonth
  | .lastYear => s.lastYear

/-- The object `stats` with `stats[type]` replaced. -/
def Stats.set (s : Stats) (type : PeriodType) (p : Period) : Stats :=
  match type with
  | .lastDay => { s with lastDay := p }
  | .lastWeek => { s with lastWeek := p }
  | .lastMonth => { s with lastMonth := p }
  | .lastYear => { s with lastYear := p }

/-- The function `getInitStats` of `utils.js`. -/
def getInitStats : DimStats :=
  { browser := { chrome := 0, edge := 0, firefox := 0, ie := 0, opera := 0, other := 0, safari := 0 }
    os := { android := 0, ios := 0, linux := 0, macos := 0, other := 0, windows := 0 }
    country := []
    referrer := [] }

/-- The initial value of `stats` in `find` (lines 84-105): `views` is `new Array(n).fill(0)`. -/
def initStats : Stats :=
  { lastDay := { stats := getInitStats, views := List.replicate 24 (.num 0), total := 0 }
    lastWeek := { stats := getInitStats, views := List.replicate 7 (.num 0), total := 0 }
    lastMonth := { stats := getInitStats, views := List.replicate 30 (.num 0), total := 0 }
    lastYear := { stats := getInitStats, views := List.replicate 12 (.num 0), total := 0 } }

/-- The expression `x || 0` on a property read: `undefined`, `0` and the empty string are
falsy. -/
def orZero : Option JsVal → JsVal
  | none => .num 0
  | some (.num n) => .num n
  | some (.str s) => if s = "" then .num 0 else .str s

/-- The operator `+`: numbers are added; when an operand is a string the other is converted to
a string and the two are concatenated. -/
def JsVal.add : JsVal → JsVal → JsVal
  | .num a, .num b => .num (a + b)
  | .num a, .str t => .str (toString a ++ t)
  | .str s, .num b => .str (s ++ toString b)
  | .str s, .str t => .str (s ++ t)

/-- The tally `{ ...tally, ...Object.entries(rowMap).reduce(...) }` of lines 140-159: every key
of the row map receives `(tally[key] || 0) + count`, the reads being made on the tally as it
was before the row. -/
def mergeTally (tally rowMap : JsObj) : JsObj :=
  let reduced : JsObj :=
    rowMap.foldl (fun obj kv => obj.set kv.1 ((orZero (tally.get kv.1)).add kv.2)) []
  reduced.foldl (fun obj kv => obj.set kv.1 kv.2) tally

/-- The assignment `views[index] += total`. A negative index names no element (the array keeps
its elements); an index past the end extends the array with holes and stores `NaN`, the sum of
`undefined` and a number. -/
def addView (views : List Cell) (index : Int) (total : Nat) : List Cell :=
  if index < 0 then views
  else if index.toNat < views.length then
    views.set index.toNat
      (match views.getD index.toNat .hole with
       | .num n => .num (n + total)
       | _ => .nan)
  else views ++ List.replicate (index.toNat - views.length) .hole ++ [.nan]

/-- The object `stats[type]` after lines 116-162 have run for a row that the period includes:
the bucket index is computed from the current length of `views`, the dimension tallies are
rebuilt, and `total` grows by the total of the row. -/
def updatePeriod (now : Int) (visit : Visit) (type : PeriodType) (p : Period) : Period :=
  let diffFunction := getDifferenceFunction type
  let diff := diffFunction now visit.created_at
  let index : Int := p.views.length - diff - 1
  let period := p.stats
  { stats :=
      { browser :=
          { chrome := period.browser.chrome + visit.br_chrome
            edge := period.browser.edge + visit.br_edge
            firefox := period.browser.firefox + visit.br_firefox
            ie := period.browser.ie + visit.br_ie
            opera := period.browser.opera + visit.br_opera
            other := period.browser.other + visit.br_other
            safari := period.browser.safari + visit.br_safari }
        os :=
          { android := period.os.android + visit.os_android
            ios := period.os.ios + visit.os_ios
            linux := period.os.linux + visit.os_linux
            macos := period.os.macos + visit.os_macos
            other := period.os.other + visit.os_other
            windows := period.os.windows + visit.os_windows }
        country := mergeTally period.country visit.countries
        referrer := mergeTally period.referrer visit.referrers }
    views := addView p.views index visit.total
    total := p.total + visit.total }

/-- The body of `periods.forEach` (lines 113-163) for one period and one row. -/
def foldPeriod (now : Int) (visit : Visit) (stats : Stats) (entry : PeriodType × Int) : Stats :=
  let isIncluded := isAfter visit.created_at entry.2
  if !isIncluded then stats
  else stats.set entry.1 (updatePeriod now visit entry.1 (stats.get entry.1))

/-- The body of the loop over the rows (lines 112-164) for one row. -/
def foldVisit (now : Int) (stats : Stats) (visit : Visit) : Stats :=
  (getStatsPeriods now).foldl (foldPeriod now visit) stats

/-- The comparator `(a, b) => b.value - a.value` is not positive: `a` may stand before `b`.
A string value makes the difference `NaN`, which `sort` takes as `0`. -/
def sortsBefore (a b : String × JsVal) : Bool :=
  match a.2, b.2 with
  | .num x, .num y => decide (y ≤ x)
  | _, _ => true

/-- The function `objToArr` of `statsObjectToArray`: the entries `{name, value}` of the keys of
the object, sorted by `sort`. `Array.prototype.sort` is stable; the arrangement is computed by
insertion. -/
def objToArr (obj : JsObj) : List (String × JsVal) :=
  List.insertionSort (fun a b => sortsBefore a b = true)
    ((obj.map Prod.fst).map (fun name => (name, (obj.get name).getD (.num 0))))

/-- The object `stats.browser` as the list of its properties, in the order of the literal. -/
def BrowserStats.toObj (b : BrowserStats) : JsObj :=
  [("chrome", .num b.chrome), ("edge", .num b.edge), ("firefox", .num b.firefox),
   ("ie", .num b.ie), ("opera", .num b.opera), ("other", .num b.other),
   ("safari", .num b.safari)]

/-- The object `stats.os` as the list of its properties, in the order of the literal. -/
def OsStats.toObj (o : OsStats) : JsObj :=
  [("android", .num o.android), ("ios", .num o.ios), ("linux", .num o.linux),
   ("macos", .num o.macos), ("other", .num o.other), ("windows", .num o.windows)]

/-- The result of `statsObjectToArray`. -/
structure StatsArrays where
  browser : List (String × JsVal)
  os : List (String × JsVal)
  country : List (String × JsVal)
  referrer : List (String × JsVal)
deriving DecidableEq, Repr

/-- The function `statsObjectToArray` of `utils.js`. -/
def statsObjectToArray (obj : DimStats) : StatsArrays :=
  { browser := objToArr obj.browser.toObj
    os := objToArr obj.os.toObj
    country := objToArr obj.country
    referrer := objToArr obj.referrer }

/-- A period of the response of `find`. -/
structure ResponsePeriod where
  stats : StatsArrays
  views : List Cell
  total : Nat
deriving DecidableEq, Repr

/-- The response of `find`, without `updatedAt` (a second reading of the clock). -/
structure Response where
  lastYear : ResponsePeriod
  lastDay : ResponsePeriod
  lastMonth : ResponsePeriod
  lastWeek : ResponsePeriod
deriving DecidableEq, Repr

/-- The fold of `find` over the rows the query streams. -/
def foldVisits (rows : List Visit) (now : Int) : Stats := rows.foldl (foldVisit now) initStats

/-- The function `find` of `visit.queries.js` for `match = { link_id }`, run at the instant
`now` on the table `visits`, when no cached response is used: the rows of the link are
streamed in storage order and folded into the four periods. -/
def find (visits : List Visit) (now : Int) (link_id : Nat) : Response :=
  let stats := foldVisits (rowsOf link_id visits) now
  { lastYear :=
      { stats := statsObjectToArray stats.lastYear.stats
        views := stats.lastYear.views
        total := stats.lastYear.total }
    lastDay :=
      { stats := statsObjectToArray stats.lastDay.stats
        views := stats.lastDay.views
        total := stats.lastDay.total }
    lastMonth :=
      { stats := statsObjectToArray stats.lastMonth.stats
        views := stats.lastMonth.views
        total := stats.lastMonth.total }
    lastWeek :=
      { stats := statsObjectToArray stats.lastWeek.stats
        views := stats.lastWeek.views
        total := stats.lastWeek.total } }

/-! ## Vocabulary of the properties, continued -/

/-- Following the spec's words ("strip a leading "www.""): the hostname without its `www.`
prefix. -/
def stripLeadingWww (host : String) : String :=
  if "www.".data.isPrefixOf host.data then ⟨host.data.drop 4⟩ else host

/-- Following the spec's words: the referrer key of a hostname, "its 'www.' prefix stripped and
every literal '.' replaced by the placeholder '[dot]', lowercased". -/
def specReferrerKey (hostname : String) : String :=
  toLowerCase (replaceDots (stripLeadingWww hostname))

/-- The referrer key recorded for a visit job: the `referrer` that `visit` passes to `add`, as
`add` lowercases it. -/
def recordedReferrer (urlHostname : String → Option String) (data : VisitJob) : Option String :=
  (visit urlHostname data).map (fun params => (addData params).referrer)

/-- The key names a property that plain objects inherit from `Object.prototype`. -/
def inherited (key : String) : Bool := (objectPrototype.lookup key).isSome

/-- The count a tally object holds for a key: 0 when the key is not an own property, `none`
when the value stored under it is not a number. -/
def JsObj.count (o : JsObj) (key : String) : Option Nat :=
  match o.own key with
  | none => some 0
  | some (.num n) => some n
  | some (.str _) => none

/-- The event increments the counter column `c`: `c` is its browser column or its OS column. -/
def Event.increments (e : Event) (c : Column) : Bool :=
  Column.ofName ("br_" ++ e.params.browser) = some c ∨ Column.ofName ("os_" ++ e.params.os) = some c

/-- The row is the aggregate row of the link in the hour bucket. -/
def Visit.inBucket (link_id : Nat) (bucket : String) (v : Visit) : Bool :=
  v.link_id = link_id ∧ truncatedTimestamp v.created_at = bucket

/-- The country key recorded for a visit job: the `country` that `visit` passes to `add`, as
`add` lowercases it. -/
def recordedCountry (urlHostname : String → Option String) (data : VisitJob) : Option String :=
  (visit urlHostname data).map (fun params => (addData params).country)

/-- The instant a period starts at, as `getStatsPeriods` computes it. -/
def periodStart (now : Int) : PeriodType → Int
  | .lastDay => subHours now 24
  | .lastWeek => subDays now 7
  | .lastMonth => subDays now 30
  | .lastYear => subMonths now 12

/-- The number of buckets of a period: the length `views` is created with. -/
def bucketCount : PeriodType → Nat
  | .lastDay => 24
  | .lastWeek => 7
  | .lastMonth => 30
  | .lastYear => 12

/-- The bucket index of a row in a period: bucket-count - 1 - difference(now, created_at). -/
def bucketIndex (now : Int) (type : PeriodType) (created_at : Int) : Int :=
  bucketCount type - getDifferenceFunction type now created_at - 1

/-- The period includes the row: its `created_at` is after the start of the period. -/
def included (now : Int) (type : PeriodType) (visit : Visit) : Bool :=
  isAfter visit.created_at (periodStart now type)

/-- What one row does to one period of `stats`. -/
def periodStep (now : Int) (type : PeriodType) (p : Period) (visit : Visit) : Period :=
  if included now type visit then updatePeriod now visit type p else p

/-- An aggregate row of `total` visits, all from Chrome on Windows, country `us`, no referrer. -/
def aggregateRow (id link_id : Nat) (created_at : Int) (total : Nat) : Visit :=
  { id := id, link_id := link_id, user_id := 1, created_at := created_at, updated_at := created_at
    total := total
    br_chrome := total, br_edge := 0, br_firefox := 0, br_ie := 0, br_opera := 0, br_other := 0
    br_safari := 0, os_android := 0, os_ios := 0, os_linux := 0, os_macos := 0, os_other := 0
    os_windows := total
    countries := [("us", .num total)]
    referrers := [("direct", .num total)] }

/-- The property read `response[type]`. -/
def Response.get (r : Response) : PeriodType → ResponsePeriod
  | .lastDay => r.lastDay
  | .lastWeek => r.lastWeek
  | .lastMonth => r.lastMonth
  | .lastYear => r.lastYear

/-- The visits of the rows that a period includes and whose bucket index is `i`. -/
def bucketTotal (rows : List Visit) (now : Int) (type : PeriodType) (i : Nat) : Nat :=
  ((rows.filter (fun r => included now type r ∧ bucketIndex now type r.created_at = (i : Int))).map
    (fun r => r.total)).sum

/-- The views array that holds, bucket by bucket, the visits of the rows with that bucket
index. -/
def bucketTotals (rows : List Visit) (now : Int) (type : PeriodType) : List Cell :=
  (List.range (bucketCount type)).map (fun i => Cell.num (bucketTotal rows now type i))

/-- The entries `{name, value}` of an object, one per key, in key iteration order. -/
def entries (obj : JsObj) : List (String × JsVal) :=
  (obj.map Prod.fst).map (fun name => (name, (obj.get name).getD (.num 0)))

/-- Every value of the object is a number. -/
def JsObj.numeric (obj : JsObj) : Prop := ∀ kv ∈ obj, ∃ n, kv.2 = JsVal.num n

/-- The entry `a` has a number at least as large as the number of `b`. -/
def valueGe (a b : String × JsVal) : Prop := ∃ x y, a.2 = JsVal.num x ∧ b.2 = JsVal.num y ∧ y ≤ x

/-- The sum of the elements of a `views` array; `none` when an element is not a number. -/
def viewsSum : List Cell → Option Nat
  | [] => some 0
  | .num n :: cells => (viewsSum cells).map (fun s => n + s)
  | _ :: _ => none

/-- The sum of the values of a tally object; `none` when a value is not a number. -/
def JsObj.valueSum : JsObj → Option Nat
  | [] => some 0
  | (_, .num n) :: o => (JsObj.valueSum o).map (fun s => n + s)
  | (_, .str _) :: _ => none

/-- The `created_at` of the row a call of `add` writes to: that of the row the query finds for
the link and the current hour, or the instant of the call when it inserts a row. -/
def landedAt (visits : List Visit) (now : Int) (params : VisitParams) : Int :=
  match findVisit visits now params.link_id with
  | some visit => visit.created_at
  | none => now

/-! ## The stats cache of `find` -/

/-- An entry of Redis under a key `redis.key.stats(link_id)`: the text `JSON.stringify(response)`
that `find` stored, given by the response and the `updatedAt` it serialises, and the instant the
key expires at. -/
structure CacheEntry where
  response : Response
  updatedAt : Int
  expiresAt : Int
deriving DecidableEq, Repr

/-- Redis, as far as `find` uses it: the entries under the keys `s:<link_id>`, by link id. -/
abbrev StatsCache := List (Nat × CacheEntry)

/-- The call `redis.client.get(key)` at the instant `now`: the entry of the key, unless it has
expired. -/
def StatsCache.get (cache : StatsCache) (now : Int) (link_id : Nat) : Option CacheEntry :=
  match cache.lookup link_id with
  | some entry => if now < entry.expiresAt then some entry else none
  | none => none

/-- The call `redis.client.set(key, value, 'EX', seconds)` at the instant `now`: the key holds
the value and expires `seconds` seconds later. -/
def StatsCache.setEx (cache : StatsCache) (now : Int) (link_id : Nat) (response : Response)
    (updatedAt : Int) (seconds : Int) : StatsCache :=
  (link_id, { response := response, updatedAt := updatedAt, expiresAt := now + seconds * 1000 }) ::
    cache.filter (fun kv => kv.1 ≠ link_id)

/-- The table `visits` and Redis. -/
structure Store where
  visits : List Visit
  cache : StatsCache
deriving DecidableEq, Repr

/-- What `find` returns: `JSON.parse(cached)`, the report read back from the cached text of a
response, or the response it has computed, with its `updatedAt`. -/
inductive Report where
  | parsed (response : Response) (updatedAt : Int)
  | computed (response : Response) (updatedAt : Int)
deriving DecidableEq, Repr

/-- The function `find` of `visit.queries.js` for `match = { link_id }` with its two accesses to
Redis (lines 78-82 and 190-193), run at the instant `now`: the report it returns and the store
it leaves. `redisEnabled` is `env.REDIS_ENABLED`; the link id 0 is falsy. -/
def findWithCache (redisEnabled : Bool) (store : Store) (now : Int) (link_id : Nat) :
    Report × Store :=
  let cached :=
    if link_id ≠ 0 ∧ redisEnabled = true then store.cache.get now link_id else none
  match cached with
  | some entry => (.parsed entry.response entry.updatedAt, store)
  | none =>
    let response := find store.visits now link_id
    let store' :=
      if link_id ≠ 0 ∧ redisEnabled = true then
        { store with cache := store.cache.setEx now link_id response now 60 }
      else store
    (.computed response now, store')

/-- A call of `add` on the store: the transaction writes the table `visits`; the function makes
no call to Redis. -/
def recordInStore (store : Store) (now : Int) (params : VisitParams) : Store :=
  { store with visits := record store.visits now params }

/-- The calls of `add` for a list of events, one after another, on the store. -/
def recordAllInStore (store : Store) (events : List Event) : Store :=
  events.foldl (fun s e => recordInStore s e.now e.params) store

/-! ## The fallback queue and the redirect -/

/-- How a promise settles. -/
inductive Settled where
  | fulfilled
  | rejected
deriving DecidableEq, Repr

/-- The function `visit` of `visit.js` as the processor of a job, run at the instant `now` on
the table `visits`. `none`: it throws before it returns a promise. Otherwise: how the promise
`Promise.all(tasks)` settles, and the table after `query.visit.add`. `incrementVisit` tells
whether the promise of `query.link.incrementVisit` (a query on the table `links`) is
fulfilled, `commits` whether the database commits the transaction of `add` (a lock timeout or a
lost connection makes it fail and leaves the table as it was). -/
def visitProcessor (urlHostname : String → Option String) (incrementVisit commits : Bool)
    (visits : List Visit) (now : Int) (data : VisitJob) : Option (Settled × List Visit) :=
  match visit urlHostname data with
  | none => none
  | some params =>
    match (if commits then add visits now params else none) with
    | some visits' => some (if incrementVisit then .fulfilled else .rejected, visits')
    | none => some (.rejected, visits)

/-- The outcome of a call of `queue.visit.add`: how the promise that the async function returns
settles, whether the handler of `.catch` has run (`console.error('Add visit error: ', error)`),
and the table afterwards. -/
structure AddOutcome where
  promise : Settled
  logged : Bool
  visits : List Visit
deriving DecidableEq, Repr

/-- The method `visit.add` of `queues.js` in the fallback mode (lines 28-37). A throw of
`visitProcessor({ data })` happens inside the async function, before `.catch` is attached to
anything: the promise of the call is rejected. A rejected promise of the processor is handled by
`.catch`, which logs; the async function then returns normally. -/
def queueVisitAdd (urlHostname : String → Option String) (incrementVisit commits : Bool)
    (visits : List Visit) (now : Int) (data : VisitJob) : AddOutcome :=
  match visitProcessor urlHostname incrementVisit commits visits now data with
  | none => { promise := .rejected, logged := false, visits := visits }
  | some (.fulfilled, visits') => { promise := .fulfilled, logged := false, visits := visits' }
  | some (.rejected, visits') => { promise := .fulfilled, logged := true, visits := visits' }

/-- The outcome of steps 7 and 8 of `redirect`: the location of `res.redirect`, and the outcome
of the call of `queue.visit.add` when the handler has made one. -/
structure RedirectOutcome where
  location : String
  added : Option AddOutcome
deriving DecidableEq, Repr

/-- Steps 7 and 8 of the handler `redirect` of `links.handler.js` (lines 629-643) in the
fallback mode, for a link with the target `target`: the call of `queue.visit.add` is made when
the link has an owner and the request is not from a bot, its promise is not awaited, and the
response redirects to the target. -/
def redirect (urlHostname : String → Option String) (incrementVisit commits : Bool)
    (visits : List Visit) (now : Int) (target : String) (isBot : Bool) (data : VisitJob) :
    RedirectOutcome :=
  { location := target
    added :=
      if data.link.user_id ≠ 0 ∧ isBot = false then
        some (queueVisitAdd urlHostname incrementVisit commits visits now data)
      else none }

/-- The promise of `queue.visit.add` is rejected with no handler attached: an unhandled
rejection of the process. -/
def RedirectOutcome.unhandledRejection (o : RedirectOutcome) : Bool :=
  match o.added with
  | some a => decide (a.promise = .rejected)
  | none => false

/-! ## Roles, and the first check of two handlers -/

/-- The constant `ROLES.USER` of `consts.js`. -/
def ROLES.USER : String := "USER"

/-- The constant `ROLES.ADMIN` of `consts.js`. -/
def ROLES.ADMIN : String := "ADMIN"

/-- The constant `ROLES.PREMIUM` of `consts.js`. -/
def ROLES.PREMIUM : String := "PREMIUM"

/-- The property `length` of a string: the number of its UTF-16 code units. -/
def jsLength (s : String) : Nat := (s.data.map (fun c => if c.val < 0x10000 then 1 else 2)).sum

/-- A thrown `CustomError` of `utils.js`: the message and the status code, 500 when the
constructor is given none. -/
structure CustomError where
  message : String
  statusCode : Nat
deriving DecidableEq, Repr

/-- The handler `create` of `links.handler.js` up to line 120: the error the check of the custom
URL throws, or `none` when the handler goes on. `customurl` is `none` when the body has no such
field, and the empty string is falsy; `role` is `req.user.role`. -/
def create (customurl : Option String) (role : String) : Option CustomError :=
  match customurl with
  | none => none
  | some url =>
    if url ≠ "" ∧ jsLength url ≤ 4 ∧ ¬ role ∈ [ROLES.PREMIUM, ROLES.ADMIN] then
      some
        { message := "Custom URL less than 4 characters is only for premium user."
          statusCode := 500 }
    else none

/-- A user, as far as the handlers read it. -/
structure User where
  id : Nat
  role : String
deriving DecidableEq, Repr

/-- A value passed to `isPremium` or `isAdmin`: a user object, or a string. -/
inductive UserArg where
  | user (u : User)
  | string (s : String)
deriving DecidableEq, Repr

/-- The property read `user.role`: the role of a user object; a string has no property `role`
and the read gives `undefined` (`none`). -/
def UserArg.role : UserArg → Option String
  | .user u => some u.role
  | .string _ => none

/-- The function `isAdmin` of `utils.js`. -/
def isAdmin (user : UserArg) : Bool := decide (user.role = some ROLES.ADMIN)

/-- The function `isPremium` of `utils.js`: `[ROLES.ADMIN, ROLES.PREMIUM].includes(user.role)`. -/
def isPremium (user : UserArg) : Bool :=
  match user.role with
  | some role => decide (role ∈ [ROLES.ADMIN, ROLES.PREMIUM])
  | none => false

/-- The handler `add` of `domains.handler.js` up to line 16: the error the limit check throws,
or `none` when the handler goes on to add the domain. `user` is the result of
`query.user.find({ id: req.user.id })` and `total` that of `query.domain.totalAdmin`, read when
the handler asks for it; the handler calls `isPremium(user.role)`. -/
def domainsAdd (user : User) (total : Nat) : Option CustomError :=
  if !isPremium (.string user.role) then
    if total ≥ 1 then
      some { message := "Your plan does not allow you to add more domains.", statusCode := 403 }
    else none
  else none

/-! ## Concurrent calls of `add` -/

/-- Where a call of `add` stands in its transaction: before the locking select of line 39;
after it, with the row the select returned (locked until the transaction ends) or with none; or
at the end of the transaction. -/
inductive Progress where
  | started
  | selected (visit : Option Visit)
  | finished
deriving DecidableEq, Repr

/-- A call of `add` in progress: the instant that `new Date()` gave it, its parameters, and
where it stands. -/
structure Writer where
  now : Int
  params : VisitParams
  progress : Progress
deriving DecidableEq, Repr

/-- The table `visits`, as committed, and the calls of `add` in progress on it. -/
structure Database where
  visits : List Visit
  writers : List Writer
deriving DecidableEq, Repr

/-- The id of the row whose lock a call holds: the row that its select `forUpdate` returned,
until its transaction ends. -/
def Writer.lock (w : Writer) : Option Nat :=
  match w.progress with
  | .selected (some visit) => some visit.id
  | _ => none

/-- Some call in progress holds the lock of the row `id`. -/
def Database.locked (db : Database) (id : Nat) : Bool :=
  db.writers.any (fun w => w.lock = some id)

/-- One step of the call at position `i`, the other calls standing still. A call that has
started runs the select of line 39 on the committed table: when there is no row of the link
and hour it goes on, and there is no row for `forUpdate` to lock; when there is one and
another call holds its lock, it waits (the step changes nothing); otherwise it locks the row. A
call that has selected runs its write, the update of lines 44-59 with the tallies it has read or
the insert of lines 62-70, and commits, which releases its lock; a statement that names an
unknown column rolls the transaction back. -/
def Database.step (db : Database) (i : Nat) : Database :=
  match db.writers[i]? with
  | none => db
  | some w =>
    let data := addData w.params
    match w.progress with
    | .started =>
      match findVisit db.visits w.now data.link_id with
      | some visit =>
        if db.locked visit.id then db
        else { db with writers := db.writers.set i { w with progress := .selected (some visit) } }
      | none => { db with writers := db.writers.set i { w with progress := .selected none } }
    | .selected found =>
      match Column.ofName ("br_" ++ data.browser), Column.ofName ("os_" ++ data.os) with
      | some br, some os =>
        { visits :=
            match found with
            | some visit =>
              db.visits.map (fun row =>
                if row.id = visit.id then updatedRow visit w.now data br os row else row)
            | none => db.visits ++ [insertedRow db.visits w.now data br os]
          writers := db.writers.set i { w with progress := .finished } }
      | _, _ => { db with writers := db.writers.set i { w with progress := .finished } }
    | .finished => db

/-- The run of a schedule: the positions of the calls that take a step, one after another. -/
def Database.run (db : Database) (schedule : List Nat) : Database :=
  schedule.foldl Database.step db

/-- The calls of `add` for a list of events, all started and none past its select, on a
table. -/
def startAll (visits : List Visit) (events : List Event) : Database :=
  { visits := visits
    writers := events.map (fun e => { now := e.now, params := e.params, progress := .started }) }

/-- Every call has ended its transaction. -/
def Database.allFinished (db : Database) : Bool :=
  db.writers.all (fun w => decide (w.progress = .finished))

/-! ## Properties -/

/-! ### The hour bucket -/

theorem civil_year_range (days : Int) (h0 : -719528 ≤ days) (h1 : days < 2932897) :
    0 ≤ (civilFromDays days).year ∧ (civilFromDays days).year ≤ 9999 := by
  simp only [civilFromDays]
  generalize hz : days + 719468 = z
  have hz0 : -60 ≤ z := by omega
  have hz1 : z < 3652365 := by omega
  generalize he : z / 146097 = era
  generalize hd : z % 146097 = doe
  have hdoe : 0 ≤ doe ∧ doe < 146097 := by omega
  have hera : -1 ≤ era ∧ era ≤ 24 := by omega
  generalize hy : (doe - doe / 1460 + doe / 36524 - doe / 146096) / 365 = yoe
  have hyoe : 0 ≤ yoe ∧ yoe ≤ 399 := by omega
  generalize hdy : doe - (365 * yoe + yoe / 4 - yoe / 100) = doy
  generalize hm : (5 * doy + 2) / 153 = mp
  constructor
  · by_cases hn : era = -1
    · have : 146037 ≤ doe := by omega
      have : yoe = 399 := by omega
      have : 306 ≤ doy := by omega
      have : 10 ≤ mp := by omega
      split_ifs <;> omega
    · split_ifs <;> omega
  · by_cases hn : era = 24
    · have : doe < 146037 := by omega
      have : yoe ≤ 399 := by omega
      have hlt : doy < 306 ∨ yoe < 399 := by omega
      rcases hlt with hlt | hlt
      · have : mp < 10 := by omega
        split_ifs <;> omega
      · split_ifs <;> omega
    · split_ifs <;> omega
/-- Every instant from 0000-01-01T00:00:00.000Z up to 9999-12-31T23:59:59.999Z has a
four-digit year. -/
theorem fourDigitYear_of_range (t : Int) (h0 : -62167219200000 ≤ t)
    (h1 : t < 253402300800000) : FourDigitYear t := by
  unfold FourDigitYear utcDate
  exact civil_year_range _ (by omega) (by omega)

theorem toISOString_fourDigit (t : Int) (h : FourDigitYear t) :
    toISOString t =
      ⟨pad4 (utcDate t).year ++ '-' :: pad2 (utcDate t).month ++ '-' :: pad2 (utcDate t).day ++
        'T' :: pad2 (utcHours t) ++ ':' :: pad2 (utcMinutes t) ++ ':' :: pad2 (utcSeconds t) ++
        '.' :: pad3 (utcMilliseconds t) ++ ['Z']⟩ := by
  have h' : 0 ≤ (utcDate t).year ∧ (utcDate t).year ≤ 9999 := h
  unfold toISOString isoYear
  rw [if_pos h']

theorem truncatedNow_eq_truncatedTimestamp (t : Int) (h : FourDigitYear t) :
    truncatedNow t = truncatedTimestamp t := by
  unfold truncatedNow truncatedTimestamp
  rw [toISOString_fourDigit t h]
  apply String.ext
  simp [substring, pad4, pad2, pad3]

theorem hourStart_fields (t : Int) :
    utcDate (hourStart t) = utcDate t ∧ utcHours (hourStart t) = utcHours t ∧
      utcMinutes (hourStart t) = 0 ∧ utcSeconds (hourStart t) = 0 ∧
      utcMilliseconds (hourStart t) = 0 := by
  unfold hourStart
  have h1 : (t - t % 3600000) / 86400000 = t / 86400000 := by omega
  have h2 : (t - t % 3600000) / 3600000 = t / 3600000 := by omega
  refine ⟨?_, ?_, ?_, ?_, ?_⟩
  · unfold utcDate; rw [h1]
  · unfold utcHours; rw [h2]
  · unfold utcMinutes; omega
  · unfold utcSeconds; omega
  · unfold utcMilliseconds; omega

theorem dateToUTC_hourStart (t : Int) (h : FourDigitYear t) :
    dateToUTC (hourStart t) = truncatedTimestamp t := by
  obtain ⟨hd, hh, hm, hs, hms⟩ := hourStart_fields t
  have h' : FourDigitYear (hourStart t) := by unfold FourDigitYear; rw [hd]; exact h
  unfold dateToUTC truncatedTimestamp
  rw [toISOString_fourDigit _ h', hd, hh, hm, hs, hms]
  apply String.ext
  simp [substring, pad4, pad2, pad3]
  decide

/-- C7: for an instant whose ISO string has the form `YYYY-MM-DDTHH:mm:ss.sssZ`, the hour bucket
`truncatedNow` that `add` builds is the text `YYYY-MM-DD HH:00:00` with the UTC date and hour of
the instant; it is the `YYYY-MM-DD hh:mm:ss` text of the start of that hour, an instant with the
same UTC date and hour, zero minutes, seconds and milliseconds, not after the instant and less
than one hour before it. -/
theorem truncatedNow_hour_bucket (t : Int) (h : FourDigitYear t) :
    truncatedNow t =
        ⟨pad4 (utcDate t).year ++ '-' :: pad2 (utcDate t).month ++ '-' :: pad2 (utcDate t).day ++
          ' ' :: pad2 (utcHours t) ++ [':', '0', '0', ':', '0', '0']⟩ ∧
      truncatedNow t = dateToUTC (hourStart t) ∧
      utcDate (hourStart t) = utcDate t ∧ utcHours (hourStart t) = utcHours t ∧
      utcMinutes (hourStart t) = 0 ∧ utcSeconds (hourStart t) = 0 ∧
      utcMilliseconds (hourStart t) = 0 ∧
      hourStart t ≤ t ∧ t < hourStart t + 3600000 := by
  obtain ⟨hd, hh, hm, hs, hms⟩ := hourStart_fields t
  refine ⟨?_, ?_, hd, hh, hm, hs, hms, ?_, ?_⟩
  · rw [truncatedNow_eq_truncatedTimestamp t h]; rfl
  · rw [truncatedNow_eq_truncatedTimestamp t h, dateToUTC_hourStart t h]
  · unfold hourStart; omega
  · unfold hourStart; omega

/-- C7, at 2024-11-06T13:45:12.345Z: the bucket is `2024-11-06 13:00:00`, the text of the
start of the hour. -/
theorem truncatedNow_hour_bucket_witness :
    FourDigitYear 1730900712345 ∧ truncatedNow 1730900712345 = "2024-11-06 13:00:00" ∧
      truncatedNow 1730900712345 = dateToUTC (hourStart 1730900712345) :=
  ⟨by decide, by decide, (truncatedNow_hour_bucket 1730900712345 (by decide)).2.1⟩

/-! ### Columns and rows -/

theorem browser_column (b : String) (h : b ∈ browserNames) :
    ∃ c, Column.ofName ("br_" ++ b) = some c ∧ c.isBrowser = true := by
  simp only [browserNames, List.mem_cons, List.mem_singleton, List.not_mem_nil, or_false] at h
  rcases h with rfl | rfl | rfl | rfl | rfl | rfl | rfl
  · exact ⟨.br_chrome, by decide, rfl⟩
  · exact ⟨.br_edge, by decide, rfl⟩
  · exact ⟨.br_firefox, by decide, rfl⟩
  · exact ⟨.br_ie, by decide, rfl⟩
  · exact ⟨.br_opera, by decide, rfl⟩
  · exact ⟨.br_safari, by decide, rfl⟩
  · exact ⟨.br_other, by decide, rfl⟩

theorem os_column (o : String) (h : o ∈ osNames) :
    ∃ c, Column.ofName ("os_" ++ o) = some c ∧ c.isOs = true := by
  simp only [osNames, List.mem_cons, List.mem_singleton, List.not_mem_nil, or_false] at h
  rcases h with rfl | rfl | rfl | rfl | rfl | rfl
  · exact ⟨.os_windows, by decide, rfl⟩
  · exact ⟨.os_macos, by decide, rfl⟩
  · exact ⟨.os_linux, by decide, rfl⟩
  · exact ⟨.os_android, by decide, rfl⟩
  · exact ⟨.os_ios, by decide, rfl⟩
  · exact ⟨.os_other, by decide, rfl⟩

@[simp] theorem Visit.put_id (v : Visit) (c : Column) (n : Nat) : (v.put c n).id = v.id := by
  cases c <;> rfl

@[simp] theorem Visit.put_link_id (v : Visit) (c : Column) (n : Nat) :
    (v.put c n).link_id = v.link_id := by
  cases c <;> rfl

@[simp] theorem Visit.put_user_id (v : Visit) (c : Column) (n : Nat) :
    (v.put c n).user_id = v.user_id := by
  cases c <;> rfl

@[simp] theorem Visit.put_created_at (v : Visit) (c : Column) (n : Nat) :
    (v.put c n).created_at = v.created_at := by
  cases c <;> rfl

@[simp] theorem Visit.put_updated_at (v : Visit) (c : Column) (n : Nat) :
    (v.put c n).updated_at = v.updated_at := by
  cases c <;> rfl

@[simp] theorem Visit.put_total (v : Visit) (c : Column) (n : Nat) :
    (v.put c n).total = v.total := by
  cases c <;> rfl

@[simp] theorem Visit.put_countries (v : Visit) (c : Column) (n : Nat) :
    (v.put c n).countries = v.countries := by
  cases c <;> rfl

@[simp] theorem Visit.put_referrers (v : Visit) (c : Column) (n : Nat) :
    (v.put c n).referrers = v.referrers := by
  cases c <;> rfl

@[simp] theorem Visit.get_put_same (v : Visit) (c : Column) (n : Nat) : (v.put c n).get c = n := by
  cases c <;> rfl

theorem Visit.get_put_of_ne (v : Visit) (c d : Column) (n : Nat) (h : d ≠ c) :
    (v.put c n).get d = v.get d := by
  cases c <;> cases d <;> first | rfl | exact absurd rfl h

theorem Visit.sums_put_browser (v : Visit) (c : Column) (n : Nat) (h : c.isBrowser = true) :
    (v.put c n).browserSum + v.get c = v.browserSum + n ∧ (v.put c n).osSum = v.osSum := by
  cases c <;> simp [Column.isBrowser] at h <;>
    simp [Visit.put, Visit.get, Visit.browserSum, Visit.osSum] <;> omega

theorem Visit.sums_put_os (v : Visit) (c : Column) (n : Nat) (h : c.isOs = true) :
    (v.put c n).osSum + v.get c = v.osSum + n ∧ (v.put c n).browserSum = v.browserSum := by
  cases c <;> simp [Column.isOs] at h <;>
    simp [Visit.put, Visit.get, Visit.browserSum, Visit.osSum] <;> omega

theorem insertedRow_sums (visits : List Visit) (now : Int) (data : VisitParams) (br os : Column)
    (hb : br.isBrowser = true) (ho : os.isOs = true) :
    (insertedRow visits now data br os).total = (insertedRow visits now data br os).browserSum ∧
      (insertedRow visits now data br os).total = (insertedRow visits now data br os).osSum := by
  cases br <;> simp [Column.isBrowser] at hb <;> cases os <;> simp [Column.isOs] at ho <;>
    simp [insertedRow, Visit.put, Visit.browserSum, Visit.osSum]

theorem updatedRow_sums (visit : Visit) (now : Int) (data : VisitParams) (br os : Column)
    (row : Visit) (hb : br.isBrowser = true) (ho : os.isOs = true)
    (h : row.total = row.browserSum ∧ row.total = row.osSum) :
    (updatedRow visit now data br os row).total = (updatedRow visit now data br os row).browserSum ∧
      (updatedRow visit now data br os row).total = (updatedRow visit now data br os row).osSum := by
  obtain ⟨h1, h2⟩ := h
  have e1 := Visit.sums_put_browser row br (row.get br + 1) hb
  have e2 := Visit.sums_put_os (row.put br (row.get br + 1)) os
    ((row.put br (row.get br + 1)).get os + 1) ho
  simp only [updatedRow, Visit.increment, Visit.browserSum, Visit.osSum] at *
  omega

/-! ### One call of `add` -/

theorem add_of_columns (visits : List Visit) (now : Int) (params : VisitParams) (br os : Column)
    (hb : Column.ofName ("br_" ++ params.browser) = some br)
    (ho : Column.ofName ("os_" ++ params.os) = some os) :
    add visits now params =
      match findVisit visits now params.link_id with
      | some visit =>
        some (visits.map (fun row =>
          if row.id = visit.id then updatedRow visit now (addData params) br os row else row))
      | none => some (visits ++ [insertedRow visits now (addData params) br os]) := by
  have hb' : Column.ofName ("br_" ++ (addData params).browser) = some br := hb
  have ho' : Column.ofName ("os_" ++ (addData params).os) = some os := ho
  have hl : (addData params).link_id = params.link_id := rfl
  unfold add
  simp only [hb', ho', hl]

theorem findVisit_eq_none (visits : List Visit) (now : Int) (link_id : Nat) :
    findVisit visits now link_id = none ↔
      ∀ r ∈ visits, ¬ (r.link_id = link_id ∧ truncatedTimestamp r.created_at = truncatedNow now) := by
  unfold findVisit
  simp [List.find?_eq_none]

theorem findVisit_some (visits : List Visit) (now : Int) (link_id : Nat) (visit : Visit)
    (h : findVisit visits now link_id = some visit) :
    visit ∈ visits ∧ visit.link_id = link_id ∧
      truncatedTimestamp visit.created_at = truncatedNow now := by
  unfold findVisit at h
  have h1 := List.mem_of_find?_eq_some h
  have h2 := List.find?_some h
  simp at h2
  exact ⟨h1, h2.1, h2.2⟩

theorem add_insert (visits : List Visit) (now : Int) (params : VisitParams) (br os : Column)
    (hb : Column.ofName ("br_" ++ params.browser) = some br)
    (ho : Column.ofName ("os_" ++ params.os) = some os)
    (hnone : ∀ r ∈ visits,
      ¬ (r.link_id = params.link_id ∧ truncatedTimestamp r.created_at = truncatedNow now)) :
    add visits now params = some (visits ++ [insertedRow visits now (addData params) br os]) := by
  rw [add_of_columns visits now params br os hb ho,
    (findVisit_eq_none visits now params.link_id).2 hnone]

theorem add_preserves_sums (visits : List Visit) (now : Int) (params : VisitParams)
    (hb : params.browser ∈ browserNames) (ho : params.os ∈ osNames)
    (hinv : ∀ r ∈ visits, r.total = r.browserSum ∧ r.total = r.osSum) :
    ∃ visits', add visits now params = some visits' ∧
      ∀ r ∈ visits', r.total = r.browserSum ∧ r.total = r.osSum := by
  obtain ⟨br, hbr, hbb⟩ := browser_column _ hb
  obtain ⟨os, hos, hoo⟩ := os_column _ ho
  rw [add_of_columns visits now params br os hbr hos]
  cases hf : findVisit visits now params.link_id with
  | none =>
    refine ⟨_, rfl, ?_⟩
    intro r hr
    rcases List.mem_append.1 hr with h | h
    · exact hinv r h
    · rw [List.mem_singleton.1 h]
      exact insertedRow_sums _ _ _ _ _ hbb hoo
  | some visit =>
    refine ⟨_, rfl, ?_⟩
    intro r hr
    obtain ⟨row, hrow, rfl⟩ := List.mem_map.1 hr
    by_cases hid : row.id = visit.id
    · rw [if_pos hid]
      exact updatedRow_sums _ _ _ _ _ _ hbb hoo (hinv row hrow)
    · rw [if_neg hid]
      exact hinv row hrow

theorem addAll_preserves_sums (events : List Event) :
    ∀ visits : List Visit,
      (∀ e ∈ events, e.params.browser ∈ browserNames) →
      (∀ e ∈ events, e.params.os ∈ osNames) →
      (∀ r ∈ visits, r.total = r.browserSum ∧ r.total = r.osSum) →
      ∃ visits', addAll visits events = some visits' ∧
        ∀ r ∈ visits', r.total = r.browserSum ∧ r.total = r.osSum := by
  induction events with
  | nil => intro visits _ _ hinv; exact ⟨visits, rfl, hinv⟩
  | cons e es ih =>
    intro visits hb ho hinv
    obtain ⟨v1, h1, hinv1⟩ := add_preserves_sums visits e.now e.params
      (hb e (List.mem_cons_self _ _)) (ho e (List.mem_cons_self _ _)) hinv
    obtain ⟨v2, h2, hinv2⟩ := ih v1 (fun x hx => hb x (List.mem_cons_of_mem _ hx))
      (fun x hx => ho x (List.mem_cons_of_mem _ hx)) hinv1
    refine ⟨v2, ?_, hinv2⟩
    simp [addAll, h1, h2]

/-- C1: every sequence of `add` calls whose browser and OS lie in the closed sets, run one after
another from the empty table, succeeds, and every row of the resulting table has
`total` = sum of its seven browser counters = sum of its six OS counters. -/
theorem add_total_eq_counter_sums (events : List Event)
    (hb : ∀ e ∈ events, e.params.browser ∈ browserNames)
    (ho : ∀ e ∈ events, e.params.os ∈ osNames) :
    ∃ visits, addAll [] events = some visits ∧
      ∀ r ∈ visits, r.total = r.browserSum ∧ r.total = r.osSum :=
  addAll_preserves_sums events [] hb ho (fun _ h => absurd h (List.not_mem_nil _))

/-- C1, on three visits: two in one hour, one in the next. -/
theorem add_total_eq_counter_sums_witness :
    ∃ visits,
      addAll []
        [⟨1730900712345, ⟨"chrome", "US", 7, 3, "windows", "Direct"⟩⟩,
         ⟨1730900999000, ⟨"ie", "de", 7, 3, "macos", "example[dot]com"⟩⟩,
         ⟨1730904312345, ⟨"other", "Unknown", 7, 3, "other", "Direct"⟩⟩] = some visits ∧
      ∀ r ∈ visits, r.total = r.browserSum ∧ r.total = r.osSum :=
  add_total_eq_counter_sums _ (by decide) (by decide)

/-! ### One row per link and hour -/

theorem updatedRow_key (visit : Visit) (now : Int) (data : VisitParams) (br os : Column)
    (row : Visit) : (updatedRow visit now data br os row).key = row.key := by
  simp [updatedRow, Visit.key, Visit.increment]

theorem insertedRow_key (visits : List Visit) (now : Int) (data : VisitParams) (br os : Column) :
    (insertedRow visits now data br os).key = (data.link_id, truncatedTimestamp now) := by
  simp [insertedRow, Visit.key]

theorem map_key_update (visits : List Visit) (visit : Visit) (now : Int) (data : VisitParams)
    (br os : Column) :
    (visits.map (fun row =>
      if row.id = visit.id then updatedRow visit now data br os row else row)).map Visit.key =
      visits.map Visit.key := by
  rw [List.map_map]
  apply List.map_congr_left
  intro row _
  by_cases hid : row.id = visit.id
  · simp [hid, updatedRow_key]
  · simp [hid]

/-- C3: `record` keeps "at most one row per (link_id, hour bucket)": if the keys of the table
are pairwise different before a call made at a four-digit-year instant, they are afterwards.
When a row for the event's link and current hour exists the call inserts nothing (the keys of
the table are the same list), and a call never adds more than one row. -/
theorem record_preserves_one_row_per_bucket (visits : List Visit) (now : Int)
    (params : VisitParams) (hnow : FourDigitYear now) (h : (visits.map Visit.key).Nodup) :
    ((record visits now params).map Visit.key).Nodup ∧
      ((∃ r ∈ visits, r.link_id = params.link_id ∧
          truncatedTimestamp r.created_at = truncatedNow now) →
        (record visits now params).map Visit.key = visits.map Visit.key) ∧
      (record visits now params).length ≤ visits.length + 1 := by
  unfold record
  cases hbr : Column.ofName ("br_" ++ params.browser) with
  | none =>
    have : add visits now params = none := by
      have hb' : Column.ofName ("br_" ++ (addData params).browser) = none := hbr
      unfold add
      simp only [hb']
    simp [this, h]
  | some br =>
    cases hos : Column.ofName ("os_" ++ params.os) with
    | none =>
      have : add visits now params = none := by
        have hb' : Column.ofName ("br_" ++ (addData params).browser) = some br := hbr
        have ho' : Column.ofName ("os_" ++ (addData params).os) = none := hos
        unfold add
        simp only [hb', ho']
      simp [this, h]
    | some os =>
      rw [add_of_columns visits now params br os hbr hos]
      cases hf : findVisit visits now params.link_id with
      | some visit =>
        simp only [Option.getD_some, map_key_update, List.length_map]
        exact ⟨h, fun _ => trivial, Nat.le_succ _⟩
      | none =>
        have hnone := (findVisit_eq_none visits now params.link_id).1 hf
        simp only [Option.getD_some, List.map_append, List.map_cons, List.map_nil,
          List.length_append, List.length_singleton, le_refl, and_true]
        refine ⟨?_, ?_⟩
        · rw [List.nodup_append]
          refine ⟨h, List.nodup_singleton _, ?_⟩
          intro k hk hk'
          rw [List.mem_singleton] at hk'
          obtain ⟨r, hr, hrk⟩ := List.mem_map.1 hk
          rw [hk', insertedRow_key, ← truncatedNow_eq_truncatedTimestamp now hnow] at hrk
          simp only [Visit.key, Prod.mk.injEq] at hrk
          exact hnone r hr ⟨hrk.1, hrk.2⟩
        · rintro ⟨r, hr, hl, ht⟩
          exact absurd ⟨hl, ht⟩ (hnone r hr)

/-- C3, on a table holding the row of the first visit of an hour: a second visit in that hour
and a visit in the next hour both keep the keys pairwise different. -/
theorem record_preserves_one_row_per_bucket_witness :
    FourDigitYear 1730900999000 ∧
      ((record [] 1730900712345 ⟨"chrome", "US", 7, 3, "windows", "Direct"⟩).map Visit.key).Nodup ∧
      ((record (record [] 1730900712345 ⟨"chrome", "US", 7, 3, "windows", "Direct"⟩)
        1730900999000 ⟨"ie", "de", 7, 3, "macos", "Direct"⟩).map Visit.key).Nodup :=
  ⟨by decide, by decide,
    (record_preserves_one_row_per_bucket
      (record [] 1730900712345 ⟨"chrome", "US", 7, 3, "windows", "Direct"⟩) 1730900999000
      ⟨"ie", "de", 7, 3, "macos", "Direct"⟩ (by decide) (by decide)).1⟩

/-! ### Visits in different hours -/

theorem rowsOf_append (link_id : Nat) (xs ys : List Visit) :
    rowsOf link_id (xs ++ ys) = rowsOf link_id xs ++ rowsOf link_id ys := by
  simp [rowsOf]

theorem addAll_distinct_hours (link_id : Nat) (events : List Event) :
    ∀ visits : List Visit,
      (∀ e ∈ events, e.params.link_id = link_id) →
      (∀ e ∈ events, e.params.browser ∈ browserNames) →
      (∀ e ∈ events, e.params.os ∈ osNames) →
      (∀ e ∈ events, FourDigitYear e.now) →
      (events.map (fun e => truncatedNow e.now)).Nodup →
      (∀ r ∈ visits, r.link_id = link_id →
        truncatedTimestamp r.created_at ∉ events.map (fun e => truncatedNow e.now)) →
      ∃ visits' added, addAll visits events = some visits' ∧
        rowsOf link_id visits' = rowsOf link_id visits ++ added ∧
        added.map (fun r => truncatedTimestamp r.created_at) =
          events.map (fun e => truncatedNow e.now) ∧
        ∀ r ∈ added, r.total = 1 := by
  induction events with
  | nil =>
    intro visits _ _ _ _ _ _
    exact ⟨visits, [], rfl, by simp, rfl, by simp⟩
  | cons e es ih =>
    intro visits hl hb ho hy hd hfresh
    obtain ⟨br, hbr, -⟩ := browser_column _ (hb e (List.mem_cons_self _ _))
    obtain ⟨os, hos, -⟩ := os_column _ (ho e (List.mem_cons_self _ _))
    have hle : e.params.link_id = link_id := hl e (List.mem_cons_self _ _)
    have hye := hy e (List.mem_cons_self _ _)
    rw [List.map_cons, List.nodup_cons] at hd
    have hnone : ∀ r ∈ visits, ¬ (r.link_id = e.params.link_id ∧
        truncatedTimestamp r.created_at = truncatedNow e.now) := by
      rintro r hr ⟨h1, h2⟩
      exact hfresh r hr (h1.trans hle) (by rw [h2]; exact List.mem_cons_self _ _)
    have hadd := add_insert visits e.now e.params br os hbr hos hnone
    have hrowL : (insertedRow visits e.now (addData e.params) br os).link_id = link_id := by
      simp [insertedRow, addData, hle]
    have hrowT : truncatedTimestamp (insertedRow visits e.now (addData e.params) br os).created_at
        = truncatedNow e.now := by
      simp [insertedRow, truncatedNow_eq_truncatedTimestamp e.now hye]
    obtain ⟨v2, added, h2, hrows, hbuckets, htotal⟩ :=
      ih (visits ++ [insertedRow visits e.now (addData e.params) br os])
        (fun x hx => hl x (List.mem_cons_of_mem _ hx))
        (fun x hx => hb x (List.mem_cons_of_mem _ hx))
        (fun x hx => ho x (List.mem_cons_of_mem _ hx))
        (fun x hx => hy x (List.mem_cons_of_mem _ hx)) hd.2
        (by
          intro r hr hrl
          rcases List.mem_append.1 hr with h | h
          · exact fun hm => hfresh r h hrl (List.mem_cons_of_mem _ hm)
          · rw [List.mem_singleton.1 h, hrowT]
            exact hd.1)
    refine ⟨v2, insertedRow visits e.now (addData e.params) br os :: added, ?_, ?_, ?_, ?_⟩
    · simp [addAll, hadd, h2]
    · rw [hrows, rowsOf_append]
      simp [rowsOf, hrowL]
    · simp [hbuckets, hrowT]
    · intro r hr
      rcases List.mem_cons.1 hr with h | h
      · rw [h]; simp [insertedRow]
      · exact htotal r h

/-- C4: N calls of `add` for one link, made at four-digit-year instants in N pairwise different
hour buckets and run one after another on a table with no row of that link, succeed and leave
exactly N rows of the link: their hour buckets are, row by row, the buckets of the N calls, and
each has `total = 1`. -/
theorem add_distinct_hours (link_id : Nat) (visits : List Visit) (events : List Event)
    (hl : ∀ e ∈ events, e.params.link_id = link_id)
    (hb : ∀ e ∈ events, e.params.browser ∈ browserNames)
    (ho : ∀ e ∈ events, e.params.os ∈ osNames)
    (hy : ∀ e ∈ events, FourDigitYear e.now)
    (hd : (events.map (fun e => truncatedNow e.now)).Nodup)
    (hempty : ∀ r ∈ visits, r.link_id ≠ link_id) :
    ∃ visits', addAll visits events = some visits' ∧
      (rowsOf link_id visits').length = events.length ∧
      (rowsOf link_id visits').map (fun r => truncatedTimestamp r.created_at) =
        events.map (fun e => truncatedNow e.now) ∧
      ∀ r ∈ rowsOf link_id visits', r.total = 1 := by
  obtain ⟨visits', added, hrun, hrows, hbuckets, htotal⟩ :=
    addAll_distinct_hours link_id events visits hl hb ho hy hd
      (fun r hr hrl => absurd hrl (hempty r hr))
  have h0 : rowsOf link_id visits = [] := by
    simp only [rowsOf, List.filter_eq_nil_iff, decide_eq_true_eq]
    exact hempty
  rw [h0, List.nil_append] at hrows
  refine ⟨visits', hrun, ?_, ?_, ?_⟩
  · rw [hrows, ← List.length_map added (fun r => truncatedTimestamp r.created_at), hbuckets,
      List.length_map]
  · rw [hrows, hbuckets]
  · rw [hrows]; exact htotal

/-- C4, on three visits of link 7 in three consecutive hours, the table holding one row of
another link. -/
theorem add_distinct_hours_witness :
    (∀ r ∈ (record [] 1730900712345 ⟨"chrome", "US", 8, 3, "windows", "Direct"⟩), r.link_id ≠ 7) ∧
    ∃ visits',
      addAll (record [] 1730900712345 ⟨"chrome", "US", 8, 3, "windows", "Direct"⟩)
        [⟨1730900712345, ⟨"chrome", "US", 7, 3, "windows", "Direct"⟩⟩,
         ⟨1730904312345, ⟨"ie", "de", 7, 3, "macos", "Direct"⟩⟩,
         ⟨1730907912345, ⟨"other", "Unknown", 7, 3, "other", "Direct"⟩⟩] = some visits' ∧
      (rowsOf 7 visits').length = 3 ∧
      (rowsOf 7 visits').map (fun r => truncatedTimestamp r.created_at) =
        [⟨1730900712345, ⟨"chrome", "US", 7, 3, "windows", "Direct"⟩⟩,
         ⟨1730904312345, ⟨"ie", "de", 7, 3, "macos", "Direct"⟩⟩,
         ⟨1730907912345, ⟨"other", "Unknown", 7, 3, "other", "Direct"⟩⟩].map
          (fun e : Event => truncatedNow e.now) ∧
      ∀ r ∈ rowsOf 7 visits', r.total = 1 :=
  ⟨by decide,
    add_distinct_hours 7 _ _ (by decide) (by decide) (by decide) (by decide) (by decide)
      (by decide)⟩

/-! ### The insert branch -/

/-- C6: when the table holds no row of the event's link in the event's current hour and the
event's browser and OS lie in the closed sets, `add` appends exactly one row to the table and
changes no existing row; the new row has `total = 1`, the browser counter and the OS counter of
the event equal to 1, every other browser and OS counter equal to 0, `countries` and `referrers`
holding the single key of the event (lowercased) with the count 1, and `link_id` and `user_id`
of the event. -/
theorem add_inserts_row (visits : List Visit) (now : Int) (params : VisitParams)
    (hb : params.browser ∈ browserNames) (ho : params.os ∈ osNames)
    (hnone : ∀ r ∈ visits,
      ¬ (r.link_id = params.link_id ∧ truncatedTimestamp r.created_at = truncatedNow now)) :
    ∃ row br os,
      Column.ofName ("br_" ++ params.browser) = some br ∧
      Column.ofName ("os_" ++ params.os) = some os ∧
      add visits now params = some (visits ++ [row]) ∧
      row.total = 1 ∧ row.get br = 1 ∧ row.get os = 1 ∧
      (∀ c, c ≠ br → c ≠ os → row.get c = 0) ∧
      row.countries = [(toLowerCase params.country, .num 1)] ∧
      row.referrers = [(toLowerCase params.referrer, .num 1)] ∧
      row.link_id = params.link_id ∧ row.user_id = params.user_id := by
  obtain ⟨br, hbr, hbb⟩ := browser_column _ hb
  obtain ⟨os, hos, hoo⟩ := os_column _ ho
  have hne : br ≠ os := by
    intro h; rw [h] at hbb; cases os <;> simp [Column.isBrowser, Column.isOs] at hbb hoo
  refine ⟨insertedRow visits now (addData params) br os, br, os, hbr, hos,
    add_insert visits now params br os hbr hos hnone, ?_, ?_, ?_, ?_, ?_, ?_, ?_, ?_⟩
  · simp [insertedRow]
  · simp [insertedRow, Visit.get_put_of_ne _ os br 1 hne]
  · simp [insertedRow]
  · intro c hc1 hc2
    simp only [insertedRow]
    rw [Visit.get_put_of_ne _ os c 1 hc2, Visit.get_put_of_ne _ br c 1 hc1]
    cases c <;> rfl
  · simp [insertedRow, addData]
  · simp [insertedRow, addData]
  · simp [insertedRow, addData]
  · simp [insertedRow, addData]

/-- C6, on the first visit of a link, the table holding a row of another hour. -/
theorem add_inserts_row_witness :
    ∃ row br os,
      Column.ofName ("br_" ++ "firefox") = some br ∧
      Column.ofName ("os_" ++ "linux") = some os ∧
      add (record [] 1730900712345 ⟨"chrome", "US", 7, 3, "windows", "Direct"⟩) 1730904312345
        ⟨"firefox", "DE", 7, 3, "linux", "Example[dot]com"⟩ =
        some (record [] 1730900712345 ⟨"chrome", "US", 7, 3, "windows", "Direct"⟩ ++ [row]) ∧
      row.total = 1 ∧ row.get br = 1 ∧ row.get os = 1 ∧
      (∀ c, c ≠ br → c ≠ os → row.get c = 0) ∧
      row.countries = [(toLowerCase "DE", .num 1)] ∧
      row.referrers = [(toLowerCase "Example[dot]com", .num 1)] ∧
      row.link_id = 7 ∧ row.user_id = 3 :=
  add_inserts_row (record [] 1730900712345 ⟨"chrome", "US", 7, 3, "windows", "Direct"⟩)
    1730904312345 ⟨"firefox", "DE", 7, 3, "linux", "Example[dot]com"⟩ (by decide) (by decide)
    (by decide)

/-! ### The classifier -/

/-- C8: the browser class that `visit` passes to `add` is the lowercase of the first of IE,
Firefox, Chrome, Opera, Safari, Edge whose lowercase occurs in the lowercased family, and
`other` when none does; it is one of the seven browser classes, and the family `Other` is
classified `other`. -/
theorem visitBrowser_first_match (agent : Agent) :
    visitBrowser agent =
        (if includes (toLowerCase agent.family) "ie" then "ie"
         else if includes (toLowerCase agent.family) "firefox" then "firefox"
         else if includes (toLowerCase agent.family) "chrome" then "chrome"
         else if includes (toLowerCase agent.family) "opera" then "opera"
         else if includes (toLowerCase agent.family) "safari" then "safari"
         else if includes (toLowerCase agent.family) "edge" then "edge"
         else "other") ∧
      visitBrowser agent ∈ ["ie", "firefox", "chrome", "opera", "safari", "edge", "other"] ∧
      visitBrowser agent ∈ browserNames ∧
      visitBrowser { agent with family := "Other" } = "other" := by
  have e1 : toLowerCase "IE" = "ie" := by decide
  have e2 : toLowerCase "Firefox" = "firefox" := by decide
  have e3 : toLowerCase "Chrome" = "chrome" := by decide
  have e4 : toLowerCase "Opera" = "opera" := by decide
  have e5 : toLowerCase "Safari" = "safari" := by decide
  have e6 : toLowerCase "Edge" = "edge" := by decide
  have e7 : toLowerCase "Other" = "other" := by decide
  have key : ∀ a : Agent, visitBrowser a =
        (if includes (toLowerCase a.family) "ie" then "ie"
         else if includes (toLowerCase a.family) "firefox" then "firefox"
         else if includes (toLowerCase a.family) "chrome" then "chrome"
         else if includes (toLowerCase a.family) "opera" then "opera"
         else if includes (toLowerCase a.family) "safari" then "safari"
         else if includes (toLowerCase a.family) "edge" then "edge"
         else "other") := by
    intro a
    unfold visitBrowser browsersList filterInBrowser
    simp only [List.filter_cons, List.filter_nil, e1, e2, e3, e4, e5, e6]
    split_ifs <;> simp only [List.headD_cons, List.headD_nil, e1, e2, e3, e4, e5, e6, e7]
  refine ⟨key agent, ?_, ?_, ?_⟩
  · rw [key agent]; split_ifs <;> decide
  · rw [key agent]; split_ifs <;> decide
  · rw [key]; dsimp only; decide

/-- C9: the OS class that `visit` passes to `add` is the first of Windows, Mac OS, Linux,
Android, iOS whose lowercase occurs in the lowercased OS family, lowercased and with its
whitespace removed (`Mac OS` gives `macos`), and `other` when none does; it is one of the six
OS classes and `os_` followed by it is a counter column of `visits`. -/
theorem visitOs_first_match (agent : Agent) :
    visitOs agent =
        (if includes (toLowerCase agent.osFamily) "windows" then "windows"
         else if includes (toLowerCase agent.osFamily) "mac os" then "macos"
         else if includes (toLowerCase agent.osFamily) "linux" then "linux"
         else if includes (toLowerCase agent.osFamily) "android" then "android"
         else if includes (toLowerCase agent.osFamily) "ios" then "ios"
         else "other") ∧
      visitOs agent ∈ ["windows", "macos", "linux", "android", "ios", "other"] ∧
      (∃ c, Column.ofName ("os_" ++ visitOs agent) = some c ∧ c.isOs = true) := by
  have e1 : toLowerCase "Windows" = "windows" := by decide
  have e2 : toLowerCase "Mac OS" = "mac os" := by decide
  have e3 : toLowerCase "Linux" = "linux" := by decide
  have e4 : toLowerCase "Android" = "android" := by decide
  have e5 : toLowerCase "iOS" = "ios" := by decide
  have e6 : toLowerCase "Other" = "other" := by decide
  have r1 : removeSpaces "windows" = "windows" := by decide
  have r2 : removeSpaces "mac os" = "macos" := by decide
  have r3 : removeSpaces "linux" = "linux" := by decide
  have r4 : removeSpaces "android" = "android" := by decide
  have r5 : removeSpaces "ios" = "ios" := by decide
  have r6 : removeSpaces "other" = "other" := by decide
  have key : visitOs agent =
        (if includes (toLowerCase agent.osFamily) "windows" then "windows"
         else if includes (toLowerCase agent.osFamily) "mac os" then "macos"
         else if includes (toLowerCase agent.osFamily) "linux" then "linux"
         else if includes (toLowerCase agent.osFamily) "android" then "android"
         else if includes (toLowerCase agent.osFamily) "ios" then "ios"
         else "other") := by
    unfold visitOs osList filterInOs
    simp only [List.filter_cons, List.filter_nil, e1, e2, e3, e4, e5]
    split_ifs <;>
      simp only [List.headD_cons, List.headD_nil, e1, e2, e3, e4, e5, e6, r1, r2, r3, r4, r5, r6]
  have hmem : visitOs agent ∈ osNames := by
    rw [key]; split_ifs <;> decide
  refine ⟨key, ?_, os_column _ hmem⟩
  rw [key]; split_ifs <;> decide

/-! ### The referrer key -/

theorem replaceFirstChars_of_isPrefixOf (pat rep l : List Char) (hp : pat ≠ [])
    (h : pat.isPrefixOf l = true) : replaceFirstChars pat rep l = rep ++ l.drop pat.length := by
  cases l with
  | nil => cases pat with
    | nil => exact absurd rfl hp
    | cons a as => simp [List.isPrefixOf] at h
  | cons c cs => simp [replaceFirstChars, h]

theorem replaceFirstChars_of_not_any (pat rep : List Char) :
    ∀ l : List Char, l.tails.any (fun t => pat.isPrefixOf t) = false →
      replaceFirstChars pat rep l = l := by
  intro l
  induction l with
  | nil => intro _; rfl
  | cons c cs ih =>
    intro h
    simp only [List.tails, List.any_cons, Bool.or_eq_false_iff] at h
    simp [replaceFirstChars, h.1, ih h.2]

theorem removeWww_eq_stripLeadingWww (h : String)
    (hw : "www.".data.isPrefixOf h.data = true ∨ includes h "www." = false) :
    removeWww h = stripLeadingWww h := by
  have hne : "www.".data ≠ [] := by decide
  have hemp : "www.".data.isEmpty = false := by decide
  have hlen : "www.".data.length = 4 := by decide
  have hnil : "".data = [] := rfl
  unfold removeWww replaceFirst stripLeadingWww
  rw [hemp]
  simp only [Bool.false_eq_true, if_false]
  rcases hw with hw | hw
  · rw [if_pos hw, replaceFirstChars_of_isPrefixOf _ _ _ hne hw, hlen]
    simp
  · have hnp : "www.".data.isPrefixOf h.data = false := by
      unfold includes at hw
      cases hd : h.data with
      | nil => decide
      | cons c cs =>
        rw [hd] at hw
        simp only [List.tails, List.any_cons, Bool.or_eq_false_iff] at hw
        exact hw.1
    rw [replaceFirstChars_of_not_any _ _ _ hw, hnp]
    simp

theorem toLower_eq_dot (c : Char) (h : c.toLower = '.') : c = '.' := by
  unfold Char.toLower at h
  dsimp only at h
  split_ifs at h with hc
  · exfalso
    generalize c.toNat = n at h hc
    obtain ⟨h1, h2⟩ := hc
    interval_cases n <;> exact absurd h (by decide)
  · exact h

theorem not_mem_toLowerCase_dot (s : String) (h : '.' ∉ s.data) : '.' ∉ (toLowerCase s).data := by
  unfold toLowerCase
  simp only [List.mem_map, not_exists, not_and]
  intro c hc hl
  exact h (toLower_eq_dot c hl ▸ hc)

theorem not_mem_replaceDots_dot (s : String) : '.' ∉ (replaceDots s).data := by
  unfold replaceDots
  simp only [List.mem_flatMap, not_exists, not_and]
  intro c _ hm
  by_cases hc : c = '.'
  · rw [if_pos hc] at hm
    revert hm
    decide
  · rw [if_neg hc, List.mem_singleton] at hm
    exact hc hm.symm

theorem replaceDots_eq_empty (s : String) : replaceDots s = "" ↔ s = "" := by
  constructor
  · intro h
    have hd : (replaceDots s).data = [] := by rw [h]
    unfold replaceDots at hd
    simp only [List.flatMap_eq_nil_iff] at hd
    apply String.ext
    cases hs : s.data with
    | nil => rfl
    | cons c cs =>
      exfalso
      have := hd c (by rw [hs]; exact List.mem_cons_self _ _)
      split_ifs at this
  · intro h
    rw [h]
    decide

/-- C10, as the spec states it, fails. For the referrer `http://www./` (hostname `www.`) the
recorded key is `direct`, where the hostname with its prefix stripped and its dots replaced is
the empty string; so the key is not, for every referrer with a non-empty hostname, the one the
spec describes. For the hostname `blog.www.example.com` the recorded key is
`blog[dot]example[dot]com`: `removeWww` removes a `www.` that is not a prefix. -/
theorem recordedReferrer_not_spec_key :
    (¬ ∀ (urlHostname : String → Option String) (data : VisitJob) (r h : String),
        data.referrer = some r → r ≠ "" → urlHostname r = some h → h ≠ "" →
        recordedReferrer urlHostname data = some (specReferrerKey h)) ∧
      recordedReferrer (fun _ => some "www.")
          ⟨⟨"Chrome", "Windows"⟩, none, none, some "http://www./", ⟨1, 2⟩⟩ = some "direct" ∧
      specReferrerKey "www." = "" ∧
      recordedReferrer (fun _ => some "blog.www.example.com")
          ⟨⟨"Chrome", "Windows"⟩, none, none, some "https://blog.www.example.com/", ⟨1, 2⟩⟩ =
        some "blog[dot]example[dot]com" ∧
      specReferrerKey "blog.www.example.com" = "blog[dot]www[dot]example[dot]com" := by
  refine ⟨?_, by decide, by decide, by decide, by decide⟩
  intro hall
  have := hall (fun _ => some "www.")
    ⟨⟨"Chrome", "Windows"⟩, none, none, some "http://www./", ⟨1, 2⟩⟩ "http://www./" "www."
    rfl (by decide) rfl (by decide)
  revert this
  decide

/-- C10, amended: for a supplied referrer that parses as a URL whose hostname begins with
`www.` or does not contain `www.`, the recorded referrer key is `direct` when nothing
remains of the hostname once the prefix is stripped (hostname `www.`), and otherwise the
hostname with its `www.` prefix stripped and every `.` replaced by `[dot]`, lowercased; the key
contains no `.`, and the hostname `www.example.com` yields `example[dot]com`. -/
theorem recordedReferrer_key (urlHostname : String → Option String) (data : VisitJob)
    (r h : String) (hr : data.referrer = some r) (hr0 : r ≠ "") (hp : urlHostname r = some h)
    (hw : "www.".data.isPrefixOf h.data = true ∨ includes h "www." = false) :
    ∃ key, recordedReferrer urlHostname data = some key ∧
      key = (if stripLeadingWww h = "" then "direct" else specReferrerKey h) ∧
      '.' ∉ key.data ∧
      (h = "www.example.com" → key = "example[dot]com") := by
  have hkey : recordedReferrer urlHostname data =
      some (if stripLeadingWww h = "" then "direct" else specReferrerKey h) := by
    unfold recordedReferrer visit visitReferrerHost
    simp only [hr, hr0, hp, if_false, Option.map_some', removeWww_eq_stripLeadingWww h hw]
    unfold visitReferrer orElse addData specReferrerKey
    simp only [Option.map_some', replaceDots_eq_empty]
    by_cases he : stripLeadingWww h = ""
    · simp only [he, if_true, Option.getD_some]
      decide
    · simp only [he, if_false, Option.getD_some]
  refine ⟨_, hkey, rfl, ?_, ?_⟩
  · split_ifs
    · decide
    · exact not_mem_toLowerCase_dot _ (not_mem_replaceDots_dot _)
  · intro he
    rw [he]
    decide

/-- C10, amended, at the referrer `https://www.example.com/x`: the key is `example[dot]com`. -/
theorem recordedReferrer_key_witness :
    ∃ key,
      recordedReferrer (fun _ => some "www.example.com")
          ⟨⟨"Chrome", "Windows"⟩, none, none, some "https://www.example.com/x", ⟨1, 2⟩⟩ =
        some key ∧
      key = (if stripLeadingWww "www.example.com" = "" then "direct"
        else specReferrerKey "www.example.com") ∧
      '.' ∉ key.data ∧
      ("www.example.com" = "www.example.com" → key = "example[dot]com") :=
  recordedReferrer_key (fun _ => some "www.example.com")
    ⟨⟨"Chrome", "Windows"⟩, none, none, some "https://www.example.com/x", ⟨1, 2⟩⟩
    "https://www.example.com/x" "www.example.com" rfl (by decide) rfl (Or.inl (by decide))

/-! ### Keys that a plain object inherits -/

/-- C5, at a failing input: the row of the hour holds the referrer tally `direct: 1`, and a
visit of the same link and hour arrives with the referrer key `constructor` (the hostname of
`http://constructor/`). The key is missing from the tally, yet the update does not store the
count 1 under it: it stores a string, the text of the inherited `Object` function followed by
`1`. -/
theorem add_update_inherited_key :
    (record [] 1730900712345 ⟨"chrome", "US", 7, 3, "windows", "Direct"⟩).map Visit.referrers =
        [[("direct", .num 1)]] ∧
      (add (record [] 1730900712345 ⟨"chrome", "US", 7, 3, "windows", "Direct"⟩) 1730900999000
          ⟨"chrome", "US", 7, 3, "windows", "constructor"⟩).map (List.map Visit.referrers) =
        some [[("direct", .num 1),
          ("constructor", .str "function Object() \x7b [native code] \x7d1")]] := by
  decide

/-- C2, at a failing input: two visits of one link in one hour, with the referrer keys `direct`
and `constructor`. Run in that order the row ends with a string under `constructor`, not the
count 1; run in the other order it ends with the count 1 under both keys. The final tallies
depend on the order of the events. -/
theorem addAll_inherited_key_order :
    (addAll []
        [⟨1730900712345, ⟨"chrome", "US", 7, 3, "windows", "Direct"⟩⟩,
         ⟨1730900999000, ⟨"chrome", "US", 7, 3, "windows", "constructor"⟩⟩]).map
        (List.map Visit.referrers) =
      some [[("direct", .num 1),
        ("constructor", .str "function Object() \x7b [native code] \x7d1")]] ∧
    (addAll []
        [⟨1730900999000, ⟨"chrome", "US", 7, 3, "windows", "constructor"⟩⟩,
         ⟨1730900712345, ⟨"chrome", "US", 7, 3, "windows", "Direct"⟩⟩]).map
        (List.map Visit.referrers) =
      some [[("constructor", .num 1), ("direct", .num 1)]] := by
  decide

/-! ### The update branch, away from inherited keys -/

theorem JsObj.own_cons (k key : String) (w : JsVal) (o : JsObj) :
    JsObj.own ((k, w) :: o) key = if k = key then some w else JsObj.own o key := by
  unfold JsObj.own
  by_cases h : k = key
  · subst h; simp [List.lookup]
  · have h' : (key == k) = false := by simpa using fun e => h e.symm
    simp [List.lookup, h, h']

theorem JsObj.own_set_same (o : JsObj) (key : String) (v : JsVal) :
    (o.set key v).own key = some v := by
  unfold JsObj.set
  split_ifs with h
  · induction o with
    | nil => simp [JsObj.own] at h
    | cons kv o ih =>
      obtain ⟨k, w⟩ := kv
      rw [JsObj.own_cons] at h
      by_cases hk : k = key
      · simp [hk, JsObj.own_cons]
      · rw [if_neg hk] at h
        simp only [List.map_cons, hk, if_false, JsObj.own_cons]
        exact ih h
  · induction o with
    | nil => simp [JsObj.own_cons]
    | cons kv o ih =>
      obtain ⟨k, w⟩ := kv
      rw [JsObj.own_cons] at h
      by_cases hk : k = key
      · simp [hk] at h
      · rw [if_neg hk] at h
        simp only [List.cons_append, JsObj.own_cons, hk, if_false]
        exact ih h

theorem JsObj.own_set_of_ne (o : JsObj) (key k' : String) (v : JsVal) (hne : k' ≠ key) :
    (o.set key v).own k' = o.own k' := by
  unfold JsObj.set
  split_ifs with h
  · clear h
    induction o with
    | nil => rfl
    | cons kv o ih =>
      obtain ⟨k, w⟩ := kv
      by_cases hk : k = key
      · have hk2 : ¬ key = k' := fun e => hne e.symm
        have hk3 : ¬ k = k' := fun e => hne (e.symm.trans hk)
        simp only [List.map_cons, hk, if_true, JsObj.own_cons, hk2, hk3, if_false]
        exact ih
      · simp only [List.map_cons, hk, if_false, JsObj.own_cons]
        rw [ih]
  · clear h
    induction o with
    | nil =>
      have hk2 : ¬ key = k' := fun e => hne e.symm
      simp [JsObj.own_cons, hk2]
    | cons kv o ih =>
      obtain ⟨k, w⟩ := kv
      simp only [List.cons_append, JsObj.own_cons]
      rw [ih]

theorem JsObj.get_of_not_inherited (o : JsObj) (key : String) (h : inherited key = false) :
    o.get key = o.own key := by
  unfold inherited at h
  unfold JsObj.get
  cases ho : o.own key with
  | some v => rfl
  | none =>
    cases hp : objectPrototype.lookup key with
    | none => rfl
    | some s => rw [hp] at h; simp at h

theorem JsObj.count_set_plusOne (o : JsObj) (key : String) (n : Nat)
    (hk : inherited key = false) (hn : o.count key = some n) :
    (o.set key (plusOne (o.get key))).count key = some (n + 1) ∧
      ∀ k, k ≠ key → (o.set key (plusOne (o.get key))).count k = o.count k := by
  constructor
  · rw [JsObj.get_of_not_inherited o key hk]
    unfold JsObj.count at hn ⊢
    rw [JsObj.own_set_same]
    cases ho : o.own key with
    | none => rw [ho] at hn; simp at hn; simp [plusOne, hn]
    | some v =>
      rw [ho] at hn
      cases v with
      | num m => simp at hn; simp [plusOne, hn]
      | str s => simp at hn
  · intro k hne
    unfold JsObj.count
    rw [JsObj.own_set_of_ne o key k _ hne]

theorem updatedRow_get (visit : Visit) (now : Int) (data : VisitParams) (br os c : Column)
    (row : Visit) (hne : br ≠ os) :
    (updatedRow visit now data br os row).get c =
      row.get c + (if c = br ∨ c = os then 1 else 0) := by
  have h0 : (updatedRow visit now data br os row).get c =
      ((row.increment br).increment os).get c := by
    unfold updatedRow; cases c <;> rfl
  rw [h0]
  unfold Visit.increment
  by_cases h2 : c = os
  · subst h2
    rw [Visit.get_put_same, Visit.get_put_of_ne _ br c _ (fun e => hne e.symm)]
    simp
  · rw [Visit.get_put_of_ne _ os c _ h2]
    by_cases h1 : c = br
    · subst h1; simp
    · rw [Visit.get_put_of_ne _ br c _ h1]; simp [h1, h2]

theorem updatedRow_inBucket (link_id : Nat) (bucket : String) (visit : Visit) (now : Int)
    (data : VisitParams) (br os : Column) (row : Visit) :
    Visit.inBucket link_id bucket (updatedRow visit now data br os row) =
      Visit.inBucket link_id bucket row := by
  simp [Visit.inBucket, updatedRow, Visit.increment]

theorem findVisit_of_filter (visits : List Visit) (now : Int) (link_id : Nat) (r : Visit)
    (h : visits.filter (Visit.inBucket link_id (truncatedNow now)) = [r]) :
    findVisit visits now link_id = some r := by
  have e : (fun v : Visit => decide (v.link_id = link_id ∧
      truncatedTimestamp v.created_at = truncatedNow now)) =
      Visit.inBucket link_id (truncatedNow now) := by
    funext v; simp [Visit.inBucket]
  unfold findVisit
  rw [e, ← List.filter_head?, h]
  rfl

theorem add_update_of_filter (visits : List Visit) (now : Int) (params : VisitParams)
    (br os : Column) (r : Visit)
    (hb : Column.ofName ("br_" ++ params.browser) = some br)
    (ho : Column.ofName ("os_" ++ params.os) = some os)
    (h : visits.filter (Visit.inBucket params.link_id (truncatedNow now)) = [r]) :
    ∃ visits', add visits now params = some visits' ∧
      visits'.filter (Visit.inBucket params.link_id (truncatedNow now)) =
        [updatedRow r now (addData params) br os r] := by
  rw [add_of_columns visits now params br os hb ho, findVisit_of_filter visits now _ r h]
  refine ⟨_, rfl, ?_⟩
  have hf : ∀ row : Visit,
      Visit.inBucket params.link_id (truncatedNow now)
        (if row.id = r.id then updatedRow r now (addData params) br os row else row) =
      Visit.inBucket params.link_id (truncatedNow now) row := by
    intro row
    split_ifs
    · exact updatedRow_inBucket _ _ _ _ _ _ _ _
    · rfl
  rw [List.filter_map]
  have hc : (Visit.inBucket params.link_id (truncatedNow now) ∘ fun row : Visit =>
      if row.id = r.id then updatedRow r now (addData params) br os row else row) =
      Visit.inBucket params.link_id (truncatedNow now) := by
    funext row; exact hf row
  rw [hc, h]
  simp

theorem column_kinds_ne (br os : Column) (hb : br.isBrowser = true) (ho : os.isOs = true) :
    br ≠ os := by
  intro h; rw [h] at hb; cases os <;> simp [Column.isBrowser, Column.isOs] at hb ho

theorem Event.increments_iff (e : Event) (br os c : Column)
    (hb : Column.ofName ("br_" ++ e.params.browser) = some br)
    (ho : Column.ofName ("os_" ++ e.params.os) = some os) :
    e.increments c = true ↔ (c = br ∨ c = os) := by
  unfold Event.increments
  rw [hb, ho]
  simp only [Option.some.injEq, decide_eq_true_eq]
  constructor
  · rintro (h | h)
    · exact Or.inl h.symm
    · exact Or.inr h.symm
  · rintro (h | h)
    · exact Or.inl h.symm
    · exact Or.inr h.symm

theorem JsObj.count_step (o : JsObj) (key : String) (hk : inherited key = false)
    (ho : ∀ k, (o.count k).isSome = true) (k : String) :
    (o.set key (plusOne (o.get key))).count k =
      (o.count k).map (fun n => n + (if key = k then 1 else 0)) := by
  obtain ⟨n, hn⟩ := Option.isSome_iff_exists.1 (ho key)
  obtain ⟨h1, h2⟩ := JsObj.count_set_plusOne o key n hk hn
  by_cases hkk : key = k
  · subst hkk; rw [h1, hn]; simp
  · rw [h2 k (fun e => hkk e.symm)]
    obtain ⟨m, hm⟩ := Option.isSome_iff_exists.1 (ho k)
    rw [hm]; simp [hkk]

theorem addAll_updates (link_id : Nat) (bucket : String) (events : List Event) :
    ∀ (visits : List Visit) (r : Visit),
      visits.filter (Visit.inBucket link_id bucket) = [r] →
      (∀ e ∈ events, e.params.link_id = link_id) →
      (∀ e ∈ events, truncatedNow e.now = bucket) →
      (∀ e ∈ events, e.params.browser ∈ browserNames) →
      (∀ e ∈ events, e.params.os ∈ osNames) →
      (∀ e ∈ events, inherited (toLowerCase e.params.country) = false) →
      (∀ e ∈ events, inherited (toLowerCase e.params.referrer) = false) →
      (∀ k, (r.countries.count k).isSome = true) →
      (∀ k, (r.referrers.count k).isSome = true) →
      ∃ visits' r', addAll visits events = some visits' ∧
        visits'.filter (Visit.inBucket link_id bucket) = [r'] ∧
        r'.total = r.total + events.length ∧
        (∀ c, r'.get c = r.get c + events.countP (fun e => e.increments c)) ∧
        (∀ k, r'.countries.count k = (r.countries.count k).map
          (fun n => n + events.countP (fun e => toLowerCase e.params.country = k))) ∧
        (∀ k, r'.referrers.count k = (r.referrers.count k).map
          (fun n => n + events.countP (fun e => toLowerCase e.params.referrer = k))) := by
  induction events with
  | nil =>
    intro visits r hf _ _ _ _ _ _ hc hr
    refine ⟨visits, r, rfl, hf, by simp, by simp, ?_, ?_⟩
    · intro k; obtain ⟨n, hn⟩ := Option.isSome_iff_exists.1 (hc k); simp [hn]
    · intro k; obtain ⟨n, hn⟩ := Option.isSome_iff_exists.1 (hr k); simp [hn]
  | cons e es ih =>
    intro visits r hf hl hh hb ho hkc hkr hc hr
    have he := List.mem_cons_self e es
    obtain ⟨br, hbr, hbb⟩ := browser_column _ (hb e he)
    obtain ⟨os, hos, hoo⟩ := os_column _ (ho e he)
    have hne := column_kinds_ne br os hbb hoo
    have hf' : visits.filter (Visit.inBucket e.params.link_id (truncatedNow e.now)) = [r] := by
      rw [hl e he, hh e he]; exact hf
    obtain ⟨v1, hadd, hf1⟩ := add_update_of_filter visits e.now e.params br os r hbr hos hf'
    rw [hl e he, hh e he] at hf1
    have hcu : ∀ k, (updatedRow r e.now (addData e.params) br os r).countries.count k =
        (r.countries.count k).map (fun n => n + (if toLowerCase e.params.country = k then 1 else 0)) :=
      fun k => JsObj.count_step r.countries _ (hkc e he) hc k
    have hru : ∀ k, (updatedRow r e.now (addData e.params) br os r).referrers.count k =
        (r.referrers.count k).map (fun n => n + (if toLowerCase e.params.referrer = k then 1 else 0)) :=
      fun k => JsObj.count_step r.referrers _ (hkr e he) hr k
    obtain ⟨v2, r2, hrun, hf2, ht, hg, hcc, hrr⟩ := ih v1 _ hf1
      (fun x hx => hl x (List.mem_cons_of_mem _ hx))
      (fun x hx => hh x (List.mem_cons_of_mem _ hx))
      (fun x hx => hb x (List.mem_cons_of_mem _ hx))
      (fun x hx => ho x (List.mem_cons_of_mem _ hx))
      (fun x hx => hkc x (List.mem_cons_of_mem _ hx))
      (fun x hx => hkr x (List.mem_cons_of_mem _ hx))
      (fun k => by
        obtain ⟨n, hn⟩ := Option.isSome_iff_exists.1 (hc k); rw [hcu k, hn]; rfl)
      (fun k => by
        obtain ⟨n, hn⟩ := Option.isSome_iff_exists.1 (hr k); rw [hru k, hn]; rfl)
    refine ⟨v2, r2, ?_, hf2, ?_, ?_, ?_, ?_⟩
    · simp [addAll, hadd, hrun]
    · rw [ht]; simp [updatedRow]; omega
    · intro c
      rw [hg c, updatedRow_get _ _ _ _ _ _ _ hne, List.countP_cons]
      have := Event.increments_iff e br os c hbr hos
      by_cases hc' : c = br ∨ c = os
      · rw [if_pos hc', if_pos (this.2 hc')]; omega
      · have : ¬ e.increments c = true := fun h => hc' (this.1 h)
        rw [if_neg hc', if_neg this]; omega
    · intro k
      obtain ⟨n, hn⟩ := Option.isSome_iff_exists.1 (hc k)
      rw [hcc k, hcu k, hn, List.countP_cons]
      by_cases hk : toLowerCase e.params.country = k
      · simp [hk]; omega
      · simp [hk]
    · intro k
      obtain ⟨n, hn⟩ := Option.isSome_iff_exists.1 (hr k)
      rw [hrr k, hru k, hn, List.countP_cons]
      by_cases hk : toLowerCase e.params.referrer = k
      · simp [hk]; omega
      · simp [hk]

theorem insertedRow_get (visits : List Visit) (now : Int) (data : VisitParams) (br os c : Column)
    (hne : br ≠ os) :
    (insertedRow visits now data br os).get c = if c = br ∨ c = os then 1 else 0 := by
  simp only [insertedRow]
  by_cases h2 : c = os
  · subst h2; simp
  · rw [Visit.get_put_of_ne _ os c _ h2]
    by_cases h1 : c = br
    · subst h1; simp
    · rw [Visit.get_put_of_ne _ br c _ h1, if_neg (by simp [h1, h2])]
      cases c <;> rfl

theorem JsObj.count_singleton (key k : String) :
    JsObj.count [(key, .num 1)] k = some (if key = k then 1 else 0) := by
  unfold JsObj.count
  rw [JsObj.own_cons]
  by_cases h : key = k
  · simp [h]
  · simp [h, JsObj.own]

/-- The tallies of one hour, when no key of an event after the first names an inherited
property: N ≥ 1 calls of `add` for one link, made at four-digit-year instants of one hour bucket
on a table with no row of that bucket, succeed and leave exactly one row of the bucket; its
`total` is N, each counter is the number of events that name it, and each country and referrer
key holds the number of events with that key. -/
theorem addAll_same_hour_counts (link_id : Nat) (bucket : String) (visits : List Visit)
    (e : Event) (es : List Event)
    (hl : ∀ x ∈ e :: es, x.params.link_id = link_id)
    (hh : ∀ x ∈ e :: es, truncatedNow x.now = bucket)
    (hy : ∀ x ∈ e :: es, FourDigitYear x.now)
    (hb : ∀ x ∈ e :: es, x.params.browser ∈ browserNames)
    (ho : ∀ x ∈ e :: es, x.params.os ∈ osNames)
    (hkc : ∀ x ∈ es, inherited (toLowerCase x.params.country) = false)
    (hkr : ∀ x ∈ es, inherited (toLowerCase x.params.referrer) = false)
    (hnone : visits.filter (Visit.inBucket link_id bucket) = []) :
    ∃ visits' row, addAll visits (e :: es) = some visits' ∧
      visits'.filter (Visit.inBucket link_id bucket) = [row] ∧
      row.total = (e :: es).length ∧
      (∀ c, row.get c = (e :: es).countP (fun x => x.increments c)) ∧
      (∀ k, row.countries.count k =
        some ((e :: es).countP (fun x => toLowerCase x.params.country = k))) ∧
      (∀ k, row.referrers.count k =
        some ((e :: es).countP (fun x => toLowerCase x.params.referrer = k))) := by
  have he := List.mem_cons_self e es
  obtain ⟨br, hbr, hbb⟩ := browser_column _ (hb e he)
  obtain ⟨os, hos, hoo⟩ := os_column _ (ho e he)
  have hne := column_kinds_ne br os hbb hoo
  have hfree : ∀ r ∈ visits, ¬ (r.link_id = e.params.link_id ∧
      truncatedTimestamp r.created_at = truncatedNow e.now) := by
    intro r hr hk
    have : r ∈ visits.filter (Visit.inBucket link_id bucket) := by
      rw [List.mem_filter]
      refine ⟨hr, ?_⟩
      simp only [Visit.inBucket, decide_eq_true_eq]
      exact ⟨hk.1.trans (hl e he), hk.2.trans (hh e he)⟩
    rw [hnone] at this
    exact absurd this (List.not_mem_nil _)
  have hadd := add_insert visits e.now e.params br os hbr hos hfree
  have hin : Visit.inBucket link_id bucket
      (insertedRow visits e.now (addData e.params) br os) = true := by
    simp only [Visit.inBucket, decide_eq_true_eq]
    refine ⟨?_, ?_⟩
    · simp only [insertedRow, Visit.put_link_id, addData]; exact hl e he
    · simp only [insertedRow, Visit.put_created_at]
      rw [← truncatedNow_eq_truncatedTimestamp e.now (hy e he)]; exact hh e he
  have hf1 : (visits ++ [insertedRow visits e.now (addData e.params) br os]).filter
      (Visit.inBucket link_id bucket) = [insertedRow visits e.now (addData e.params) br os] := by
    rw [List.filter_append, hnone, List.nil_append, List.filter_cons, if_pos hin, List.filter_nil]
  have hc0 : ∀ k, (insertedRow visits e.now (addData e.params) br os).countries.count k =
      some (if toLowerCase e.params.country = k then 1 else 0) := by
    intro k
    simp only [insertedRow, Visit.put_countries]
    exact JsObj.count_singleton _ k
  have hr0 : ∀ k, (insertedRow visits e.now (addData e.params) br os).referrers.count k =
      some (if toLowerCase e.params.referrer = k then 1 else 0) := by
    intro k
    simp only [insertedRow, Visit.put_referrers]
    exact JsObj.count_singleton _ k
  obtain ⟨v2, r2, hrun, hf2, ht, hg, hcc, hrr⟩ := addAll_updates link_id bucket es _ _ hf1
    (fun x hx => hl x (List.mem_cons_of_mem _ hx))
    (fun x hx => hh x (List.mem_cons_of_mem _ hx))
    (fun x hx => hb x (List.mem_cons_of_mem _ hx))
    (fun x hx => ho x (List.mem_cons_of_mem _ hx)) hkc hkr
    (fun k => by rw [hc0 k]; rfl) (fun k => by rw [hr0 k]; rfl)
  refine ⟨v2, r2, ?_, hf2, ?_, ?_, ?_, ?_⟩
  · simp [addAll, hadd, hrun]
  · rw [ht]; simp [insertedRow]; omega
  · intro c
    rw [hg c, insertedRow_get _ _ _ _ _ _ hne, List.countP_cons]
    have := Event.increments_iff e br os c hbr hos
    by_cases hc' : c = br ∨ c = os
    · rw [if_pos hc', if_pos (this.2 hc')]; omega
    · have : ¬ e.increments c = true := fun h => hc' (this.1 h)
      rw [if_neg hc', if_neg this]; omega
  · intro k
    rw [hcc k, hc0 k, List.countP_cons]
    by_cases hk : toLowerCase e.params.country = k
    · simp [hk]; omega
    · simp [hk]
  · intro k
    rw [hrr k, hr0 k, List.countP_cons]
    by_cases hk : toLowerCase e.params.referrer = k
    · simp [hk]; omega
    · simp [hk]

/-- The update branch as a frame: when the query finds the row `visit` of the event's link and
current hour, and ids are a key of the table, `add` replaces that row and leaves every other row
as it was. In the new row `total`, the event's browser counter and the event's OS counter are
one higher, `updated_at` is the instant of the call, every other counter and `id`, `link_id`,
`user_id`, `created_at` are unchanged, every tally key other than the event's is unchanged, and
the event's key holds `(old ?? 0) + 1`: one more than its count (a missing key counting 0)
whenever the key does not name an inherited property. -/
theorem add_update_frame (visits : List Visit) (now : Int) (params : VisitParams) (visit : Visit)
    (hids : (visits.map (fun v => v.id)).Nodup)
    (hb : params.browser ∈ browserNames) (ho : params.os ∈ osNames)
    (hf : findVisit visits now params.link_id = some visit) :
    ∃ br os row',
      Column.ofName ("br_" ++ params.browser) = some br ∧
      Column.ofName ("os_" ++ params.os) = some os ∧
      add visits now params = some (visits.map (fun row => if row = visit then row' else row)) ∧
      row'.id = visit.id ∧ row'.link_id = visit.link_id ∧ row'.user_id = visit.user_id ∧
      row'.created_at = visit.created_at ∧ row'.updated_at = now ∧
      row'.total = visit.total + 1 ∧
      row'.get br = visit.get br + 1 ∧ row'.get os = visit.get os + 1 ∧
      (∀ c, c ≠ br → c ≠ os → row'.get c = visit.get c) ∧
      (∀ k, k ≠ toLowerCase params.country → row'.countries.own k = visit.countries.own k) ∧
      (∀ k, k ≠ toLowerCase params.referrer → row'.referrers.own k = visit.referrers.own k) ∧
      row'.countries.own (toLowerCase params.country) =
        some (plusOne (visit.countries.get (toLowerCase params.country))) ∧
      row'.referrers.own (toLowerCase params.referrer) =
        some (plusOne (visit.referrers.get (toLowerCase params.referrer))) ∧
      (inherited (toLowerCase params.country) = false →
        ∀ n, visit.countries.count (toLowerCase params.country) = some n →
          row'.countries.count (toLowerCase params.country) = some (n + 1)) ∧
      (inherited (toLowerCase params.referrer) = false →
        ∀ n, visit.referrers.count (toLowerCase params.referrer) = some n →
          row'.referrers.count (toLowerCase params.referrer) = some (n + 1)) := by
  obtain ⟨br, hbr, hbb⟩ := browser_column _ hb
  obtain ⟨os, hos, hoo⟩ := os_column _ ho
  have hne := column_kinds_ne br os hbb hoo
  have hmem := (findVisit_some visits now _ visit hf).1
  refine ⟨br, os, updatedRow visit now (addData params) br os visit, hbr, hos, ?_, ?_, ?_, ?_,
    ?_, ?_, ?_, ?_, ?_, ?_, ?_, ?_, ?_, ?_, ?_, ?_⟩
  · rw [add_of_columns visits now params br os hbr hos, hf]
    simp only [Option.some.injEq]
    apply List.map_congr_left
    intro row hrow
    by_cases hid : row.id = visit.id
    · have : row = visit := List.inj_on_of_nodup_map hids hrow hmem hid
      rw [if_pos hid, if_pos this, this]
    · have : ¬ row = visit := fun e => hid (by rw [e])
      rw [if_neg hid, if_neg this]
  · simp [updatedRow, Visit.increment]
  · simp [updatedRow, Visit.increment]
  · simp [updatedRow, Visit.increment]
  · simp [updatedRow, Visit.increment]
  · simp [updatedRow]
  · simp [updatedRow]
  · rw [updatedRow_get _ _ _ _ _ _ _ hne]; simp
  · rw [updatedRow_get _ _ _ _ _ _ _ hne]; simp
  · intro c h1 h2
    rw [updatedRow_get _ _ _ _ _ _ _ hne]; simp [h1, h2]
  · intro k hk
    exact JsObj.own_set_of_ne _ _ _ _ hk
  · intro k hk
    exact JsObj.own_set_of_ne _ _ _ _ hk
  · exact JsObj.own_set_same _ _ _
  · exact JsObj.own_set_same _ _ _
  · intro hk n hn
    exact (JsObj.count_set_plusOne _ _ n hk hn).1
  · intro hk n hn
    exact (JsObj.count_set_plusOne _ _ n hk hn).1

/-! ### `removeWww` -/

/-- C11, at a failing input: the host `blog.www.example.com` does not start with `www.`, yet
`removeWww` does not return it: the `www.` in the middle is removed. -/
theorem removeWww_inner_www :
    "www.".data.isPrefixOf "blog.www.example.com".data = false ∧
      removeWww "blog.www.example.com" = "blog.example.com" ∧
      removeWww "blog.www.example.com" ≠ "blog.www.example.com" := by
  decide

/-- What holds of `removeWww`: a host that begins with `www.` loses that prefix and nothing
else, and a host in which `www.` does not occur is returned as it is. -/
theorem removeWww_leading (rest host : String) :
    removeWww ("www." ++ rest) = rest ∧ (includes host "www." = false → removeWww host = host) := by
  constructor
  · have hp : "www.".data.isPrefixOf ("www." ++ rest).data = true := by
      simp [String.data_append]
    rw [removeWww_eq_stripLeadingWww _ (Or.inl hp)]
    unfold stripLeadingWww
    rw [if_pos hp]
    apply String.ext
    simp [String.data_append]
  · intro h
    rw [removeWww_eq_stripLeadingWww _ (Or.inr h)]
    unfold stripLeadingWww
    have hnp : "www.".data.isPrefixOf host.data = false := by
      unfold includes at h
      cases hd : host.data with
      | nil => decide
      | cons c cs =>
        rw [hd] at h
        simp only [List.tails, List.any_cons, Bool.or_eq_false_iff] at h
        exact h.1
    rw [hnp]
    simp

/-! ### The visit processor: referrer, country, failure -/

/-- C12: when the job carries no referrer (the field is absent or the empty string), `visit`
completes and the referrer key recorded by `visit` and `add` is `direct`. -/
theorem recordedReferrer_direct (urlHostname : String → Option String) (data : VisitJob)
    (h : data.referrer = none ∨ data.referrer = some "") :
    recordedReferrer urlHostname data = some "direct" := by
  unfold recordedReferrer visit visitReferrerHost
  rcases h with h | h <;> rw [h] <;> simp [visitReferrer, orElse, addData] <;> decide

/-- C12, on a job without a referrer and on a job with the empty referrer. -/
theorem recordedReferrer_direct_witness :
    recordedReferrer (fun _ => none) ⟨⟨"Chrome", "Windows"⟩, some "US", none, none, ⟨1, 2⟩⟩ =
        some "direct" ∧
      recordedReferrer (fun _ => none) ⟨⟨"Chrome", "Windows"⟩, some "US", none, some "", ⟨1, 2⟩⟩ =
        some "direct" :=
  ⟨recordedReferrer_direct _ _ (Or.inl rfl), recordedReferrer_direct _ _ (Or.inr rfl)⟩

theorem toLower_not_isUpper (c : Char) : c.toLower.isUpper = false := by
  unfold Char.toLower
  dsimp only
  split_ifs with hc
  · generalize c.toNat = n at hc
    obtain ⟨h1, h2⟩ := hc
    interval_cases n <;> decide
  · simp only [Char.isUpper, Char.toNat, ge_iff_le, not_and, not_le] at hc ⊢
    have : ¬ (c.val ≥ 65 ∧ c.val ≤ 90) := by
      intro ⟨h1, h2⟩
      have h1' : 65 ≤ c.val.toNat := h1
      have h2' : c.val.toNat ≤ 90 := h2
      omega
    simpa using this

theorem toLowerCase_no_upper (s : String) : ∀ c ∈ (toLowerCase s).data, c.isUpper = false := by
  unfold toLowerCase
  intro c hc
  simp only [List.mem_map] at hc
  obtain ⟨d, _, rfl⟩ := hc
  exact toLower_not_isUpper d

/-- C13: the country key recorded for a visit is the lowercase of the country header when the
job has a non-empty one, otherwise the lowercase of the geo-lookup result when that is
non-empty, and `unknown` when neither is; it contains no letter `A`..`Z`. -/
theorem recordedCountry_key (urlHostname : String → Option String) (data : VisitJob)
    (key : String) (h : recordedCountry urlHostname data = some key) :
    (∀ s, data.country = some s → s ≠ "" → key = toLowerCase s) ∧
      ((data.country = none ∨ data.country = some "") →
        ∀ s, data.geo = some s → s ≠ "" → key = toLowerCase s) ∧
      ((data.country = none ∨ data.country = some "") →
        (data.geo = none ∨ data.geo = some "") → key = "unknown") ∧
      ∀ c ∈ key.data, c.isUpper = false := by
  unfold recordedCountry visit at h
  cases hr : visitReferrerHost urlHostname data.referrer with
  | none => rw [hr] at h; simp at h
  | some r =>
    rw [hr] at h
    simp only [Option.map_some', Option.some.injEq, addData] at h
    subst h
    refine ⟨?_, ?_, ?_, fun c hc => toLowerCase_no_upper _ c hc⟩
    · intro s hs hne
      simp [hs, orElse, hne]
    · intro hc s hs hne
      rcases hc with hc | hc <;> simp [hc, hs, orElse, hne]
    · intro hc hg
      have e : toLowerCase "Unknown" = "unknown" := by decide
      rcases hc with hc | hc <;> rcases hg with hg | hg <;> simp [hc, hg, orElse, e]

/-- C13, on a job with the header `US`, on one with only the geo result `DE`, and on one with
neither. -/
theorem recordedCountry_key_witness :
    recordedCountry (fun _ => none) ⟨⟨"Chrome", "Windows"⟩, some "US", some "DE", none, ⟨1, 2⟩⟩ =
        some "us" ∧
      recordedCountry (fun _ => none) ⟨⟨"Chrome", "Windows"⟩, none, some "DE", none, ⟨1, 2⟩⟩ =
        some "de" ∧
      recordedCountry (fun _ => none) ⟨⟨"Chrome", "Windows"⟩, none, none, none, ⟨1, 2⟩⟩ =
        some "unknown" ∧
      ∀ c ∈ "us".data, c.isUpper = false :=
  ⟨by decide, by decide, by decide,
    (recordedCountry_key (fun _ => none)
      ⟨⟨"Chrome", "Windows"⟩, some "US", some "DE", none, ⟨1, 2⟩⟩ "us" (by decide)).2.2.2⟩

/-- C14, at a failing input: for a job whose referrer does not parse as a URL (`URL.parse`
returns `null`, here for the referrer `example.com/page`), `visit` throws: it passes nothing to
`add`. -/
theorem visit_throws_on_unparseable_referrer :
    visit (fun _ => none)
      ⟨⟨"Chrome", "Windows"⟩, some "US", none, some "example.com/page", ⟨1, 2⟩⟩ = none := by
  decide

/-- What holds of `visit`: it completes exactly when the referrer is absent, empty, or parses
as a URL. -/
theorem visit_completes_iff (urlHostname : String → Option String) (data : VisitJob) :
    (visit urlHostname data).isSome = true ↔
      (data.referrer = none ∨ data.referrer = some "" ∨
        ∃ r, data.referrer = some r ∧ (urlHostname r).isSome = true) := by
  unfold visit visitReferrerHost
  cases hr : data.referrer with
  | none => simp
  | some r =>
    by_cases he : r = ""
    · simp [he]
    · cases hu : urlHostname r with
      | none => simp [he, hu]
      | some h => simp [he, hu]

/-! ### The calendar -/

theorem yearOfEra_bounds (doe : Int) (h0 : 0 ≤ doe) (h1 : doe < 146097) :
    0 ≤ (doe - doe / 1460 + doe / 36524 - doe / 146096) / 365 ∧
    (doe - doe / 1460 + doe / 36524 - doe / 146096) / 365 ≤ 399 ∧
    0 ≤ doe - (365 * ((doe - doe / 1460 + doe / 36524 - doe / 146096) / 365) +
      (doe - doe / 1460 + doe / 36524 - doe / 146096) / 365 / 4 -
      (doe - doe / 1460 + doe / 36524 - doe / 146096) / 365 / 100) ∧
    doe - (365 * ((doe - doe / 1460 + doe / 36524 - doe / 146096) / 365) +
      (doe - doe / 1460 + doe / 36524 - doe / 146096) / 365 / 4 -
      (doe - doe / 1460 + doe / 36524 - doe / 146096) / 365 / 100) ≤ 365 := by
  generalize hq : doe / 1460 = q
  generalize hc : doe / 36524 = c
  generalize hd : doe / 146096 = d
  generalize hy : (doe - q + c - d) / 365 = yoe
  generalize he : yoe / 4 = e
  generalize hf : yoe / 100 = f
  have hyoe : 0 ≤ yoe ∧ yoe ≤ 399 := by omega
  have hk : 4 * q - 1 ≤ yoe ∧ yoe ≤ 4 * q + 4 := by omega
  have hcb : 0 ≤ c ∧ c ≤ 4 := by omega
  have hdb : 0 ≤ d ∧ d ≤ 1 := by omega
  have hfb : 0 ≤ f ∧ f ≤ 3 := by omega
  generalize hkk : yoe - 4 * q = k at hk
  have hkb : -1 ≤ k ∧ k ≤ 4 := by omega
  obtain ⟨hk0, hk1⟩ := hkb
  obtain ⟨hc0, hc1⟩ := hcb
  obtain ⟨hd0, hd1⟩ := hdb
  obtain ⟨hf0, hf1⟩ := hfb
  refine ⟨hyoe.1, hyoe.2, ?_, ?_⟩
  · interval_cases f <;> omega
  · interval_cases f <;> omega

theorem civilFromDays_fields (z : Int) :
    1 ≤ (civilFromDays z).month ∧ (civilFromDays z).month ≤ 12 ∧
    1 ≤ (civilFromDays z).day ∧ (civilFromDays z).day ≤ 31 := by
  simp only [civilFromDays]
  generalize hz : z + 719468 = w
  generalize hd : w % 146097 = doe
  have hdoe : 0 ≤ doe ∧ doe < 146097 := by omega
  obtain ⟨hy0, hy1, hdoy0, hdoy1⟩ := yearOfEra_bounds doe hdoe.1 hdoe.2
  generalize hy : (doe - doe / 1460 + doe / 36524 - doe / 146096) / 365 = yoe at *
  generalize hdy : doe - (365 * yoe + yoe / 4 - yoe / 100) = doy at *
  generalize hm : (5 * doy + 2) / 153 = mp
  have hmp : 0 ≤ mp ∧ mp ≤ 11 := by omega
  refine ⟨?_, ?_, ?_, ?_⟩
  · split_ifs <;> omega
  · split_ifs <;> omega
  · omega
  · omega

theorem daysFromCivil_parts (era yoe mp d : Int) (hy0 : 0 ≤ yoe) (hy1 : yoe ≤ 399)
    (hm0 : 0 ≤ mp) (hm1 : mp ≤ 11) :
    daysFromCivil
        (yoe + era * 400 + (if (if mp < 10 then mp + 3 else mp - 9) ≤ 2 then 1 else 0))
        (if mp < 10 then mp + 3 else mp - 9) d =
      era * 146097 + (yoe * 365 + yoe / 4 - yoe / 100 + (153 * mp + 2) / 5) + (d - 1) - 719468 := by
  simp only [daysFromCivil]
  have e1 : (yoe + era * 400) / 400 = era := by omega
  have e2 : (yoe + era * 400) % 400 = yoe := by omega
  by_cases hmp : mp < 10
  · have m0 : (mp + 3 - 1) / 12 = 0 := by omega
    have m1 : (mp + 3 - 1) % 12 + 1 = mp + 3 := by omega
    have m2 : ¬ mp + 3 ≤ 2 := by omega
    simp only [if_pos hmp, m0, m1, if_neg m2, add_zero, e1, e2]
    congr 3
    omega
  · have m0 : (mp - 9 - 1) / 12 = 0 := by omega
    have m1 : (mp - 9 - 1) % 12 + 1 = mp - 9 := by omega
    have m2 : mp - 9 ≤ 2 := by omega
    have e3 : yoe + era * 400 + 1 - 1 = yoe + era * 400 := by omega
    simp only [if_neg hmp, m0, m1, if_pos m2, add_zero, e3, e1, e2]
    congr 3
    omega

theorem daysFromCivil_civilFromDays (z : Int) :
    daysFromCivil (civilFromDays z).year (civilFromDays z).month (civilFromDays z).day = z := by
  simp only [civilFromDays]
  generalize hz : z + 719468 = w
  generalize he : w / 146097 = era
  generalize hd : w % 146097 = doe
  have hdoe : 0 ≤ doe ∧ doe < 146097 := by omega
  obtain ⟨hy0, hy1, hdoy0, hdoy1⟩ := yearOfEra_bounds doe hdoe.1 hdoe.2
  generalize hy : (doe - doe / 1460 + doe / 36524 - doe / 146096) / 365 = yoe at *
  generalize hdy : doe - (365 * yoe + yoe / 4 - yoe / 100) = doy at *
  generalize hm : (5 * doy + 2) / 153 = mp
  have hmp : 0 ≤ mp ∧ mp ≤ 11 := by omega
  rw [daysFromCivil_parts era yoe mp _ hy0 hy1 hmp.1 hmp.2]
  omega

theorem daysFromCivil_day (year month day : Int) :
    daysFromCivil year month day = daysFromCivil year month 0 + day := by
  simp only [daysFromCivil]
  omega

theorem days_mul_add_timeInDay (t : Int) : t / 86400000 * 86400000 + timeInDay t = t := by
  unfold timeInDay
  omega

theorem subDays_eq (date amount : Int) : subDays date amount = date - amount * 86400000 := by
  unfold subDays utcDate
  rw [daysFromCivil_day]
  have h := daysFromCivil_civilFromDays (date / 86400000)
  rw [daysFromCivil_day] at h
  have h2 := days_mul_add_timeInDay date
  generalize daysFromCivil (civilFromDays (date / 86400000)).year
    (civilFromDays (date / 86400000)).month 0 = b at *
  generalize (civilFromDays (date / 86400000)).day = d at *
  generalize timeInDay date = t at *
  have h3 : b + (d - amount) = date / 86400000 - amount := by omega
  rw [h3]
  linarith

/-! ### The fold of `find`, period by period -/

theorem foldVisit_eq (now : Int) (stats : Stats) (visit : Visit) :
    foldVisit now stats visit =
      { lastDay := periodStep now .lastDay stats.lastDay visit
        lastWeek := periodStep now .lastWeek stats.lastWeek visit
        lastMonth := periodStep now .lastMonth stats.lastMonth visit
        lastYear := periodStep now .lastYear stats.lastYear visit } := by
  simp only [foldVisit, getStatsPeriods, List.foldl, foldPeriod, periodStep, included, periodStart]
  rcases Bool.eq_false_or_eq_true (isAfter visit.created_at (subHours now 24)) with h1 | h1 <;>
    rcases Bool.eq_false_or_eq_true (isAfter visit.created_at (subDays now 7)) with h2 | h2 <;>
    rcases Bool.eq_false_or_eq_true (isAfter visit.created_at (subDays now 30)) with h3 | h3 <;>
    rcases Bool.eq_false_or_eq_true (isAfter visit.created_at (subMonths now 12)) with h4 | h4 <;>
    simp [h1, h2, h3, h4, Stats.set, Stats.get]

theorem foldl_foldVisit_get (now : Int) (type : PeriodType) (rows : List Visit) :
    ∀ stats : Stats, (rows.foldl (foldVisit now) stats).get type =
      rows.foldl (periodStep now type) (stats.get type) := by
  induction rows with
  | nil => intro stats; rfl
  | cons r rs ih =>
    intro stats
    rw [List.foldl_cons, List.foldl_cons, ih, foldVisit_eq]
    cases type <;> rfl

theorem foldVisits_get (rows : List Visit) (now : Int) (type : PeriodType) :
    (foldVisits rows now).get type = rows.foldl (periodStep now type) (initStats.get type) :=
  foldl_foldVisit_get now type rows initStats

theorem foldl_periodStep_total (now : Int) (type : PeriodType) (rows : List Visit) :
    ∀ p : Period, (rows.foldl (periodStep now type) p).total =
      p.total + ((rows.filter (included now type)).map (fun r => r.total)).sum := by
  induction rows with
  | nil => intro p; simp
  | cons r rs ih =>
    intro p
    rw [List.foldl_cons, ih]
    by_cases h : included now type r = true
    · simp [periodStep, h, updatePeriod, List.filter_cons, Nat.add_assoc]
    · simp [periodStep, h, List.filter_cons]

/-! ### Period totals -/

theorem find_total (visits : List Visit) (now : Int) (link_id : Nat) (type : PeriodType) :
    ((foldVisits (rowsOf link_id visits) now).get type).total =
      (((rowsOf link_id visits).filter (included now type)).map (fun r => r.total)).sum := by
  rw [foldVisits_get, foldl_periodStep_total]
  cases type <;> simp [initStats, Stats.get]

/-- C15: each period's total returned by `find` is the sum of `total` over exactly the rows of
the link whose `created_at` is strictly after the start of the period: `now` less 24 hours,
less 7 days, less 30 days (days of 86 400 000 ms, the time zone being UTC) and `subMonths(now,
12)`. Three rows of 5 visits in the current hour, 2 visits 26 hours earlier and 10 visits 8 days
earlier give the totals 5, 7 and 17 for the last day, week and month. -/
theorem find_period_totals (visits : List Visit) (now : Int) (link_id : Nat) :
    (find visits now link_id).lastDay.total =
        (((rowsOf link_id visits).filter (fun r => r.created_at > now - 24 * 3600000)).map
          (fun r => r.total)).sum ∧
      (find visits now link_id).lastWeek.total =
        (((rowsOf link_id visits).filter (fun r => r.created_at > now - 7 * 86400000)).map
          (fun r => r.total)).sum ∧
      (find visits now link_id).lastMonth.total =
        (((rowsOf link_id visits).filter (fun r => r.created_at > now - 30 * 86400000)).map
          (fun r => r.total)).sum ∧
      (find visits now link_id).lastYear.total =
        (((rowsOf link_id visits).filter (fun r => r.created_at > subMonths now 12)).map
          (fun r => r.total)).sum ∧
      (find [aggregateRow 1 7 1730898000000 5, aggregateRow 2 7 (1730898000000 - 26 * 3600000) 2,
          aggregateRow 3 7 (1730898000000 - 8 * 86400000) 10] 1730900712345 7).lastDay.total = 5 ∧
      (find [aggregateRow 1 7 1730898000000 5, aggregateRow 2 7 (1730898000000 - 26 * 3600000) 2,
          aggregateRow 3 7 (1730898000000 - 8 * 86400000) 10] 1730900712345 7).lastWeek.total = 7 ∧
      (find [aggregateRow 1 7 1730898000000 5, aggregateRow 2 7 (1730898000000 - 26 * 3600000) 2,
          aggregateRow 3 7 (1730898000000 - 8 * 86400000) 10] 1730900712345 7).lastMonth.total =
        17 := by
  have hd : included now .lastDay = fun r => decide (r.created_at > now - 24 * 3600000) := by
    funext r; simp [included, periodStart, isAfter, subHours]
  have hw : included now .lastWeek = fun r => decide (r.created_at > now - 7 * 86400000) := by
    funext r; simp [included, periodStart, isAfter, subDays_eq]
  have hm : included now .lastMonth = fun r => decide (r.created_at > now - 30 * 86400000) := by
    funext r; simp [included, periodStart, isAfter, subDays_eq]
  have hy : included now .lastYear = fun r => decide (r.created_at > subMonths now 12) := by
    funext r; simp [included, periodStart, isAfter]
  refine ⟨?_, ?_, ?_, ?_, by decide, by decide, by decide⟩
  · rw [← hd]; exact find_total visits now link_id .lastDay
  · rw [← hw]; exact find_total visits now link_id .lastWeek
  · rw [← hm]; exact find_total visits now link_id .lastMonth
  · rw [← hy]; exact find_total visits now link_id .lastYear

/-! ### The bucket index -/

theorem differenceInDays_eq (dateLeft dateRight : Int) (h : dateRight ≤ dateLeft) :
    differenceInDays dateLeft dateRight = (dateLeft - dateRight) / 86400000 := by
  have hq : dateRight / 86400000 ≤ dateLeft / 86400000 := by omega
  have hn : (((dateLeft / 86400000 - dateRight / 86400000).natAbs : Nat) : Int) =
      dateLeft / 86400000 - dateRight / 86400000 := by omega
  have hcases : dateRight < dateLeft ∨ dateRight = dateLeft := by omega
  rcases hcases with hlt | heq
  · have hs : compareAsc dateLeft dateRight = 1 := by
      unfold compareAsc; rw [if_neg (by omega), if_pos (by omega)]
    have hmoved :
        daysFromCivil (utcDate dateLeft).year (utcDate dateLeft).month
            ((utcDate dateLeft).day - (dateLeft / 86400000 - dateRight / 86400000)) * 86400000 +
          timeInDay dateLeft =
        dateRight / 86400000 * 86400000 + timeInDay dateLeft := by
      have h1 := subDays_eq dateLeft (dateLeft / 86400000 - dateRight / 86400000)
      unfold subDays at h1
      rw [h1]
      have h2 := days_mul_add_timeInDay dateLeft
      unfold timeInDay at h2 ⊢
      omega
    simp only [differenceInDays, differenceInCalendarDays, hs, hn, one_mul, hmoved]
    unfold compareAsc timeInDay
    clear hn hmoved hs
    by_cases hA : dateRight / 86400000 * 86400000 + dateLeft % 86400000 < dateRight
    · rw [if_pos hA, if_pos rfl]; omega
    · rw [if_neg hA]
      by_cases hB : dateRight / 86400000 * 86400000 + dateLeft % 86400000 > dateRight
      · rw [if_pos hB, if_neg (by decide)]; omega
      · rw [if_neg hB, if_neg (by decide)]; omega
  · subst heq
    have hs : compareAsc dateRight dateRight = 0 := by
      unfold compareAsc; rw [if_neg (by omega), if_neg (by omega)]
    simp [differenceInDays, hs]

theorem differenceInMonths_nonneg (dateLeft dateRight : Int) (h : dateRight ≤ dateLeft) :
    0 ≤ differenceInMonths dateLeft dateRight := by
  unfold differenceInMonths
  have hs : compareAsc dateLeft dateRight = 0 ∨ compareAsc dateLeft dateRight = 1 := by
    unfold compareAsc; split_ifs <;> omega
  dsimp only
  split_ifs <;> rcases hs with hs | hs <;> (try rw [hs]) <;> omega

theorem difference_nonneg (now created_at : Int) (type : PeriodType) (h : created_at ≤ now) :
    0 ≤ getDifferenceFunction type now created_at := by
  cases type
  · simp only [getDifferenceFunction, differenceInHours, truncDiv]
    rw [if_pos (by omega)]; omega
  · simp only [getDifferenceFunction]; rw [differenceInDays_eq _ _ h]; omega
  · simp only [getDifferenceFunction]; rw [differenceInDays_eq _ _ h]; omega
  · exact differenceInMonths_nonneg _ _ h

/-- What holds of the bucket index: for the last day, week and month, a row that is not after
`now` and is after the start of the period has its index in `0..23`, `0..6`, `0..29`; for the
last year the index of such a row is at most 11. -/
theorem bucketIndex_range (now created_at : Int) (type : PeriodType) (h : created_at ≤ now)
    (hs : created_at > periodStart now type) :
    bucketIndex now type created_at < bucketCount type ∧
      (type ≠ .lastYear → 0 ≤ bucketIndex now type created_at) := by
  constructor
  · have := difference_nonneg now created_at type h
    unfold bucketIndex; omega
  · intro hne
    cases type
    · simp only [bucketIndex, getDifferenceFunction, differenceInHours, truncDiv, bucketCount,
        periodStart, subHours] at hs ⊢
      rw [if_pos (by omega)]; omega
    · simp only [bucketIndex, getDifferenceFunction, bucketCount, periodStart, subDays_eq] at hs ⊢
      rw [differenceInDays_eq _ _ h]; omega
    · simp only [bucketIndex, getDifferenceFunction, bucketCount, periodStart, subDays_eq] at hs ⊢
      rw [differenceInDays_eq _ _ h]; omega
    · exact absurd rfl hne

/-- C16, at a failing input: `now` is 2024-02-29T12:00:00Z and the row was created at
2023-02-28T13:00:00Z. The row is not after `now` and is after the start of the last year
(`subMonths(now, 12)` is 2023-02-28T12:00:00Z), twelve full months lie between the two instants,
and the bucket index is 12 - 1 - 12 = -1, outside `0..11`: `find` counts the row in the total of
the last year and in none of its twelve buckets. -/
theorem bucketIndex_lastYear_leap_day :
    toISOString 1709208000000 = "2024-02-29T12:00:00.000Z" ∧
      toISOString 1677589200000 = "2023-02-28T13:00:00.000Z" ∧
      toISOString (subMonths 1709208000000 12) = "2023-02-28T12:00:00.000Z" ∧
      included 1709208000000 .lastYear (aggregateRow 1 7 1677589200000 3) = true ∧
      differenceInMonths 1709208000000 1677589200000 = 12 ∧
      bucketIndex 1709208000000 .lastYear 1677589200000 = -1 ∧
      (find [aggregateRow 1 7 1677589200000 3] 1709208000000 7).lastYear.total = 3 ∧
      (find [aggregateRow 1 7 1677589200000 3] 1709208000000 7).lastYear.views =
        List.replicate 12 (.num 0) := by
  decide

/-! ### The views arrays -/

theorem addView_buckets (n : Nat) (f : Nat → Nat) (index : Int) (total : Nat) (h : index < n) :
    addView ((List.range n).map (fun i => Cell.num (f i))) index total =
      (List.range n).map (fun i => Cell.num (f i + if (i : Int) = index then total else 0)) := by
  unfold addView
  by_cases hneg : index < 0
  · rw [if_pos hneg]
    apply List.map_congr_left
    intro i _
    have : ¬ (i : Int) = index := by omega
    simp [this]
  · rw [if_neg hneg]
    have hlt : index.toNat < n := by omega
    simp only [List.length_map, List.length_range, hlt, if_true]
    apply List.ext_getElem
    · simp
    · intro i h1 h2
      simp only [List.length_set, List.length_map, List.length_range] at h1
      simp only [List.getElem_set, List.getElem_map, List.getElem_range, List.getD_eq_getElem?_getD,
        List.getElem?_map, List.getElem?_range hlt, Option.map_some', Option.getD_some]
      by_cases hi : index.toNat = i
      · have : (i : Int) = index := by omega
        simp [hi, this]
      · have : ¬ (i : Int) = index := by omega
        simp [hi, this]

theorem foldl_periodStep_views (now : Int) (type : PeriodType) (rows : List Visit) :
    ∀ (p : Period) (f : Nat → Nat),
      p.views = (List.range (bucketCount type)).map (fun i => Cell.num (f i)) →
      (∀ r ∈ rows, included now type r = true →
        bucketIndex now type r.created_at < bucketCount type) →
      (rows.foldl (periodStep now type) p).views =
        (List.range (bucketCount type)).map
          (fun i => Cell.num (f i + bucketTotal rows now type i)) := by
  induction rows with
  | nil => intro p f hp _; simp [hp, bucketTotal]
  | cons r rs ih =>
    intro p f hp hidx
    rw [List.foldl_cons]
    by_cases hin : included now type r = true
    · have hlen : p.views.length = bucketCount type := by simp [hp]
      have hstep : (periodStep now type p r).views =
          (List.range (bucketCount type)).map (fun i => Cell.num
            (f i + if (i : Int) = bucketIndex now type r.created_at then r.total else 0)) := by
        simp only [periodStep, hin, if_true, updatePeriod, hlen]
        rw [hp]
        exact addView_buckets _ f _ _ (hidx r (List.mem_cons_self _ _) hin)
      rw [ih _ _ hstep (fun x hx => hidx x (List.mem_cons_of_mem _ hx))]
      apply List.map_congr_left
      intro i _
      simp only [bucketTotal, List.filter_cons, hin, true_and]
      by_cases hi : bucketIndex now type r.created_at = (i : Int)
      · simp [hi]; omega
      · have hi' : ¬ (i : Int) = bucketIndex now type r.created_at := fun e => hi e.symm
        simp [hi, hi']
    · have hstep : periodStep now type p r = p := by simp [periodStep, hin]
      rw [hstep, ih _ _ hp (fun x hx => hidx x (List.mem_cons_of_mem _ hx))]
      apply List.map_congr_left
      intro i _
      simp [bucketTotal, List.filter_cons, hin]

theorem find_get (visits : List Visit) (now : Int) (link_id : Nat) (type : PeriodType) :
    ((find visits now link_id).get type).views =
        ((foldVisits (rowsOf link_id visits) now).get type).views ∧
      ((find visits now link_id).get type).total =
        ((foldVisits (rowsOf link_id visits) now).get type).total ∧
      ((find visits now link_id).get type).stats =
        statsObjectToArray ((foldVisits (rowsOf link_id visits) now).get type).stats := by
  cases type <;> exact ⟨rfl, rfl, rfl⟩

theorem find_views_of_index_bound (visits : List Visit) (now : Int) (link_id : Nat)
    (type : PeriodType)
    (h : ∀ r ∈ rowsOf link_id visits, included now type r = true →
      bucketIndex now type r.created_at < bucketCount type) :
    ((find visits now link_id).get type).views = bucketTotals (rowsOf link_id visits) now type := by
  rw [(find_get visits now link_id type).1, foldVisits_get,
    foldl_periodStep_views now type _ (initStats.get type) (fun _ => 0) ?_ h]
  · simp [bucketTotals]
  · cases type <;> simp [initStats, Stats.get, bucketCount, List.replicate]

/-- C17, as the spec states it, fails: a row created two hours after `now` has the bucket index
25 in the last day, and `find` returns a `views` array of 26 elements for the last day, the
last two being a hole and `NaN`. -/
theorem find_views_extended_by_future_row :
    (¬ ∀ (visits : List Visit) (now : Int) (link_id : Nat),
        (find visits now link_id).lastDay.views.length = 24) ∧
      bucketIndex 1730900712345 .lastDay (1730900712345 + 2 * 3600000) = 25 ∧
      (find [aggregateRow 1 7 (1730900712345 + 2 * 3600000) 3] 1730900712345 7).lastDay.views =
        List.replicate 24 (.num 0) ++ [.hole, .nan] := by
  refine ⟨?_, by decide, by decide⟩
  intro h
  have := h [aggregateRow 1 7 (1730900712345 + 2 * 3600000) 3] 1730900712345 7
  revert this
  decide

/-- C17, amended: for every set of rows of a link none of which has its `created_at` after
`now`, `find` returns `views` arrays of length exactly 24, 7, 30 and 12 for the last day, week,
month and year, every element a number: bucket `i` holds the sum of `total` over the rows the
period includes whose bucket index is `i`. A row whose index is negative is in no bucket: it is
dropped from the array and changes no bucket. -/
theorem find_views_buckets (visits : List Visit) (now : Int) (link_id : Nat)
    (h : ∀ r ∈ rowsOf link_id visits, r.created_at ≤ now) :
    (find visits now link_id).lastDay.views.length = 24 ∧
      (find visits now link_id).lastWeek.views.length = 7 ∧
      (find visits now link_id).lastMonth.views.length = 30 ∧
      (find visits now link_id).lastYear.views.length = 12 ∧
      ∀ type : PeriodType,
        ((find visits now link_id).get type).views =
            bucketTotals (rowsOf link_id visits) now type ∧
          ∀ c ∈ ((find visits now link_id).get type).views, ∃ n, c = Cell.num n := by
  have hv : ∀ type : PeriodType, ((find visits now link_id).get type).views =
      bucketTotals (rowsOf link_id visits) now type := by
    intro type
    apply find_views_of_index_bound
    intro r hr _
    have := difference_nonneg now r.created_at type (h r hr)
    unfold bucketIndex; omega
  have hl : ∀ type : PeriodType,
      ((find visits now link_id).get type).views.length = bucketCount type := by
    intro type; rw [hv type]; simp [bucketTotals]
  refine ⟨hl .lastDay, hl .lastWeek, hl .lastMonth, hl .lastYear, fun type => ⟨hv type, ?_⟩⟩
  intro c hc
  rw [hv type] at hc
  simp only [bucketTotals, List.mem_map] at hc
  obtain ⟨i, _, rfl⟩ := hc
  exact ⟨_, rfl⟩

/-- C17, amended, on the three rows of 5, 2 and 10 visits: the last week holds 5 visits in its
newest bucket and 2 in the one before. -/
theorem find_views_buckets_witness :
    (∀ r ∈ rowsOf 7 [aggregateRow 1 7 1730898000000 5,
        aggregateRow 2 7 (1730898000000 - 26 * 3600000) 2,
        aggregateRow 3 7 (1730898000000 - 8 * 86400000) 10], r.created_at ≤ 1730900712345) ∧
      (find [aggregateRow 1 7 1730898000000 5, aggregateRow 2 7 (1730898000000 - 26 * 3600000) 2,
        aggregateRow 3 7 (1730898000000 - 8 * 86400000) 10] 1730900712345 7).lastWeek.views =
        [.num 0, .num 0, .num 0, .num 0, .num 0, .num 2, .num 5] ∧
      (find [aggregateRow 1 7 1730898000000 5, aggregateRow 2 7 (1730898000000 - 26 * 3600000) 2,
        aggregateRow 3 7 (1730898000000 - 8 * 86400000) 10] 1730900712345 7).lastWeek.views.length =
        7 :=
  ⟨by decide, by decide,
    (find_views_buckets [aggregateRow 1 7 1730898000000 5,
      aggregateRow 2 7 (1730898000000 - 26 * 3600000) 2,
      aggregateRow 3 7 (1730898000000 - 8 * 86400000) 10] 1730900712345 7 (by decide)).2.1⟩

/-! ### `statsObjectToArray` -/

theorem JsObj.own_of_mem (obj : JsObj) (key : String) (h : key ∈ obj.map Prod.fst) :
    ∃ v, obj.own key = some v ∧ (key, v) ∈ obj := by
  induction obj with
  | nil => simp at h
  | cons kv o ih =>
    obtain ⟨k, w⟩ := kv
    rw [JsObj.own_cons]
    by_cases hk : k = key
    · exact ⟨w, by simp [hk], by simp [hk]⟩
    · simp only [List.map_cons, List.mem_cons] at h
      rcases h with h | h
      · exact absurd h.symm hk
      · obtain ⟨v, hv, hm⟩ := ih h
        exact ⟨v, by simp [hk, hv], List.mem_cons_of_mem _ hm⟩

theorem entries_numeric (obj : JsObj) (h : obj.numeric) : JsObj.numeric (entries obj) := by
  intro e he
  simp only [entries, List.map_map, List.mem_map, Function.comp] at he
  obtain ⟨kv, hkv, rfl⟩ := he
  obtain ⟨v, hv, hm⟩ := JsObj.own_of_mem obj kv.1 (List.mem_map_of_mem _ hkv)
  obtain ⟨n, hn⟩ := h _ hm
  simp only [JsObj.get, hv, Option.getD_some]
  exact ⟨n, hn⟩

theorem entries_of_nodup (obj : JsObj) (h : (obj.map Prod.fst).Nodup) : entries obj = obj := by
  induction obj with
  | nil => rfl
  | cons kv o ih =>
    obtain ⟨k, w⟩ := kv
    simp only [List.map_cons, List.nodup_cons] at h
    have ih' := ih h.2
    simp only [entries, List.map_cons, List.map_map] at ih' ⊢
    congr 1
    · simp [JsObj.get, JsObj.own_cons]
    · conv_rhs => rw [← ih']
      apply List.map_congr_left
      intro kv hkv
      have hne : ¬ k = kv.1 := fun e => h.1 (e ▸ List.mem_map_of_mem _ hkv)
      simp [JsObj.get, JsObj.own_cons, hne]

theorem sortsBefore_iff (a b : String × JsVal) (x y : Nat) (ha : a.2 = .num x)
    (hb : b.2 = .num y) : sortsBefore a b = true ↔ y ≤ x := by
  simp [sortsBefore, ha, hb]

theorem orderedInsert_sorted (a : String × JsVal) (x : Nat) (ha : a.2 = .num x) :
    ∀ l : List (String × JsVal), JsObj.numeric l → l.Pairwise valueGe →
      (List.orderedInsert (fun a b => sortsBefore a b = true) a l).Pairwise valueGe := by
  intro l
  induction l with
  | nil => intro _ _; simp
  | cons b l ih =>
    intro hnum hs
    obtain ⟨y, hb⟩ := hnum b (List.mem_cons_self _ _)
    rw [List.pairwise_cons] at hs
    simp only [List.orderedInsert]
    by_cases hab : sortsBefore a b = true
    · rw [if_pos hab]
      have hyx : y ≤ x := (sortsBefore_iff a b x y ha hb).1 hab
      refine List.pairwise_cons.2 ⟨?_, List.pairwise_cons.2 hs⟩
      intro c hc
      rcases List.mem_cons.1 hc with rfl | hc
      · exact ⟨x, y, ha, hb, hyx⟩
      · obtain ⟨y', z, hy', hz, hzy⟩ := hs.1 c hc
        have : y' = y := by rw [hb] at hy'; exact (JsVal.num.inj hy').symm
        exact ⟨x, z, ha, hz, by omega⟩
    · rw [if_neg hab]
      have hxy : ¬ y ≤ x := fun h => hab ((sortsBefore_iff a b x y ha hb).2 h)
      refine List.pairwise_cons.2 ⟨?_, ih (fun e he => hnum e (List.mem_cons_of_mem _ he)) hs.2⟩
      intro c hc
      rcases (List.mem_orderedInsert _).1 hc with rfl | hc
      · exact ⟨y, x, hb, ha, by omega⟩
      · exact hs.1 c hc

theorem insertionSort_sorted (l : List (String × JsVal)) (h : JsObj.numeric l) :
    (List.insertionSort (fun a b => sortsBefore a b = true) l).Pairwise valueGe := by
  induction l with
  | nil => simp
  | cons a l ih =>
    obtain ⟨x, ha⟩ := h a (List.mem_cons_self _ _)
    simp only [List.insertionSort]
    apply orderedInsert_sorted a x ha
    · intro e he
      exact h e (List.mem_cons_of_mem _ ((List.perm_insertionSort _ l).mem_iff.1 he))
    · exact ih (fun e he => h e (List.mem_cons_of_mem _ he))

/-- C19: for a tally whose values are numbers, `objToArr` (applied by `statsObjectToArray` to
the browser, os, country and referrer tallies) returns the entries `{name, value}` of the tally,
one per key (a rearrangement of them), ordered by value descending, two entries of equal value
standing in the order of the tally's keys; `{us: 10, de: 10, fr: 5}` yields us, de, fr. -/
theorem objToArr_sorted_stable (obj : JsObj) (h : obj.numeric) :
    (objToArr obj).Perm (entries obj) ∧
      ((obj.map Prod.fst).Nodup → entries obj = obj) ∧
      (objToArr obj).Pairwise valueGe ∧
      (∀ a b, [a, b].Sublist (entries obj) → a.2 = b.2 → [a, b].Sublist (objToArr obj)) ∧
      objToArr [("us", .num 10), ("de", .num 10), ("fr", .num 5)] =
        [("us", .num 10), ("de", .num 10), ("fr", .num 5)] := by
  refine ⟨List.perm_insertionSort _ _, entries_of_nodup obj,
    insertionSort_sorted _ (entries_numeric obj h), ?_, by decide⟩
  intro a b hab hv
  apply List.pair_sublist_insertionSort _ hab
  have ha : a ∈ entries obj := hab.subset (by simp)
  obtain ⟨x, hx⟩ := entries_numeric obj h a ha
  exact (sortsBefore_iff a b x x hx (hv ▸ hx)).2 (le_refl _)

/-- C19, on the tally `{fr: 5, us: 10, de: 10}`: the two entries of value 10 keep their order
and `fr` comes last. -/
theorem objToArr_sorted_stable_witness :
    JsObj.numeric [("fr", .num 5), ("us", .num 10), ("de", .num 10)] ∧
      objToArr [("fr", .num 5), ("us", .num 10), ("de", .num 10)] =
        [("us", .num 10), ("de", .num 10), ("fr", .num 5)] ∧
      (objToArr [("fr", .num 5), ("us", .num 10), ("de", .num 10)]).Pairwise valueGe :=
  ⟨by intro kv hkv; simp at hkv; rcases hkv with rfl | rfl | rfl <;> exact ⟨_, rfl⟩, by decide,
    (objToArr_sorted_stable [("fr", .num 5), ("us", .num 10), ("de", .num 10)]
      (by intro kv hkv; simp at hkv; rcases hkv with rfl | rfl | rfl <;> exact ⟨_, rfl⟩)).2.2.1⟩

/-! ### Rows older than a year -/

theorem endOfMonth_year_before (year month day : Int) (hm0 : 1 ≤ month) (hm1 : month ≤ 12)
    (hd : 1 ≤ day) :
    daysFromCivil year (month + -12 + 1) 0 ≤ daysFromCivil year month day - 30 := by
  simp only [daysFromCivil]
  interval_cases month <;> simp <;> omega

theorem subMonths_le_subDays (now : Int) : subMonths now 12 ≤ subDays now 30 := by
  rw [subDays_eq]
  unfold subMonths addMonths
  rw [if_neg (by decide)]
  obtain ⟨hm0, hm1, hd0, _⟩ := civilFromDays_fields (now / 86400000)
  have hrt := daysFromCivil_civilFromDays (now / 86400000)
  have hend := endOfMonth_year_before (utcDate now).year (utcDate now).month (utcDate now).day
    hm0 hm1 hd0
  have hnow := days_mul_add_timeInDay now
  unfold utcDate at hend ⊢
  rw [hrt] at hend
  dsimp only
  generalize daysFromCivil (civilFromDays (now / 86400000)).year
    ((civilFromDays (now / 86400000)).month + -12 + 1) 0 = eod at *
  have hrt2 := daysFromCivil_civilFromDays eod
  rw [daysFromCivil_day] at hrt2
  obtain ⟨_, _, he0, _⟩ := civilFromDays_fields eod
  split_ifs with hc
  · omega
  · rw [daysFromCivil_day]
    generalize daysFromCivil (civilFromDays eod).year (civilFromDays eod).month 0 = b at *
    omega

theorem periodStart_le (now : Int) :
    subMonths now 12 ≤ subDays now 30 ∧ subDays now 30 ≤ subDays now 7 ∧
      subDays now 7 ≤ subHours now 24 := by
  refine ⟨subMonths_le_subDays now, ?_, ?_⟩
  · rw [subDays_eq, subDays_eq]; omega
  · rw [subDays_eq]; unfold subHours; omega

theorem periodStep_of_old (now : Int) (type : PeriodType) (p : Period) (row : Visit)
    (h : row.created_at ≤ subMonths now 12) : periodStep now type p row = p := by
  obtain ⟨h1, h2, h3⟩ := periodStart_le now
  have : included now type row = false := by
    cases type <;> simp only [included, periodStart, isAfter, decide_eq_false_iff_not, not_lt,
      gt_iff_lt] <;> omega
  simp [periodStep, this]

theorem foldVisit_of_old (now : Int) (stats : Stats) (row : Visit)
    (h : row.created_at ≤ subMonths now 12) : foldVisit now stats row = stats := by
  rw [foldVisit_eq]
  simp only [periodStep_of_old now _ _ row h]

/-- C20: a row whose `created_at` is at or before `subMonths(now, 12)` contributes to no period:
with the row added anywhere in the table, `find` returns the same views, totals and dimension
lists for the last day, week, month and year of every link. -/
theorem find_ignores_old_row (before after : List Visit) (row : Visit) (now : Int)
    (link_id : Nat) (h : row.created_at ≤ subMonths now 12) :
    find (before ++ row :: after) now link_id = find (before ++ after) now link_id := by
  have hfold : foldVisits (rowsOf link_id (before ++ row :: after)) now =
      foldVisits (rowsOf link_id (before ++ after)) now := by
    simp only [foldVisits, rowsOf, List.filter_append, List.filter_cons, List.foldl_append]
    split_ifs
    · rw [List.foldl_cons, foldVisit_of_old now _ row h]
    · rfl
  unfold find
  rw [hfold]

/-- C20, on a row created 400 days before `now`, added to the three rows of 5, 2 and 10
visits. -/
theorem find_ignores_old_row_witness :
    (1730900712345 - 400 * 86400000 : Int) ≤ subMonths 1730900712345 12 ∧
      find ([aggregateRow 1 7 1730898000000 5] ++
          aggregateRow 4 7 (1730900712345 - 400 * 86400000) 9 ::
          [aggregateRow 2 7 (1730898000000 - 26 * 3600000) 2,
           aggregateRow 3 7 (1730898000000 - 8 * 86400000) 10]) 1730900712345 7 =
        find ([aggregateRow 1 7 1730898000000 5] ++
          [aggregateRow 2 7 (1730898000000 - 26 * 3600000) 2,
           aggregateRow 3 7 (1730898000000 - 8 * 86400000) 10]) 1730900712345 7 :=
  ⟨by decide,
    find_ignores_old_row [aggregateRow 1 7 1730898000000 5]
      [aggregateRow 2 7 (1730898000000 - 26 * 3600000) 2,
       aggregateRow 3 7 (1730898000000 - 8 * 86400000) 10]
      (aggregateRow 4 7 (1730900712345 - 400 * 86400000) 9) 1730900712345 7 (by decide)⟩

/-! ### Dimension tallies -/

/-- C18, at a failing input: the table holds the single row that `add` inserts for a visit with
the referrer key `constructor` (the hostname of `http://constructor/`), whose referrer tally is
`constructor: 1`. The row lies in the last day, yet the referrer tally of the last day does not
hold 1 under `constructor`: `find` reads the inherited `Object` function as the running count
and stores its text followed by `1`. -/
theorem find_inherited_key_tally :
    (record [] 1730900712345 ⟨"chrome", "US", 7, 3, "windows", "constructor"⟩).map
        Visit.referrers = [[("constructor", .num 1)]] ∧
      (find (record [] 1730900712345 ⟨"chrome", "US", 7, 3, "windows", "constructor"⟩)
          1730900799000 7).lastDay.stats.referrer =
        [("constructor", .str "function Object() \x7b [native code] \x7d1")] ∧
      (find (record [] 1730900712345 ⟨"chrome", "US", 7, 3, "windows", "constructor"⟩)
          1730900799000 7).lastDay.total = 1 := by
  decide

theorem JsObj.own_eq_none (o : JsObj) (key : String) (h : key ∉ o.map Prod.fst) :
    o.own key = none := by
  induction o with
  | nil => rfl
  | cons kv o ih =>
    obtain ⟨k, w⟩ := kv
    simp only [List.map_cons, List.mem_cons, not_or] at h
    rw [JsObj.own_cons, if_neg (fun e => h.1 e.symm)]
    exact ih h.2

theorem JsObj.keys_set (o : JsObj) (key : String) (v : JsVal) :
    (o.set key v).map Prod.fst =
      if key ∈ o.map Prod.fst then o.map Prod.fst else o.map Prod.fst ++ [key] := by
  unfold JsObj.set
  by_cases h : key ∈ o.map Prod.fst
  · obtain ⟨w, hw, _⟩ := JsObj.own_of_mem o key h
    rw [if_pos h, hw]
    simp only [Option.isSome_some, if_true, List.map_map]
    apply List.map_congr_left
    intro kv _
    by_cases hk : kv.1 = key <;> simp [hk]
  · rw [if_neg h, JsObj.own_eq_none o key h]
    simp

theorem JsObj.nodup_set (o : JsObj) (key : String) (v : JsVal) (h : (o.map Prod.fst).Nodup) :
    ((o.set key v).map Prod.fst).Nodup := by
  rw [JsObj.keys_set]
  split_ifs with hk
  · exact h
  · rw [List.nodup_append]
    exact ⟨h, List.nodup_singleton _, by
      intro a ha hb
      rw [List.mem_singleton] at hb
      exact hk (hb ▸ ha)⟩

theorem foldl_set_own (g : String × JsVal → JsVal) (key : String) (l : JsObj) :
    ∀ o : JsObj, (l.map Prod.fst).Nodup →
      (l.foldl (fun obj kv => obj.set kv.1 (g kv)) o).own key =
        match l.own key with
        | some v => some (g (key, v))
        | none => o.own key := by
  induction l with
  | nil => intro o _; rfl
  | cons kv l ih =>
    intro o hnd
    obtain ⟨k, w⟩ := kv
    simp only [List.map_cons, List.nodup_cons] at hnd
    rw [List.foldl_cons, ih _ hnd.2, JsObj.own_cons]
    by_cases hk : k = key
    · subst hk
      rw [JsObj.own_eq_none l k hnd.1]
      simp [JsObj.own_set_same]
    · rw [if_neg hk]
      cases hl : JsObj.own l key with
      | some v => rfl
      | none => exact JsObj.own_set_of_ne o k key _ (fun e => hk e.symm)

theorem foldl_set_nodup (g : String × JsVal → JsVal) (l : JsObj) :
    ∀ o : JsObj, (o.map Prod.fst).Nodup →
      ((l.foldl (fun obj kv => obj.set kv.1 (g kv)) o).map Prod.fst).Nodup := by
  induction l with
  | nil => intro o h; exact h
  | cons kv l ih => intro o h; exact ih _ (JsObj.nodup_set o _ _ h)

theorem mergeTally_own (tally rowMap : JsObj) (key : String)
    (hnd : (rowMap.map Prod.fst).Nodup) :
    (mergeTally tally rowMap).own key =
      match rowMap.own key with
      | some v => some ((orZero (tally.get key)).add v)
      | none => tally.own key := by
  unfold mergeTally
  have hred := foldl_set_own (fun kv => (orZero (tally.get kv.1)).add kv.2) key rowMap [] hnd
  have hnd2 := foldl_set_nodup (fun kv => (orZero (tally.get kv.1)).add kv.2) rowMap []
    List.nodup_nil
  dsimp only at hred ⊢
  rw [foldl_set_own (fun kv => kv.2) key _ tally hnd2, hred]
  cases JsObj.own rowMap key with
  | some v => rfl
  | none => rfl

/-- What holds of the folding of one row map into a tally: a key of neither does not appear, a
key the row map lacks keeps its value, and a key of the row map that names no inherited
property holds the sum of the two counts. -/
theorem mergeTally_count (tally rowMap : JsObj) (key : String)
    (hnd : (rowMap.map Prod.fst).Nodup) :
    (tally.own key = none → rowMap.own key = none → (mergeTally tally rowMap).own key = none) ∧
      (inherited key = false → ∀ m n, tally.count key = some m → rowMap.count key = some n →
        (mergeTally tally rowMap).count key = some (m + n)) := by
  constructor
  · intro h1 h2
    rw [mergeTally_own tally rowMap key hnd, h2]
    exact h1
  · intro hk m n hm hn
    unfold JsObj.count at hm hn ⊢
    rw [mergeTally_own tally rowMap key hnd, JsObj.get_of_not_inherited tally key hk]
    cases hr : JsObj.own rowMap key with
    | none =>
      rw [hr] at hn
      simp only [Option.some.injEq] at hn
      subst hn
      simpa using hm
    | some v =>
      rw [hr] at hn
      cases v with
      | str s => simp at hn
      | num b =>
        simp only [Option.some.injEq] at hn
        subst hn
        cases ht : JsObj.own tally key with
        | none => rw [ht] at hm; simp at hm; subst hm; simp [orZero, JsVal.add]
        | some w =>
          rw [ht] at hm
          cases w with
          | str s => simp at hm
          | num a => simp at hm; subst hm; simp [orZero, JsVal.add]

/-- What holds of the dimension folding of `find`, fixed counters: each browser and OS counter
of a period is the sum of the row counters over the rows the period includes. -/
theorem foldl_periodStep_counters (now : Int) (type : PeriodType) (rows : List Visit) :
    ∀ p : Period,
      (rows.foldl (periodStep now type) p).stats.browser =
          { chrome := p.stats.browser.chrome +
              ((rows.filter (included now type)).map (fun r => r.br_chrome)).sum
            edge := p.stats.browser.edge +
              ((rows.filter (included now type)).map (fun r => r.br_edge)).sum
            firefox := p.stats.browser.firefox +
              ((rows.filter (included now type)).map (fun r => r.br_firefox)).sum
            ie := p.stats.browser.ie +
              ((rows.filter (included now type)).map (fun r => r.br_ie)).sum
            opera := p.stats.browser.opera +
              ((rows.filter (included now type)).map (fun r => r.br_opera)).sum
            other := p.stats.browser.other +
              ((rows.filter (included now type)).map (fun r => r.br_other)).sum
            safari := p.stats.browser.safari +
              ((rows.filter (included now type)).map (fun r => r.br_safari)).sum } ∧
        (rows.foldl (periodStep now type) p).stats.os =
          { android := p.stats.os.android +
              ((rows.filter (included now type)).map (fun r => r.os_android)).sum
            ios := p.stats.os.ios +
              ((rows.filter (included now type)).map (fun r => r.os_ios)).sum
            linux := p.stats.os.linux +
              ((rows.filter (included now type)).map (fun r => r.os_linux)).sum
            macos := p.stats.os.macos +
              ((rows.filter (included now type)).map (fun r => r.os_macos)).sum
            other := p.stats.os.other +
              ((rows.filter (included now type)).map (fun r => r.os_other)).sum
            windows := p.stats.os.windows +
              ((rows.filter (included now type)).map (fun r => r.os_windows)).sum } := by
  induction rows with
  | nil => intro p; simp
  | cons r rs ih =>
    intro p
    rw [List.foldl_cons]
    obtain ⟨e1, e2⟩ := ih (periodStep now type p r)
    rw [e1, e2]
    by_cases hin : included now type r = true
    · simp [List.filter_cons, hin, periodStep, updatePeriod, Nat.add_assoc]
    · simp [List.filter_cons, hin, periodStep]

/-- What holds of the dimension folding of `find`, country and referrer tallies: for a key that
names no inherited property, when the maps of every row hold a number (or nothing) under the
key, the tally of a period holds the sum of the row counts over the rows the period includes, a
row without the key counting 0. -/
theorem foldl_periodStep_tallies (now : Int) (type : PeriodType) (key : String)
    (hk : inherited key = false) (rows : List Visit) :
    ∀ (p : Period) (m m' : Nat),
      (∀ r ∈ rows, (r.countries.map Prod.fst).Nodup ∧ (r.referrers.map Prod.fst).Nodup ∧
        (r.countries.count key).isSome = true ∧ (r.referrers.count key).isSome = true) →
      p.stats.country.count key = some m → p.stats.referrer.count key = some m' →
      (rows.foldl (periodStep now type) p).stats.country.count key =
          some (m + ((rows.filter (included now type)).map
            (fun r => (r.countries.count key).getD 0)).sum) ∧
        (rows.foldl (periodStep now type) p).stats.referrer.count key =
          some (m' + ((rows.filter (included now type)).map
            (fun r => (r.referrers.count key).getD 0)).sum) := by
  induction rows with
  | nil => intro p m m' _ hm hm'; simp [hm, hm']
  | cons r rs ih =>
    intro p m m' hrows hm hm'
    obtain ⟨hn1, hn2, hc, hr⟩ := hrows r (List.mem_cons_self _ _)
    obtain ⟨n, hn⟩ := Option.isSome_iff_exists.1 hc
    obtain ⟨n', hn'⟩ := Option.isSome_iff_exists.1 hr
    rw [List.foldl_cons]
    by_cases hin : included now type r = true
    · have h1 := (mergeTally_count p.stats.country r.countries key hn1).2 hk m n hm hn
      have h2 := (mergeTally_count p.stats.referrer r.referrers key hn2).2 hk m' n' hm' hn'
      obtain ⟨e1, e2⟩ := ih (periodStep now type p r) (m + n) (m' + n')
        (fun x hx => hrows x (List.mem_cons_of_mem _ hx))
        (by simpa [periodStep, hin, updatePeriod] using h1)
        (by simpa [periodStep, hin, updatePeriod] using h2)
      refine ⟨?_, ?_⟩
      · rw [e1]; simp [List.filter_cons, hin, hn, Nat.add_assoc]
      · rw [e2]; simp [List.filter_cons, hin, hn', Nat.add_assoc]
    · have hstep : periodStep now type p r = p := by simp [periodStep, hin]
      rw [hstep]
      obtain ⟨e1, e2⟩ := ih p m m' (fun x hx => hrows x (List.mem_cons_of_mem _ hx)) hm hm'
      refine ⟨?_, ?_⟩
      · rw [e1]; simp [List.filter_cons, hin]
      · rw [e2]; simp [List.filter_cons, hin]

/-! ### The day after a calendar date -/

theorem yearOfEra_upper (doe : Int) (h0 : 0 ≤ doe) (h1 : doe < 146097)
    (hy : (doe - doe / 1460 + doe / 36524 - doe / 146096) / 365 ≤ 398) :
    doe < 365 * ((doe - doe / 1460 + doe / 36524 - doe / 146096) / 365 + 1) +
      ((doe - doe / 1460 + doe / 36524 - doe / 146096) / 365 + 1) / 4 -
      ((doe - doe / 1460 + doe / 36524 - doe / 146096) / 365 + 1) / 100 := by
  generalize hq : doe / 1460 = q at *
  generalize hc : doe / 36524 = c at *
  generalize hd : doe / 146096 = d at *
  generalize hyy : (doe - q + c - d) / 365 = yoe at *
  generalize he : (yoe + 1) / 4 = e
  generalize hf : (yoe + 1) / 100 = f
  have hyoe : 0 ≤ yoe ∧ yoe ≤ 399 := by omega
  have hcb : 0 ≤ c ∧ c ≤ 4 := by omega
  have hdb : 0 ≤ d ∧ d ≤ 1 := by omega
  have hfb : 0 ≤ f ∧ f ≤ 3 := by omega
  obtain ⟨hc0, hc1⟩ := hcb
  obtain ⟨hd0, hd1⟩ := hdb
  obtain ⟨hf0, hf1⟩ := hfb
  interval_cases f <;> omega

theorem daysBeforeYear_mono (a b : Int) (hab : a ≤ b) :
    365 * a + a / 4 - a / 100 ≤ 365 * b + b / 4 - b / 100 := by
  omega

theorem yearOfEra_unique (doe k : Int) (h0 : 0 ≤ doe) (h1 : doe < 146097) (hk0 : 0 ≤ k)
    (hk1 : k ≤ 399) (hlo : 365 * k + k / 4 - k / 100 ≤ doe)
    (hhi : k ≤ 398 → doe < 365 * (k + 1) + (k + 1) / 4 - (k + 1) / 100) :
    (doe - doe / 1460 + doe / 36524 - doe / 146096) / 365 = k := by
  obtain ⟨hy0, hy1, hd0, _⟩ := yearOfEra_bounds doe h0 h1
  have hup := yearOfEra_upper doe h0 h1
  generalize (doe - doe / 1460 + doe / 36524 - doe / 146096) / 365 = yoe at *
  by_contra hne
  have hcases : yoe < k ∨ k < yoe := by omega
  rcases hcases with h | h
  · have := hup (by omega)
    have := daysBeforeYear_mono (yoe + 1) k (by omega)
    omega
  · have := hhi (by omega)
    have := daysBeforeYear_mono (k + 1) yoe (by omega)
    omega

/-- The year of the era and the day of that year, for consecutive days of one era: the day
after is in the same year, or it is the first day of the next. -/
theorem yearOfEra_succ (doe : Int) (h0 : 0 ≤ doe) (h1 : doe + 1 < 146097) :
    ((doe + 1 - (doe + 1) / 1460 + (doe + 1) / 36524 - (doe + 1) / 146096) / 365 =
        (doe - doe / 1460 + doe / 36524 - doe / 146096) / 365) ∨
      ((doe + 1 - (doe + 1) / 1460 + (doe + 1) / 36524 - (doe + 1) / 146096) / 365 =
        (doe - doe / 1460 + doe / 36524 - doe / 146096) / 365 + 1 ∧
       doe + 1 = 365 * ((doe - doe / 1460 + doe / 36524 - doe / 146096) / 365 + 1) +
        ((doe - doe / 1460 + doe / 36524 - doe / 146096) / 365 + 1) / 4 -
        ((doe - doe / 1460 + doe / 36524 - doe / 146096) / 365 + 1) / 100 ∧
       364 ≤ doe - (365 * ((doe - doe / 1460 + doe / 36524 - doe / 146096) / 365) +
        (doe - doe / 1460 + doe / 36524 - doe / 146096) / 365 / 4 -
        (doe - doe / 1460 + doe / 36524 - doe / 146096) / 365 / 100)) := by
  obtain ⟨hy0, hy1, hd0, hd1⟩ := yearOfEra_bounds doe h0 (by omega)
  have hup := yearOfEra_upper doe h0 (by omega)
  generalize hyy : (doe - doe / 1460 + doe / 36524 - doe / 146096) / 365 = yoe at *
  by_cases hsame : yoe ≤ 398 → doe + 1 < 365 * (yoe + 1) + (yoe + 1) / 4 - (yoe + 1) / 100
  · left
    exact yearOfEra_unique (doe + 1) yoe (by omega) h1 hy0 hy1 (by omega) hsame
  · right
    have hy398 : yoe ≤ 398 := by
      by_contra hc
      exact hsame (fun h => absurd h hc)
    have hlt := hup hy398
    have heq : doe + 1 = 365 * (yoe + 1) + (yoe + 1) / 4 - (yoe + 1) / 100 := by
      have : ¬ doe + 1 < 365 * (yoe + 1) + (yoe + 1) / 4 - (yoe + 1) / 100 :=
        fun h => hsame (fun _ => h)
      omega
    have hdoy : 364 ≤ doe - (365 * yoe + yoe / 4 - yoe / 100) := by
      have hstep : 365 * yoe + yoe / 4 - yoe / 100 + 365 ≤
          365 * (yoe + 1) + (yoe + 1) / 4 - (yoe + 1) / 100 := by
        clear heq hlt hsame hup hd0 hd1 hyy
        generalize hf : yoe / 100 = f
        have hfb : 0 ≤ f ∧ f ≤ 3 := by omega
        obtain ⟨hf0, hf1⟩ := hfb
        interval_cases f <;> omega
      omega
    refine ⟨?_, heq, hdoy⟩
    apply yearOfEra_unique (doe + 1) (yoe + 1) (by omega) h1 (by omega) (by omega) (by omega)
    intro _
    have := daysBeforeYear_mono (yoe + 1) (yoe + 2) (by omega)
    omega

/-- The calendar date of the day after: it lies in the same month, or it is the first day of the
next month. -/
theorem civilFromDays_succ (z : Int) :
    ((civilFromDays (z + 1)).year = (civilFromDays z).year ∧
        (civilFromDays (z + 1)).month = (civilFromDays z).month) ∨
      ((civilFromDays (z + 1)).day = 1 ∧
        (civilFromDays (z + 1)).year * 12 + (civilFromDays (z + 1)).month =
          (civilFromDays z).year * 12 + (civilFromDays z).month + 1) := by
  simp only [civilFromDays]
  have hw' : z + 1 + 719468 = z + 719468 + 1 := by omega
  rw [hw']
  generalize z + 719468 = w
  generalize he : w / 146097 = era
  generalize hd : w % 146097 = doe
  have hdoe : 0 ≤ doe ∧ doe < 146097 := by omega
  by_cases hlast : doe = 146096
  · have e1 : (w + 1) / 146097 = era + 1 := by omega
    have e2 : (w + 1) % 146097 = 0 := by omega
    rw [e1, e2, hlast]
    right
    norm_num
    omega
  · have e1 : (w + 1) / 146097 = era := by omega
    have e2 : (w + 1) % 146097 = doe + 1 := by omega
    rw [e1, e2]
    obtain ⟨hy0, hy1, hd0, hd1⟩ := yearOfEra_bounds doe hdoe.1 hdoe.2
    obtain ⟨_, _, hd0', hd1'⟩ := yearOfEra_bounds (doe + 1) (by omega) (by omega)
    rcases yearOfEra_succ doe hdoe.1 (by omega) with hs | ⟨hs, heq, hdoy⟩
    · rw [hs] at hd0' hd1' ⊢
      generalize (doe - doe / 1460 + doe / 36524 - doe / 146096) / 365 = yoe at *
      have hdd : doe + 1 - (365 * yoe + yoe / 4 - yoe / 100) =
          doe - (365 * yoe + yoe / 4 - yoe / 100) + 1 := by omega
      rw [hdd] at hd0' hd1' ⊢
      generalize doe - (365 * yoe + yoe / 4 - yoe / 100) = doy at *
      generalize hm : (5 * doy + 2) / 153 = mp
      generalize hm' : (5 * (doy + 1) + 2) / 153 = mp'
      have hmp : 0 ≤ mp ∧ mp ≤ 11 := by omega
      have hstep : mp' = mp ∨ mp' = mp + 1 := by omega
      rcases hstep with h | h
      · left; rw [h]; exact ⟨rfl, rfl⟩
      · right
        subst h
        have hday : doy + 1 - (153 * (mp + 1) + 2) / 5 + 1 = 1 := by omega
        have hmp' : mp + 1 ≤ 11 := by omega
        refine ⟨hday, ?_⟩
        clear hday hm hm' hd0 hd1 hd0' hd1' hdd hs e1 e2 hlast hdoe hd he hw'
        split_ifs <;> omega
    · rw [hs]
      generalize (doe - doe / 1460 + doe / 36524 - doe / 146096) / 365 = yoe at *
      have hz : doe + 1 - (365 * (yoe + 1) + (yoe + 1) / 4 - (yoe + 1) / 100) = 0 := by omega
      rw [hz]
      generalize doe - (365 * yoe + yoe / 4 - yoe / 100) = doy at *
      have hmp : (5 * doy + 2) / 153 = 11 := by omega
      rw [hmp]
      right
      norm_num
      omega

theorem daysFromCivil_month_length (year month : Int) (hm0 : 0 ≤ month) (hm1 : month ≤ 12) :
    daysFromCivil year month 1 + 28 ≤ daysFromCivil year (month + 1) 1 := by
  simp only [daysFromCivil]
  interval_cases month <;> simp <;> omega

/-- `differenceInMonths` of two instants less than an hour apart is 0, also across the end of a
month. -/
theorem differenceInMonths_within_hour (dateLeft dateRight : Int) (h0 : dateRight ≤ dateLeft)
    (h1 : dateLeft < dateRight + 3600000) : differenceInMonths dateLeft dateRight = 0 := by
  have hdays : dateLeft / 86400000 = dateRight / 86400000 ∨
      dateLeft / 86400000 = dateRight / 86400000 + 1 := by omega
  rcases hdays with hd | hd
  · have hz : differenceInCalendarMonths dateLeft dateRight = 0 := by
      simp only [differenceInCalendarMonths, utcDate, hd]; omega
    simp [differenceInMonths, hz]
  · rcases civilFromDays_succ (dateRight / 86400000) with hs | ⟨hday, hmon⟩
    · have hz : differenceInCalendarMonths dateLeft dateRight = 0 := by
        simp only [differenceInCalendarMonths, utcDate, hd, hs.1, hs.2]; omega
      simp [differenceInMonths, hz]
    · rw [← hd] at hday hmon
      have hone : differenceInCalendarMonths dateLeft dateRight = 1 := by
        simp only [differenceInCalendarMonths, utcDate]; omega
      have hsign : compareAsc dateLeft dateRight = 1 := by
        unfold compareAsc; rw [if_neg (by omega), if_pos (by omega)]
      obtain ⟨hm0, hm1, _, _⟩ := civilFromDays_fields (dateLeft / 86400000)
      have hrt := daysFromCivil_civilFromDays (dateLeft / 86400000)
      rw [hday] at hrt
      have hprev := daysFromCivil_month_length (civilFromDays (dateLeft / 86400000)).year
        ((civilFromDays (dateLeft / 86400000)).month - 1) (by omega) (by omega)
      have hnext := daysFromCivil_month_length (civilFromDays (dateLeft / 86400000)).year
        (civilFromDays (dateLeft / 86400000)).month (by omega) (by omega)
      have hsub : (civilFromDays (dateLeft / 86400000)).month - 1 + 1 =
          (civilFromDays (dateLeft / 86400000)).month := by omega
      rw [hsub, hrt] at hprev
      rw [hrt] at hnext
      have hlast : isLastDayOfMonth dateLeft = false := by
        unfold isLastDayOfMonth utcDate
        rw [hday, daysFromCivil_day _ _ (1 + 1)]
        have := daysFromCivil_day (civilFromDays (dateLeft / 86400000)).year
          (civilFromDays (dateLeft / 86400000)).month 1
        simp only [decide_eq_false_iff_not]
        omega
      have hmoved : compareAsc
          (daysFromCivil (civilFromDays (dateLeft / 86400000)).year
            ((civilFromDays (dateLeft / 86400000)).month - 1) 1 * 86400000 + timeInDay dateLeft)
          dateRight = -1 := by
        unfold compareAsc timeInDay
        rw [if_pos (by omega)]
      unfold differenceInMonths
      simp only [hone, hsign, utcDate, hday, hlast]
      simp [hday, hmoved]

/-! ### `find` after a call of `add` -/

theorem landed_bucket (now c : Int) (type : PeriodType) (h0 : c ≤ now) (h1 : now < c + 3600000) :
    isAfter c (periodStart now type) = true ∧ bucketIndex now type c = bucketCount type - 1 := by
  obtain ⟨hs1, hs2, hs3⟩ := periodStart_le now
  have hs4 : subHours now 24 < c := by unfold subHours; omega
  constructor
  · cases type <;> simp only [periodStart, isAfter, decide_eq_true_eq, gt_iff_lt] <;> omega
  · cases type
    · simp only [bucketIndex, getDifferenceFunction, differenceInHours, truncDiv]
      rw [if_pos (by omega)]; omega
    · simp only [bucketIndex, getDifferenceFunction]
      rw [differenceInDays_eq _ _ h0]; omega
    · simp only [bucketIndex, getDifferenceFunction]
      rw [differenceInDays_eq _ _ h0]; omega
    · simp only [bucketIndex, getDifferenceFunction]
      rw [differenceInMonths_within_hour _ _ h0 h1]; omega

theorem sum_filter_replace (visit row' : Visit) (p : Visit → Bool) (hp : p row' = p visit)
    (ht : row'.total = visit.total + 1) (rows : List Visit) :
    rows.Nodup → visit ∈ rows →
    (((rows.map (fun row => if row = visit then row' else row)).filter p).map
        (fun r => r.total)).sum =
      ((rows.filter p).map (fun r => r.total)).sum + (if p visit = true then 1 else 0) := by
  induction rows with
  | nil => intro _ h; cases h
  | cons r rs ih =>
    intro hnd hmem
    rw [List.nodup_cons] at hnd
    by_cases hr : r = visit
    · subst hr
      have hid : rs.map (fun row => if row = r then row' else row) = rs := by
        have : ∀ x ∈ rs, (fun row : Visit => if row = r then row' else row) x = x := by
          intro x hx
          have : x ≠ r := fun e => hnd.1 (e ▸ hx)
          simp [this]
        rw [List.map_congr_left this, List.map_id']
      rw [List.map_cons, if_pos rfl, hid]
      rcases Bool.eq_false_or_eq_true (p r) with h | h
      · simp only [List.filter_cons, hp, h, if_true, List.map_cons, List.sum_cons, ht]
        omega
      · simp only [List.filter_cons, hp, h, Bool.false_eq_true, if_false]
        omega
    · have hmem' : visit ∈ rs := by
        rcases List.mem_cons.1 hmem with h | h
        · exact absurd h.symm hr
        · exact h
      have ih' := ih hnd.2 hmem'
      rw [List.map_cons, if_neg hr]
      rcases Bool.eq_false_or_eq_true (p r) with h | h
      · simp only [List.filter_cons, h, if_true, List.map_cons, List.sum_cons, ih']
        omega
      · simp only [List.filter_cons, h, Bool.false_eq_true, if_false, ih']

/-- What a call of `add` that commits does to the rows of its link, on a table where ids are a
key: one row of the link, created at `landedAt`, counts one visit more (it is new with `total`
1, or its `total` has grown by 1), and no other `created_at` or `total` of the link changes.
Stated for the sum of `total` over the rows whose `created_at` satisfies any condition `p`. -/
theorem add_sum_by_created_at (visits visits' : List Visit) (now : Int) (params : VisitParams)
    (hids : (visits.map (fun v => v.id)).Nodup) (hadd : add visits now params = some visits')
    (p : Int → Bool) :
    (((rowsOf params.link_id visits').filter (fun r => p r.created_at)).map
        (fun r => r.total)).sum =
      (((rowsOf params.link_id visits).filter (fun r => p r.created_at)).map
        (fun r => r.total)).sum + (if p (landedAt visits now params) = true then 1 else 0) ∧
    ∀ r ∈ rowsOf params.link_id visits',
      r.created_at = landedAt visits now params ∨
        ∃ r0 ∈ rowsOf params.link_id visits, r0.created_at = r.created_at := by
  cases hbr : Column.ofName ("br_" ++ params.browser) with
  | none =>
    have hb' : Column.ofName ("br_" ++ (addData params).browser) = none := hbr
    unfold add at hadd
    simp only [hb'] at hadd
    exact absurd hadd (by simp)
  | some br =>
    cases hos : Column.ofName ("os_" ++ params.os) with
    | none =>
      have hb' : Column.ofName ("br_" ++ (addData params).browser) = some br := hbr
      have ho' : Column.ofName ("os_" ++ (addData params).os) = none := hos
      unfold add at hadd
      simp only [hb', ho'] at hadd
      exact absurd hadd (by simp)
    | some os =>
      rw [add_of_columns visits now params br os hbr hos] at hadd
      unfold landedAt
      cases hf : findVisit visits now params.link_id with
      | none =>
        rw [hf] at hadd
        simp only [Option.some.injEq] at hadd
        subst hadd
        have hl : (insertedRow visits now (addData params) br os).link_id = params.link_id := by
          simp [insertedRow, addData]
        have hc : (insertedRow visits now (addData params) br os).created_at = now := by
          simp [insertedRow]
        have ht : (insertedRow visits now (addData params) br os).total = 1 := by
          simp [insertedRow]
        have hrows : rowsOf params.link_id
            (visits ++ [insertedRow visits now (addData params) br os]) =
            rowsOf params.link_id visits ++ [insertedRow visits now (addData params) br os] := by
          simp [rowsOf, List.filter_append, List.filter_cons, hl]
        rw [hrows]
        constructor
        · rcases Bool.eq_false_or_eq_true (p now) with h | h
          · simp [List.filter_append, List.filter_cons, hc, h, ht]
          · simp [List.filter_append, List.filter_cons, hc, h]
        · intro r hr
          rcases List.mem_append.1 hr with h | h
          · exact Or.inr ⟨r, h, rfl⟩
          · rw [List.mem_singleton.1 h]; exact Or.inl hc
      | some visit =>
        rw [hf] at hadd
        simp only [Option.some.injEq] at hadd
        subst hadd
        obtain ⟨hmem, hlink, _⟩ := findVisit_some visits now _ visit hf
        have hmap : visits.map (fun row =>
            if row.id = visit.id then updatedRow visit now (addData params) br os row else row) =
            visits.map (fun row =>
              if row = visit then updatedRow visit now (addData params) br os visit else row) := by
          apply List.map_congr_left
          intro row hrow
          by_cases hid : row.id = visit.id
          · have : row = visit := List.inj_on_of_nodup_map hids hrow hmem hid
            rw [if_pos hid, if_pos this, this]
          · have : ¬ row = visit := fun e => hid (by rw [e])
            rw [if_neg hid, if_neg this]
        have hul : (updatedRow visit now (addData params) br os visit).link_id = visit.link_id := by
          simp [updatedRow, Visit.increment]
        have huc : (updatedRow visit now (addData params) br os visit).created_at =
            visit.created_at := by
          simp [updatedRow, Visit.increment]
        have hut : (updatedRow visit now (addData params) br os visit).total = visit.total + 1 := by
          simp [updatedRow]
        have hrows : rowsOf params.link_id (visits.map (fun row =>
              if row = visit then updatedRow visit now (addData params) br os visit else row)) =
            (rowsOf params.link_id visits).map (fun row =>
              if row = visit then updatedRow visit now (addData params) br os visit else row) := by
          unfold rowsOf
          rw [List.filter_map]
          congr 1
          apply List.filter_congr
          intro row _
          by_cases hrv : row = visit
          · simp [hrv, hul]
          · simp [hrv]
        rw [hmap, hrows]
        have hnd : (rowsOf params.link_id visits).Nodup :=
          (List.Nodup.of_map _ hids).filter _
        have hmem' : visit ∈ rowsOf params.link_id visits := by
          unfold rowsOf
          rw [List.mem_filter]
          exact ⟨hmem, by simpa using hlink⟩
        constructor
        · exact sum_filter_replace visit _ (fun r => p r.created_at) (by simp only [huc]) hut _
            hnd hmem'
        · intro r hr
          obtain ⟨row, hrow, rfl⟩ := List.mem_map.1 hr
          by_cases hrv : row = visit
          · rw [if_pos hrv]; exact Or.inl huc
          · rw [if_neg hrv]; exact Or.inr ⟨row, hrow, rfl⟩

theorem bucketTotal_after_add (visits visits' : List Visit) (now now' : Int)
    (params : VisitParams) (hids : (visits.map (fun v => v.id)).Nodup)
    (hadd : add visits now params = some visits')
    (h0 : landedAt visits now params ≤ now')
    (h1 : now' < landedAt visits now params + 3600000) (type : PeriodType) (i : Nat) :
    bucketTotal (rowsOf params.link_id visits') now' type i =
      bucketTotal (rowsOf params.link_id visits) now' type i +
        (if i = bucketCount type - 1 then 1 else 0) := by
  obtain ⟨hin, hidx⟩ := landed_bucket now' (landedAt visits now params) type h0 h1
  have hsum := (add_sum_by_created_at visits visits' now params hids hadd
    (fun t => decide (isAfter t (periodStart now' type) = true ∧
      bucketIndex now' type t = (i : Int)))).1
  have hk : 1 ≤ bucketCount type := by cases type <;> simp [bucketCount]
  have hp : (decide (isAfter (landedAt visits now params) (periodStart now' type) = true ∧
      bucketIndex now' type (landedAt visits now params) = (i : Int)) = true) ↔
      i = bucketCount type - 1 := by
    rw [decide_eq_true_eq, hidx]
    constructor
    · intro h; omega
    · intro h; exact ⟨hin, by omega⟩
  unfold bucketTotal included
  rw [hsum]
  by_cases hi : i = bucketCount type - 1
  · rw [if_pos (hp.2 hi), if_pos hi]
  · rw [if_neg (fun h => hi (hp.1 h)), if_neg hi]

/-- C21, amended: on a table where ids are a key, let a call of `add` commit (it inserts a row
with `total` 1 or increments the row of the current hour), and let `find` be evaluated without
a cached response at a `now` that is not before the `created_at` of that row and less than one
hour after it, no row of the link being created after that `now`. Compared with `find` on the
table before the call, each of the four periods has its `total` increased by exactly 1 and its
newest bucket (the last of the 24, 7, 30 or 12 elements of `views`) increased by exactly 1,
every other element of `views` being the same. -/
theorem find_after_add (visits visits' : List Visit) (now now' : Int) (params : VisitParams)
    (hids : (visits.map (fun v => v.id)).Nodup)
    (hadd : add visits now params = some visits')
    (h0 : landedAt visits now params ≤ now')
    (h1 : now' < landedAt visits now params + 3600000)
    (hpast : ∀ r ∈ rowsOf params.link_id visits, r.created_at ≤ now') (type : PeriodType) :
    ((find visits' now' params.link_id).get type).total =
        ((find visits now' params.link_id).get type).total + 1 ∧
      ((find visits now' params.link_id).get type).views.length = bucketCount type ∧
      ∃ n, ((find visits now' params.link_id).get type).views[bucketCount type - 1]? =
          some (.num n) ∧
        ((find visits' now' params.link_id).get type).views =
          ((find visits now' params.link_id).get type).views.set (bucketCount type - 1)
            (.num (n + 1)) := by
  obtain ⟨hin, _⟩ := landed_bucket now' (landedAt visits now params) type h0 h1
  have hcreated := (add_sum_by_created_at visits visits' now params hids hadd (fun _ => true)).2
  have hpast' : ∀ r ∈ rowsOf params.link_id visits', r.created_at ≤ now' := by
    intro r hr
    rcases hcreated r hr with h | ⟨r0, hr0, h⟩
    · rw [h]; exact h0
    · rw [← h]; exact hpast r0 hr0
  have hbound : ∀ vs : List Visit, (∀ r ∈ rowsOf params.link_id vs, r.created_at ≤ now') →
      ∀ r ∈ rowsOf params.link_id vs, included now' type r = true →
        bucketIndex now' type r.created_at < bucketCount type := by
    intro vs hvs r hr _
    have := difference_nonneg now' r.created_at type (hvs r hr)
    unfold bucketIndex; omega
  have hv := find_views_of_index_bound visits now' params.link_id type (hbound visits hpast)
  have hv' := find_views_of_index_bound visits' now' params.link_id type (hbound visits' hpast')
  have hk : 1 ≤ bucketCount type := by cases type <;> simp [bucketCount]
  refine ⟨?_, ?_, bucketTotal (rowsOf params.link_id visits) now' type (bucketCount type - 1),
    ?_, ?_⟩
  · rw [(find_get visits' now' params.link_id type).2.1,
      (find_get visits now' params.link_id type).2.1, find_total, find_total]
    have hsum := (add_sum_by_created_at visits visits' now params hids hadd
      (fun t => isAfter t (periodStart now' type))).1
    rw [if_pos hin] at hsum
    exact hsum
  · rw [hv]; simp [bucketTotals]
  · rw [hv]
    simp only [bucketTotals, List.getElem?_map]
    rw [List.getElem?_range (by omega)]
    rfl
  · rw [hv, hv']
    unfold bucketTotals
    apply List.ext_getElem
    · simp
    · intro i hi1 hi2
      simp only [List.length_map, List.length_range] at hi1
      simp only [List.getElem_map, List.getElem_range, List.getElem_set]
      rw [bucketTotal_after_add visits visits' now now' params hids hadd h0 h1 type i]
      by_cases hi : i = bucketCount type - 1
      · rw [if_pos hi, if_pos hi.symm, hi]
      · rw [if_neg hi, if_neg (fun e => hi e.symm), Nat.add_zero]

/-- C21, amended, on the table of the three rows of 5, 2 and 10 visits: a visit recorded in
the hour of the first row shows as one more visit in the total of the last week and in the last
of its seven buckets. -/
theorem find_after_add_witness :
    add [aggregateRow 1 7 1730898000000 5, aggregateRow 2 7 (1730898000000 - 26 * 3600000) 2,
          aggregateRow 3 7 (1730898000000 - 8 * 86400000) 10] 1730900712345
        ⟨"chrome", "US", 7, 3, "windows", "Direct"⟩ =
      some (record [aggregateRow 1 7 1730898000000 5,
          aggregateRow 2 7 (1730898000000 - 26 * 3600000) 2,
          aggregateRow 3 7 (1730898000000 - 8 * 86400000) 10] 1730900712345
        ⟨"chrome", "US", 7, 3, "windows", "Direct"⟩) ∧
    landedAt [aggregateRow 1 7 1730898000000 5, aggregateRow 2 7 (1730898000000 - 26 * 3600000) 2,
          aggregateRow 3 7 (1730898000000 - 8 * 86400000) 10] 1730900712345
        ⟨"chrome", "US", 7, 3, "windows", "Direct"⟩ = 1730898000000 ∧
    (find [aggregateRow 1 7 1730898000000 5, aggregateRow 2 7 (1730898000000 - 26 * 3600000) 2,
          aggregateRow 3 7 (1730898000000 - 8 * 86400000) 10] 1730900799000 7).lastWeek.views =
      [.num 0, .num 0, .num 0, .num 0, .num 0, .num 2, .num 5] ∧
    (find (record [aggregateRow 1 7 1730898000000 5,
          aggregateRow 2 7 (1730898000000 - 26 * 3600000) 2,
          aggregateRow 3 7 (1730898000000 - 8 * 86400000) 10] 1730900712345
        ⟨"chrome", "US", 7, 3, "windows", "Direct"⟩) 1730900799000 7).lastWeek.views =
      [.num 0, .num 0, .num 0, .num 0, .num 0, .num 2, .num 6] ∧
    (find (record [aggregateRow 1 7 1730898000000 5,
          aggregateRow 2 7 (1730898000000 - 26 * 3600000) 2,
          aggregateRow 3 7 (1730898000000 - 8 * 86400000) 10] 1730900712345
        ⟨"chrome", "US", 7, 3, "windows", "Direct"⟩) 1730900799000 7).lastWeek.total =
      (find [aggregateRow 1 7 1730898000000 5, aggregateRow 2 7 (1730898000000 - 26 * 3600000) 2,
          aggregateRow 3 7 (1730898000000 - 8 * 86400000) 10] 1730900799000 7).lastWeek.total + 1 :=
  ⟨by decide, by decide, by decide, by decide,
    (find_after_add [aggregateRow 1 7 1730898000000 5,
        aggregateRow 2 7 (1730898000000 - 26 * 3600000) 2,
        aggregateRow 3 7 (1730898000000 - 8 * 86400000) 10] _ 1730900712345 1730900799000
      ⟨"chrome", "US", 7, 3, "windows", "Direct"⟩ (by decide) (by decide) (by decide) (by decide)
      (by decide) .lastWeek).1⟩

/-- C21, as the spec states it, fails: the table holds, for link 7, a row created at
2024-11-06T16:00:00Z and, after it, the row of the hour 13:00 with 5 visits. A visit recorded at
13:45 increments the row of 13:00, and `find` is evaluated at 13:46, forty-six minutes after
that row was created. The row created after `now` has extended `views` of the last day to 26
elements, so the bucket index of the row of 13:00 is computed as 25, where the array holds
`NaN`: the total of the last day grows from 8 to 9 while `views` is the same before and after,
its element 23 being 0 and its last element `NaN`. -/
theorem find_views_unchanged_behind_future_row :
    add [aggregateRow 2 7 (1730898000000 + 3 * 3600000) 3, aggregateRow 1 7 1730898000000 5]
        1730900712345 ⟨"chrome", "US", 7, 3, "windows", "Direct"⟩ =
      some (record [aggregateRow 2 7 (1730898000000 + 3 * 3600000) 3,
        aggregateRow 1 7 1730898000000 5] 1730900712345
        ⟨"chrome", "US", 7, 3, "windows", "Direct"⟩) ∧
    (record [aggregateRow 2 7 (1730898000000 + 3 * 3600000) 3,
        aggregateRow 1 7 1730898000000 5] 1730900712345
        ⟨"chrome", "US", 7, 3, "windows", "Direct"⟩).map Visit.total = [3, 6] ∧
    landedAt [aggregateRow 2 7 (1730898000000 + 3 * 3600000) 3, aggregateRow 1 7 1730898000000 5]
        1730900712345 ⟨"chrome", "US", 7, 3, "windows", "Direct"⟩ = 1730898000000 ∧
    (find [aggregateRow 2 7 (1730898000000 + 3 * 3600000) 3, aggregateRow 1 7 1730898000000 5]
        1730900799000 7).lastDay.total = 8 ∧
    (find (record [aggregateRow 2 7 (1730898000000 + 3 * 3600000) 3,
        aggregateRow 1 7 1730898000000 5] 1730900712345
        ⟨"chrome", "US", 7, 3, "windows", "Direct"⟩) 1730900799000 7).lastDay.total = 9 ∧
    (find [aggregateRow 2 7 (1730898000000 + 3 * 3600000) 3, aggregateRow 1 7 1730898000000 5]
        1730900799000 7).lastDay.views = List.replicate 24 (.num 0) ++ [.hole, .nan] ∧
    (find (record [aggregateRow 2 7 (1730898000000 + 3 * 3600000) 3,
        aggregateRow 1 7 1730898000000 5] 1730900712345
        ⟨"chrome", "US", 7, 3, "windows", "Direct"⟩) 1730900799000 7).lastDay.views =
      List.replicate 24 (.num 0) ++ [.hole, .nan] := by
  decide

/-! ### The stats cache -/

theorem recordAllInStore_cache (events : List Event) :
    ∀ store : Store, (recordAllInStore store events).cache = store.cache := by
  induction events with
  | nil => intro store; rfl
  | cons e es ih =>
    intro store
    simp only [recordAllInStore, List.foldl_cons] at ih ⊢
    rw [ih]
    rfl

theorem recordAllInStore_visits (events : List Event) :
    ∀ store : Store, (recordAllInStore store events).visits =
      events.foldl (fun visits e => record visits e.now e.params) store.visits := by
  induction events with
  | nil => intro store; rfl
  | cons e es ih =>
    intro store
    simp only [recordAllInStore, List.foldl_cons] at ih ⊢
    rw [ih]
    rfl

/-- What a call of `find` that finds no cached text leaves in Redis: the response it has
computed, under the key of the link, readable at every instant before 60 seconds have passed. -/
theorem findWithCache_stores (store : Store) (t0 now : Int) (link_id : Nat)
    (hl : link_id ≠ 0) (hmiss : store.cache.get t0 link_id = none) (hnow : now < t0 + 60000) :
    (findWithCache true store t0 link_id).1 = .computed (find store.visits t0 link_id) t0 ∧
      (findWithCache true store t0 link_id).2.visits = store.visits ∧
      (findWithCache true store t0 link_id).2.cache.get now link_id =
        some { response := find store.visits t0 link_id, updatedAt := t0,
               expiresAt := t0 + 60000 } := by
  have hf : findWithCache true store t0 link_id =
      (.computed (find store.visits t0 link_id) t0,
        { store with cache :=
            store.cache.setEx t0 link_id (find store.visits t0 link_id) t0 60 }) := by
    simp only [findWithCache, ne_eq, hl, not_false_eq_true, and_self, if_true, hmiss]
  rw [hf]
  refine ⟨rfl, rfl, ?_⟩
  simp only [StatsCache.get, StatsCache.setEx, List.lookup, beq_self_eq_true]
  rw [if_pos (by omega)]
  norm_num

/-- C22: with caching enabled, recording visits neither modifies nor removes the cached stats
entry of a link, and `find`, called while an unexpired entry of the link exists, returns the
report of that entry (its response and its `updatedAt`, read back from the cached text) and
leaves the store as it is, whatever visits have been recorded since the entry was written. The
link id is not 0 (a falsy id is never cached). -/
theorem findWithCache_returns_unexpired_entry (store : Store) (now : Int) (link_id : Nat)
    (entry : CacheEntry) (events : List Event) (hl : link_id ≠ 0)
    (h : store.cache.get now link_id = some entry) :
    (recordAllInStore store events).cache = store.cache ∧
      findWithCache true (recordAllInStore store events) now link_id =
        (.parsed entry.response entry.updatedAt, recordAllInStore store events) := by
  have hc := recordAllInStore_cache events store
  refine ⟨hc, ?_⟩
  simp only [findWithCache, ne_eq, hl, not_false_eq_true, and_self, if_true, hc, h]

/-- C22, on a store whose cache holds, for link 7, the response computed on the empty table at
the instant 1730900700000: a visit recorded ten seconds later does not show in the report that
`find` returns twenty seconds after the entry was written, while the response computed from
the table counts it. -/
theorem findWithCache_returns_unexpired_entry_witness :
    (7 : Nat) ≠ 0 ∧
      StatsCache.get (findWithCache true ⟨[], []⟩ 1730900700000 7).2.cache 1730900720000 7 =
        some ⟨find [] 1730900700000 7, 1730900700000, 1730900760000⟩ ∧
      findWithCache true
          (recordAllInStore (findWithCache true ⟨[], []⟩ 1730900700000 7).2
            [⟨1730900710000, ⟨"chrome", "US", 7, 3, "windows", "Direct"⟩⟩]) 1730900720000 7 =
        (.parsed (find [] 1730900700000 7) 1730900700000,
          recordAllInStore (findWithCache true ⟨[], []⟩ 1730900700000 7).2
            [⟨1730900710000, ⟨"chrome", "US", 7, 3, "windows", "Direct"⟩⟩]) ∧
      (find [] 1730900700000 7).lastDay.total = 0 ∧
      (find (recordAllInStore (findWithCache true ⟨[], []⟩ 1730900700000 7).2
            [⟨1730900710000, ⟨"chrome", "US", 7, 3, "windows", "Direct"⟩⟩]).visits
          1730900720000 7).lastDay.total = 1 :=
  ⟨by decide, by decide,
    (findWithCache_returns_unexpired_entry (findWithCache true ⟨[], []⟩ 1730900700000 7).2
      1730900720000 7 ⟨find [] 1730900700000 7, 1730900700000, 1730900760000⟩
      [⟨1730900710000, ⟨"chrome", "US", 7, 3, "windows", "Direct"⟩⟩] (by decide) (by decide)).2,
    by decide, by decide⟩

/-! ### Determinism -/

/-- C23: `find` without a cached response is a function of the rows of the link, in the order
they are streamed, and of `now`. On two tables that hold the same rows of the link in the same
order (whatever rows of other links lie between them) it returns the same response, with the
same views, totals and ranked dimension lists for the last day, week, month and year; and a
call made with no cache in use computes that response and leaves the table and Redis as they
were, so that a second call with no `add` in between runs on the same rows. -/
theorem find_deterministic (store store' : Store) (now : Int) (link_id : Nat)
    (h : rowsOf link_id store.visits = rowsOf link_id store'.visits) :
    find store.visits now link_id = find store'.visits now link_id ∧
      findWithCache false store now link_id =
        (.computed (find store.visits now link_id) now, store) ∧
      (findWithCache false (findWithCache false store now link_id).2 now link_id).1 =
        (findWithCache false store now link_id).1 := by
  have hf : ∀ s : Store, findWithCache false s now link_id =
      (.computed (find s.visits now link_id) now, s) := by
    intro s
    simp [findWithCache]
  refine ⟨?_, hf store, ?_⟩
  · unfold find
    rw [h]
  · rw [hf store, hf store]

/-- C23, on the three rows of link 7 with and without a row of link 8 between them. -/
theorem find_deterministic_witness :
    rowsOf 7 [aggregateRow 1 7 1730898000000 5, aggregateRow 2 8 1730898000000 4,
        aggregateRow 3 7 (1730898000000 - 26 * 3600000) 2] =
      rowsOf 7 [aggregateRow 1 7 1730898000000 5,
        aggregateRow 3 7 (1730898000000 - 26 * 3600000) 2] ∧
    find [aggregateRow 1 7 1730898000000 5, aggregateRow 2 8 1730898000000 4,
        aggregateRow 3 7 (1730898000000 - 26 * 3600000) 2] 1730900712345 7 =
      find [aggregateRow 1 7 1730898000000 5,
        aggregateRow 3 7 (1730898000000 - 26 * 3600000) 2] 1730900712345 7 :=
  ⟨by decide,
    (find_deterministic
      ⟨[aggregateRow 1 7 1730898000000 5, aggregateRow 2 8 1730898000000 4,
        aggregateRow 3 7 (1730898000000 - 26 * 3600000) 2], []⟩
      ⟨[aggregateRow 1 7 1730898000000 5,
        aggregateRow 3 7 (1730898000000 - 26 * 3600000) 2], []⟩ 1730900712345 7 (by decide)).1⟩

/-! ### Concurrent calls of `add` -/

/-- A call that runs its two steps with no other call in progress between them does what `add`
does: on a database where no call holds a lock, the select and the write of a started call
leave the table that `record` gives. -/
theorem step_step_eq_record (db : Database) (i : Nat) (w : Writer)
    (hw : db.writers[i]? = some w) (hs : w.progress = .started)
    (hfree : ∀ id, db.locked id = false) :
    ((db.step i).step i).visits = record db.visits w.now w.params := by
  have hlen : i < db.writers.length := by
    rcases Nat.lt_or_ge i db.writers.length with h | h
    · exact h
    · rw [List.getElem?_eq_none h] at hw; cases hw
  have hl : (addData w.params).link_id = w.params.link_id := rfl
  have hstep1 : db.step i =
      ⟨db.visits, db.writers.set i
        ⟨w.now, w.params, .selected (findVisit db.visits w.now w.params.link_id)⟩⟩ := by
    unfold Database.step
    simp only [hw, hs, hl]
    cases hf : findVisit db.visits w.now w.params.link_id with
    | none => rfl
    | some visit => simp [hfree visit.id]
  rw [hstep1]
  unfold Database.step record add
  simp only [List.getElem?_set_self hlen, hl]
  cases hbr : Column.ofName ("br_" ++ (addData w.params).browser) with
  | none => simp
  | some br =>
    cases hos : Column.ofName ("os_" ++ (addData w.params).os) with
    | none => simp
    | some os =>
      cases hf : findVisit db.visits w.now w.params.link_id with
      | none => simp
      | some visit => simp

/-- The lock at work: on a database whose table holds the row `r` of a link and hour, whose
calls in progress are all for that link and hour, and where at most one call stands after a
select that returned `r` (no call standing after a select that returned anything else), a step
of any call keeps all of this, and the `total` of the row stays the initial count plus the
number of calls that have finished. -/
theorem step_keeps_row (link_id : Nat) (bucket : String) (base : Nat) (db : Database) (i : Nat)
    (hw : ∀ w ∈ db.writers, w.params.link_id = link_id ∧ truncatedNow w.now = bucket ∧
      w.params.browser ∈ browserNames ∧ w.params.os ∈ osNames)
    (hinv : ∃ r, db.visits.filter (Visit.inBucket link_id bucket) = [r] ∧
      r.total = base + db.writers.countP (fun w => decide (w.progress = .finished)) ∧
      (r.total = r.browserSum ∧ r.total = r.osSum) ∧
      (∀ w ∈ db.writers, w.progress = .started ∨ w.progress = .finished ∨
        w.progress = .selected (some r)) ∧
      db.writers.countP (fun w => decide (w.progress = .selected (some r))) ≤ 1) :
    (∀ w ∈ (db.step i).writers, w.params.link_id = link_id ∧ truncatedNow w.now = bucket ∧
      w.params.browser ∈ browserNames ∧ w.params.os ∈ osNames) ∧
    ∃ r, (db.step i).visits.filter (Visit.inBucket link_id bucket) = [r] ∧
      r.total = base + (db.step i).writers.countP (fun w => decide (w.progress = .finished)) ∧
      (r.total = r.browserSum ∧ r.total = r.osSum) ∧
      (∀ w ∈ (db.step i).writers, w.progress = .started ∨ w.progress = .finished ∨
        w.progress = .selected (some r)) ∧
      (db.step i).writers.countP (fun w => decide (w.progress = .selected (some r))) ≤ 1 := by
  cases hwi : db.writers[i]? with
  | none =>
    have : db.step i = db := by unfold Database.step; simp only [hwi]
    rw [this]; exact ⟨hw, hinv⟩
  | some w =>
    have hmem : w ∈ db.writers := List.getElem?_mem hwi
    obtain ⟨hlen, hget⟩ := List.getElem?_eq_some_iff.1 hwi
    obtain ⟨r, hf, ht, hsums, hshape, hcount⟩ := hinv
    obtain ⟨hwl, hwh, hwb, hwo⟩ := hw w hmem
    have hl : (addData w.params).link_id = link_id := hwl
    have hfind : findVisit db.visits w.now link_id = some r :=
      findVisit_of_filter db.visits w.now link_id r (by rw [hwh]; exact hf)
    rcases hshape w hmem with hp | hp | hp
    · -- the select
      by_cases hlock : db.locked r.id = true
      · have : db.step i = db := by
          unfold Database.step; simp only [hwi, hp, hl, hfind, hlock, if_true]
        rw [this]; exact ⟨hw, r, hf, ht, hsums, hshape, hcount⟩
      · have hstep : db.step i =
            ⟨db.visits, db.writers.set i ⟨w.now, w.params, .selected (some r)⟩⟩ := by
          unfold Database.step; simp only [hwi, hp, hl, hfind, hlock]; rfl
        rw [hstep]
        have hnone : db.writers.countP (fun w => decide (w.progress = .selected (some r))) = 0 := by
          rw [List.countP_eq_zero]
          intro x hx hsel
          apply hlock
          unfold Database.locked
          rw [List.any_eq_true]
          refine ⟨x, hx, ?_⟩
          have : x.progress = .selected (some r) := by simpa using hsel
          simp [Writer.lock, this]
        refine ⟨?_, r, hf, ?_, hsums, ?_, ?_⟩
        · intro x hx
          rcases List.mem_or_eq_of_mem_set hx with h | h
          · exact hw x h
          · rw [h]; exact ⟨hwl, hwh, hwb, hwo⟩
        · rw [ht, List.countP_set _ _ _ _ hlen, hget]
          simp [hp]
        · intro x hx
          rcases List.mem_or_eq_of_mem_set hx with h | h
          · exact hshape x h
          · rw [h]; exact Or.inr (Or.inr rfl)
        · rw [List.countP_set _ _ _ _ hlen, hget, hnone]
          simp
    · -- a finished call takes no step
      have : db.step i = db := by
        unfold Database.step; simp only [hwi, hp]
      rw [this]; exact ⟨hw, r, hf, ht, hsums, hshape, hcount⟩
    · -- the write
      obtain ⟨br, hbr, hbb⟩ := browser_column _ hwb
      obtain ⟨os, hos, hoo⟩ := os_column _ hwo
      have hbr' : Column.ofName ("br_" ++ (addData w.params).browser) = some br := hbr
      have hos' : Column.ofName ("os_" ++ (addData w.params).os) = some os := hos
      have hstep : db.step i =
          ⟨db.visits.map (fun row =>
              if row.id = r.id then updatedRow r w.now (addData w.params) br os row else row),
            db.writers.set i ⟨w.now, w.params, .finished⟩⟩ := by
        unfold Database.step; simp only [hwi, hp, hbr', hos']
      rw [hstep]
      have hfilter : (db.visits.map (fun row =>
            if row.id = r.id then updatedRow r w.now (addData w.params) br os row else row)).filter
            (Visit.inBucket link_id bucket) =
          [updatedRow r w.now (addData w.params) br os r] := by
        have hc : (Visit.inBucket link_id bucket ∘ fun row : Visit =>
            if row.id = r.id then updatedRow r w.now (addData w.params) br os row else row) =
            Visit.inBucket link_id bucket := by
          funext row
          simp only [Function.comp]
          split_ifs
          · exact updatedRow_inBucket _ _ _ _ _ _ _ _
          · rfl
        rw [List.filter_map, hc, hf]
        simp
      have hone : 1 ≤ db.writers.countP (fun w => decide (w.progress = .selected (some r))) := by
        rw [Nat.succ_le_iff, List.countP_pos_iff]
        exact ⟨w, hmem, by simp [hp]⟩
      have hzero : (db.writers.set i ⟨w.now, w.params, .finished⟩).countP
          (fun w => decide (w.progress = .selected (some r))) = 0 := by
        rw [List.countP_set _ _ _ _ hlen, hget]
        simp [hp]
        omega
      have hrest : ∀ x ∈ db.writers.set i ⟨w.now, w.params, .finished⟩,
          x.progress = .started ∨ x.progress = .finished := by
        intro x hx
        have hnot : ¬ x.progress = .selected (some r) := by
          intro hsel
          have := (List.countP_eq_zero.1 hzero) x hx
          simp [hsel] at this
        rcases List.mem_or_eq_of_mem_set hx with h | h
        · rcases hshape x h with h1 | h1 | h1
          · exact Or.inl h1
          · exact Or.inr h1
          · exact absurd h1 hnot
        · rw [h]; exact Or.inr rfl
      refine ⟨?_, updatedRow r w.now (addData w.params) br os r, hfilter, ?_,
        updatedRow_sums _ _ _ _ _ _ hbb hoo hsums, ?_, ?_⟩
      · intro x hx
        rcases List.mem_or_eq_of_mem_set hx with h | h
        · exact hw x h
        · rw [h]; exact ⟨hwl, hwh, hwb, hwo⟩
      · rw [List.countP_set _ _ _ _ hlen, hget]
        simp [hp, updatedRow, ht]
        omega
      · intro x hx
        rcases hrest x hx with h | h
        · exact Or.inl h
        · exact Or.inr (Or.inl h)
      · rw [List.countP_eq_zero.2]
        · exact Nat.zero_le _
        · intro x hx
          rcases hrest x hx with h | h <;> simp [h]

theorem step_writers_length (db : Database) (i : Nat) :
    (db.step i).writers.length = db.writers.length := by
  unfold Database.step
  cases hwi : db.writers[i]? with
  | none => rfl
  | some w =>
    simp only
    cases hp : w.progress with
    | started =>
      simp only
      cases findVisit db.visits w.now (addData w.params).link_id with
      | none => simp
      | some visit =>
        simp only
        split_ifs <;> simp
    | selected found =>
      simp only
      cases Column.ofName ("br_" ++ (addData w.params).browser) with
      | none => simp
      | some br =>
        cases Column.ofName ("os_" ++ (addData w.params).os) with
        | none => simp
        | some os => simp
    | finished => rfl

theorem run_keeps_row (link_id : Nat) (bucket : String) (base : Nat) (schedule : List Nat) :
    ∀ db : Database,
    (∀ w ∈ db.writers, w.params.link_id = link_id ∧ truncatedNow w.now = bucket ∧
      w.params.browser ∈ browserNames ∧ w.params.os ∈ osNames) →
    (∃ r, db.visits.filter (Visit.inBucket link_id bucket) = [r] ∧
      r.total = base + db.writers.countP (fun w => decide (w.progress = .finished)) ∧
      (r.total = r.browserSum ∧ r.total = r.osSum) ∧
      (∀ w ∈ db.writers, w.progress = .started ∨ w.progress = .finished ∨
        w.progress = .selected (some r)) ∧
      db.writers.countP (fun w => decide (w.progress = .selected (some r))) ≤ 1) →
    (db.run schedule).writers.length = db.writers.length ∧
    ∃ r, (db.run schedule).visits.filter (Visit.inBucket link_id bucket) = [r] ∧
      r.total = base +
        (db.run schedule).writers.countP (fun w => decide (w.progress = .finished)) ∧
      (r.total = r.browserSum ∧ r.total = r.osSum) := by
  induction schedule with
  | nil =>
    intro db _ hinv
    obtain ⟨r, h1, h2, h3, _⟩ := hinv
    exact ⟨rfl, r, h1, h2, h3⟩
  | cons i s ih =>
    intro db hw hinv
    obtain ⟨hw', hinv'⟩ := step_keeps_row link_id bucket base db i hw hinv
    obtain ⟨hlen, hres⟩ := ih (db.step i) hw' hinv'
    have hrun : db.run (i :: s) = (db.step i).run s := rfl
    rw [hrun, hlen, step_writers_length]
    exact ⟨rfl, hres⟩

/-- What the lock does achieve: on a table that holds the row of the link and hour, with
`total` equal to the sum of its browser counters and to the sum of its OS counters, N calls of
`add` for that link and hour, run by concurrent workers in any interleaving, leave once all
have finished a single row of the hour, whose `total` has grown by N and still equals both
sums. -/
theorem run_on_row_serialised (link_id : Nat) (bucket : String) (visits : List Visit)
    (r0 : Visit) (events : List Event) (schedule : List Nat)
    (hrow : visits.filter (Visit.inBucket link_id bucket) = [r0])
    (hsums : r0.total = r0.browserSum ∧ r0.total = r0.osSum)
    (hl : ∀ e ∈ events, e.params.link_id = link_id)
    (hh : ∀ e ∈ events, truncatedNow e.now = bucket)
    (hb : ∀ e ∈ events, e.params.browser ∈ browserNames)
    (ho : ∀ e ∈ events, e.params.os ∈ osNames)
    (hfin : ((startAll visits events).run schedule).allFinished = true) :
    ∃ r, ((startAll visits events).run schedule).visits.filter
        (Visit.inBucket link_id bucket) = [r] ∧
      r.total = r0.total + events.length ∧ r.total = r.browserSum ∧ r.total = r.osSum := by
  have hstarted : ∀ w ∈ (startAll visits events).writers, w.progress = .started := by
    intro w hw
    simp only [startAll, List.mem_map] at hw
    obtain ⟨e, _, rfl⟩ := hw
    rfl
  have hw : ∀ w ∈ (startAll visits events).writers, w.params.link_id = link_id ∧
      truncatedNow w.now = bucket ∧ w.params.browser ∈ browserNames ∧
      w.params.os ∈ osNames := by
    intro w hw
    simp only [startAll, List.mem_map] at hw
    obtain ⟨e, he, rfl⟩ := hw
    exact ⟨hl e he, hh e he, hb e he, ho e he⟩
  have hc0 : ∀ p : Progress, p ≠ .started →
      (startAll visits events).writers.countP (fun w => decide (w.progress = p)) = 0 := by
    intro p hp
    rw [List.countP_eq_zero]
    intro w hw
    simp [hstarted w hw, hp.symm]
  obtain ⟨hlen, r, hf, ht, hs⟩ := run_keeps_row link_id bucket r0.total schedule
    (startAll visits events) hw
    ⟨r0, hrow, by rw [hc0 _ (by simp)]; rfl, hsums, fun w hw => Or.inl (hstarted w hw),
      by rw [hc0 _ (by simp)]; exact Nat.zero_le _⟩
  refine ⟨r, hf, ?_, hs.1, hs.2⟩
  have hall : ((startAll visits events).run schedule).writers.countP
      (fun w => decide (w.progress = .finished)) =
      ((startAll visits events).run schedule).writers.length := by
    rw [List.countP_eq_length]
    intro w hw
    unfold Database.allFinished at hfin
    rw [List.all_eq_true] at hfin
    exact hfin w hw
  rw [ht, hall, hlen]
  simp [startAll]

/-- The serialised run, on the row of 5 visits and two calls of its hour: the schedule in which
the second select has to wait. -/
theorem run_on_row_serialised_example :
    ∃ r, ((startAll [aggregateRow 1 7 1730898000000 5]
        [⟨1730900712345, ⟨"chrome", "US", 7, 3, "windows", "Direct"⟩⟩,
         ⟨1730900999000, ⟨"ie", "de", 7, 3, "macos", "Direct"⟩⟩]).run
          [0, 1, 0, 1, 1]).visits.filter (Visit.inBucket 7 "2024-11-06 13:00:00") = [r] ∧
      r.total = 5 + 2 ∧ r.total = r.browserSum ∧ r.total = r.osSum :=
  run_on_row_serialised 7 "2024-11-06 13:00:00" [aggregateRow 1 7 1730898000000 5]
    (aggregateRow 1 7 1730898000000 5) _ [0, 1, 0, 1, 1] (by decide) (by decide) (by decide)
    (by decide) (by decide) (by decide) (by decide)

/-- C24, at a failing input: two calls of `add` for link 7 in the hour 2024-11-06 13:00, on a
table with no row of that hour. Run one after the other they leave one row with `total` 2. Run
interleaved, each runs its select before the other writes: both selects return no row, so
there is nothing for `forUpdate` to lock, both calls take the insert branch, and the table ends
with two rows of the same link and hour, each with `total` 1. On a table that holds the row of
the hour the lock does serialise the two calls: the second select waits, and the row ends with
both increments once both calls have finished. -/
theorem run_interleaved_inserts_twice :
    ((startAll []
        [⟨1730900712345, ⟨"chrome", "US", 7, 3, "windows", "Direct"⟩⟩,
         ⟨1730900999000, ⟨"ie", "de", 7, 3, "macos", "Direct"⟩⟩]).run [0, 0, 1, 1]).visits.map
        (fun v => (v.key, v.total)) = [((7, "2024-11-06 13:00:00"), 2)] ∧
    ((startAll []
        [⟨1730900712345, ⟨"chrome", "US", 7, 3, "windows", "Direct"⟩⟩,
         ⟨1730900999000, ⟨"ie", "de", 7, 3, "macos", "Direct"⟩⟩]).run [0, 1, 0, 1]).visits.map
        (fun v => (v.key, v.total)) =
      [((7, "2024-11-06 13:00:00"), 1), ((7, "2024-11-06 13:00:00"), 1)] ∧
    ((startAll []
        [⟨1730900712345, ⟨"chrome", "US", 7, 3, "windows", "Direct"⟩⟩,
         ⟨1730900999000, ⟨"ie", "de", 7, 3, "macos", "Direct"⟩⟩]).run [0, 1, 0, 1]).allFinished =
      true ∧
    ((startAll [aggregateRow 1 7 1730898000000 5]
        [⟨1730900712345, ⟨"chrome", "US", 7, 3, "windows", "Direct"⟩⟩,
         ⟨1730900999000, ⟨"ie", "de", 7, 3, "macos", "Direct"⟩⟩]).run [0, 1, 0, 1]).visits.map
        (fun v => (v.key, v.total)) = [((7, "2024-11-06 13:00:00"), 6)] ∧
    ((startAll [aggregateRow 1 7 1730898000000 5]
        [⟨1730900712345, ⟨"chrome", "US", 7, 3, "windows", "Direct"⟩⟩,
         ⟨1730900999000, ⟨"ie", "de", 7, 3, "macos", "Direct"⟩⟩]).run
          [0, 1, 0, 1, 1]).visits.map
        (fun v => (v.key, v.total)) = [((7, "2024-11-06 13:00:00"), 7)] := by
  decide

/-! ### The fallback queue -/

theorem queueVisitAdd_rejected_iff (urlHostname : String → Option String)
    (incrementVisit commits : Bool) (visits : List Visit) (now : Int) (data : VisitJob) :
    (queueVisitAdd urlHostname incrementVisit commits visits now data).promise = .rejected ↔
      visit urlHostname data = none := by
  unfold queueVisitAdd visitProcessor
  cases hv : visit urlHostname data with
  | none => simp
  | some params =>
    cases commits
    · simp
    · cases ha : add visits now params with
      | none => simp [ha]
      | some visits' => cases incrementVisit <;> simp [ha]

/-- What holds of the fallback queue: when `visit` does not throw, the promise of
`queue.visit.add` is fulfilled whether the aggregation transaction commits or fails; a failed
transaction, like a failed increment of the link counter, is logged by the handler of `.catch`,
and the table is then as `add` left it. -/
theorem queueVisitAdd_logs_rejection (urlHostname : String → Option String)
    (incrementVisit commits : Bool) (visits : List Visit) (now : Int) (data : VisitJob)
    (params : VisitParams) (hv : visit urlHostname data = some params) :
    (queueVisitAdd urlHostname incrementVisit commits visits now data).promise = .fulfilled ∧
      ((queueVisitAdd urlHostname incrementVisit commits visits now data).logged = true ↔
        (commits = false ∨ add visits now params = none ∨ incrementVisit = false)) ∧
      (queueVisitAdd urlHostname incrementVisit commits visits now data).visits =
        if commits then record visits now params else visits := by
  unfold queueVisitAdd visitProcessor record
  rw [hv]
  cases commits
  · simp
  · cases ha : add visits now params with
    | none => simp [ha]
    | some visits' => cases incrementVisit <;> simp [ha]

/-- What holds of the redirect: the location of the response is the target of the link,
whatever the call of `queue.visit.add` does. -/
theorem redirect_location (urlHostname : String → Option String) (incrementVisit commits : Bool)
    (visits : List Visit) (now : Int) (target : String) (isBot : Bool) (data : VisitJob) :
    (redirect urlHostname incrementVisit commits visits now target isBot data).location =
      target := rfl

/-- C25, at a failing input: in the fallback mode, a visit of a link with an owner whose
referrer does not parse as a URL (`example.com/page`). `visit` throws inside the async function
`add` of the queue, before `.catch` is attached: the promise of `queue.visit.add` is rejected,
nothing is logged and no row is written. The handler `redirect` does not await the promise: it
redirects to the target, and the rejection is left unhandled. For a job that `visit` accepts
and whose aggregation transaction fails, the promise is fulfilled and the failure is logged. -/
theorem queueVisitAdd_rejects_on_unparseable_referrer :
    queueVisitAdd (fun _ => none) true true [] 1730900712345
        ⟨⟨"Chrome", "Windows"⟩, some "US", none, some "example.com/page", ⟨1, 2⟩⟩ =
      { promise := .rejected, logged := false, visits := [] } ∧
    (redirect (fun _ => none) true true [] 1730900712345 "https://example.org/" false
        ⟨⟨"Chrome", "Windows"⟩, some "US", none, some "example.com/page", ⟨1, 2⟩⟩).location =
      "https://example.org/" ∧
    (redirect (fun _ => none) true true [] 1730900712345 "https://example.org/" false
        ⟨⟨"Chrome", "Windows"⟩, some "US", none, some "example.com/page",
          ⟨1, 2⟩⟩).unhandledRejection = true ∧
    queueVisitAdd (fun _ => none) true false [] 1730900712345
        ⟨⟨"Chrome", "Windows"⟩, some "US", none, none, ⟨1, 2⟩⟩ =
      { promise := .fulfilled, logged := true, visits := [] } ∧
    (redirect (fun _ => none) true false [] 1730900712345 "https://example.org/" false
        ⟨⟨"Chrome", "Windows"⟩, some "US", none, none, ⟨1, 2⟩⟩).unhandledRejection = false := by
  decide

/-! ### The check of the custom URL in `create` -/

/-- What holds of the check: it throws exactly for a non-empty custom URL of at most 4 code
units and a role that is neither `PREMIUM` nor `ADMIN`, and the error carries the message
`Custom URL less than 4 characters is only for premium user.`. -/
theorem create_throws_iff (customurl : Option String) (role : String) :
    ((create customurl role).isSome = true ↔
      ∃ url, customurl = some url ∧ url ≠ "" ∧ jsLength url ≤ 4 ∧
        role ≠ ROLES.PREMIUM ∧ role ≠ ROLES.ADMIN) ∧
    ∀ e, create customurl role = some e →
      e = ⟨"Custom URL less than 4 characters is only for premium user.", 500⟩ := by
  unfold create
  cases customurl with
  | none => simp
  | some url =>
    dsimp only
    by_cases h : url ≠ "" ∧ jsLength url ≤ 4 ∧ ¬ role ∈ [ROLES.PREMIUM, ROLES.ADMIN]
    · rw [if_pos h]
      simp only [List.mem_cons, List.mem_singleton, not_or, List.not_mem_nil, or_false] at h
      refine ⟨⟨fun _ => ⟨url, rfl, h.1, h.2.1, h.2.2.1, h.2.2.2⟩, fun _ => rfl⟩, ?_⟩
      intro e he
      simp only [Option.some.injEq] at he
      exact he.symm
    · rw [if_neg h]
      simp only [List.mem_cons, List.mem_singleton, not_or, List.not_mem_nil, or_false] at h
      refine ⟨⟨fun hs => absurd hs (by simp), ?_⟩, fun e he => absurd he (by simp)⟩
      rintro ⟨u, hu, h1, h2, h3, h4⟩
      simp only [Option.some.injEq] at hu
      subst hu
      exact absurd ⟨h1, h2, h3, h4⟩ h

/-- C26, at a failing input: a user of role `USER` asks for the custom URL `abcd`, which has 4
characters, not fewer than 4. The check compares with `<=`: it throws
`Custom URL less than 4 characters is only for premium user.`. A custom URL of 5 characters
passes, and `abcd` passes for the roles `PREMIUM` and `ADMIN`. -/
theorem create_rejects_four_characters :
    jsLength "abcd" = 4 ∧
      create (some "abcd") ROLES.USER =
        some ⟨"Custom URL less than 4 characters is only for premium user.", 500⟩ ∧
      create (some "abcde") ROLES.USER = none ∧
      create (some "abcd") ROLES.PREMIUM = none ∧
      create (some "abcd") ROLES.ADMIN = none := by
  decide

/-! ### The sum of a views array -/

theorem viewsSum_map_num (l : List Nat) : viewsSum (l.map Cell.num) = some l.sum := by
  induction l with
  | nil => rfl
  | cons n l ih => simp [viewsSum, ih]

theorem sum_range_indicator (n k t : Nat) (hk : k < n) :
    ((List.range n).map (fun i => if i = k then t else 0)).sum = t := by
  induction n with
  | zero => omega
  | succ n ih =>
    rw [List.range_succ, List.map_append, List.sum_append]
    by_cases h : k = n
    · subst h
      have h0 : ((List.range k).map (fun i => if i = k then t else 0)).sum = 0 := by
        apply List.sum_eq_zero
        intro x hx
        obtain ⟨i, hi, rfl⟩ := List.mem_map.1 hx
        have : i ≠ k := by
          have := List.mem_range.1 hi
          omega
        simp [this]
      simp [h0]
    · have hlt : k < n := by omega
      have hne : ¬ n = k := fun e => h e.symm
      simp [ih hlt, hne]

theorem bucketTotal_cons (r : Visit) (rs : List Visit) (now : Int) (type : PeriodType) (i : Nat) :
    bucketTotal (r :: rs) now type i =
      (if included now type r = true ∧ bucketIndex now type r.created_at = (i : Int)
        then r.total else 0) + bucketTotal rs now type i := by
  unfold bucketTotal
  by_cases h : included now type r = true ∧ bucketIndex now type r.created_at = (i : Int)
  · simp [List.filter_cons, h]
  · rw [if_neg h]
    have : decide (included now type r = true ∧ bucketIndex now type r.created_at = (i : Int)) =
        false := by simpa using h
    simp only [List.filter_cons, this]
    simp

theorem bucketTotal_sum (now : Int) (type : PeriodType) (rows : List Visit)
    (h : ∀ r ∈ rows, included now type r = true →
      0 ≤ bucketIndex now type r.created_at ∧
        bucketIndex now type r.created_at < bucketCount type) :
    ((List.range (bucketCount type)).map (bucketTotal rows now type)).sum =
      ((rows.filter (included now type)).map (fun r => r.total)).sum := by
  induction rows with
  | nil =>
    have h0 : bucketTotal [] now type = fun _ => 0 := by
      funext i; simp [bucketTotal]
    rw [h0]
    simp
  | cons r rs ih =>
    have ih' := ih (fun x hx => h x (List.mem_cons_of_mem _ hx))
    have hfun : bucketTotal (r :: rs) now type = fun i : Nat =>
        (if included now type r = true ∧ bucketIndex now type r.created_at = (i : Int)
          then r.total else 0) + bucketTotal rs now type i := by
      funext i; exact bucketTotal_cons r rs now type i
    rw [hfun, List.sum_map_add, ih']
    by_cases hin : included now type r = true
    · obtain ⟨h0, h1⟩ := h r (List.mem_cons_self _ _) hin
      have hk : (bucketIndex now type r.created_at).toNat < bucketCount type := by omega
      have hind : (fun i : Nat =>
          if included now type r = true ∧ bucketIndex now type r.created_at = (i : Int)
            then r.total else 0) =
          fun i => if i = (bucketIndex now type r.created_at).toNat then r.total else 0 := by
        funext i
        by_cases hi : i = (bucketIndex now type r.created_at).toNat
        · have : bucketIndex now type r.created_at = (i : Int) := by omega
          rw [if_pos ⟨hin, this⟩, if_pos hi]
        · have : ¬ bucketIndex now type r.created_at = (i : Int) := by omega
          rw [if_neg (fun e => this e.2), if_neg hi]
      rw [hind, sum_range_indicator _ _ _ hk]
      simp [List.filter_cons, hin]
    · have hind : (fun i : Nat =>
          if included now type r = true ∧ bucketIndex now type r.created_at = (i : Int)
            then r.total else 0) = fun _ => 0 := by
        funext i; simp [hin]
      rw [hind]
      simp [List.filter_cons, hin]

/-- What holds of the sum of a views array: when every row a period includes has its bucket
index in range, the elements of the period's `views` are numbers whose sum is the period's
`total`. -/
theorem find_views_sum_of_index_range (visits : List Visit) (now : Int) (link_id : Nat)
    (type : PeriodType)
    (h : ∀ r ∈ rowsOf link_id visits, included now type r = true →
      0 ≤ bucketIndex now type r.created_at ∧
        bucketIndex now type r.created_at < bucketCount type) :
    viewsSum ((find visits now link_id).get type).views =
      some ((find visits now link_id).get type).total := by
  rw [find_views_of_index_bound visits now link_id type (fun r hr hin => (h r hr hin).2),
    (find_get visits now link_id type).2.1, find_total, ← bucketTotal_sum now type _ h]
  unfold bucketTotals
  rw [← viewsSum_map_num, List.map_map]
  rfl

/-- The sum of the views of the last day, week and month: when no row of the link is after
`now`, it is the period's `total`. -/
theorem find_views_sum (visits : List Visit) (now : Int) (link_id : Nat) (type : PeriodType)
    (h : ∀ r ∈ rowsOf link_id visits, r.created_at ≤ now) (ht : type ≠ .lastYear) :
    viewsSum ((find visits now link_id).get type).views =
      some ((find visits now link_id).get type).total := by
  apply find_views_sum_of_index_range
  intro r hr hin
  have hs : r.created_at > periodStart now type := by
    simpa [included, isAfter] using hin
  obtain ⟨h1, h2⟩ := bucketIndex_range now r.created_at type (h r hr) hs
  exact ⟨h2 ht, h1⟩

/-- C27, at a failing input: `now` is 2024-02-29T12:00:00Z and the table holds one row of 3
visits created at 2023-02-28T13:00:00Z, not after `now`. The last year includes the row, so its
`total` is 3, but the bucket index of the row is -1 and the row is in no bucket: the twelve
elements of `views` are 0 and their sum is 0, not 3. The same happens on the last day of
February of a common year: at 2025-02-28T12:00:00Z a row created at 2024-02-28T13:00:00Z is
counted in the total of the last year and in none of its buckets. -/
theorem find_lastYear_views_sum_leap_day :
    (aggregateRow 1 7 1677589200000 3).created_at ≤ 1709208000000 ∧
      (find [aggregateRow 1 7 1677589200000 3] 1709208000000 7).lastYear.total = 3 ∧
      viewsSum (find [aggregateRow 1 7 1677589200000 3] 1709208000000 7).lastYear.views =
        some 0 ∧
      toISOString 1740744000000 = "2025-02-28T12:00:00.000Z" ∧
      toISOString 1709125200000 = "2024-02-28T13:00:00.000Z" ∧
      (find [aggregateRow 1 7 1709125200000 3] 1740744000000 7).lastYear.total = 3 ∧
      viewsSum (find [aggregateRow 1 7 1709125200000 3] 1740744000000 7).lastYear.views =
        some 0 := by
  decide

/-! ### Nested windows -/

theorem sum_filter_le_of_imp (rows : List Visit) (p q : Visit → Bool)
    (h : ∀ r, p r = true → q r = true) :
    ((rows.filter p).map (fun r => r.total)).sum ≤ ((rows.filter q).map (fun r => r.total)).sum := by
  induction rows with
  | nil => simp
  | cons r rs ih =>
    rcases Bool.eq_false_or_eq_true (p r) with hp | hp
    · simp only [List.filter_cons, hp, h r hp, if_true, List.map_cons, List.sum_cons]
      omega
    · rcases Bool.eq_false_or_eq_true (q r) with hq | hq
      · simp only [List.filter_cons, hp, hq, if_true, Bool.false_eq_true, if_false,
          List.map_cons, List.sum_cons]
        omega
      · simp only [List.filter_cons, hp, hq, Bool.false_eq_true, if_false]
        exact ih

theorem included_mono (now : Int) (r : Visit) :
    (included now .lastDay r = true → included now .lastWeek r = true) ∧
      (included now .lastWeek r = true → included now .lastMonth r = true) ∧
      (included now .lastMonth r = true → included now .lastYear r = true) := by
  obtain ⟨h1, h2, h3⟩ := periodStart_le now
  simp only [included, periodStart, isAfter, decide_eq_true_eq, gt_iff_lt]
  refine ⟨?_, ?_, ?_⟩ <;> intro h <;> omega

/-- C28: the four rolling windows are nested. For every `now` the period starts that
`getStatsPeriods` computes satisfy `subMonths(now, 12)` ≤ `subDays(now, 30)` ≤ `subDays(now, 7)`
≤ `subHours(now, 24)`, and for every table `find` returns
`lastDay.total` ≤ `lastWeek.total` ≤ `lastMonth.total` ≤ `lastYear.total`. -/
theorem find_totals_nested (visits : List Visit) (now : Int) (link_id : Nat) :
    getStatsPeriods now =
        [(.lastDay, subHours now 24), (.lastWeek, subDays now 7), (.lastMonth, subDays now 30),
          (.lastYear, subMonths now 12)] ∧
      subMonths now 12 ≤ subDays now 30 ∧ subDays now 30 ≤ subDays now 7 ∧
      subDays now 7 ≤ subHours now 24 ∧
      (find visits now link_id).lastDay.total ≤ (find visits now link_id).lastWeek.total ∧
      (find visits now link_id).lastWeek.total ≤ (find visits now link_id).lastMonth.total ∧
      (find visits now link_id).lastMonth.total ≤ (find visits now link_id).lastYear.total := by
  obtain ⟨h1, h2, h3⟩ := periodStart_le now
  have ht : ∀ type : PeriodType, ((find visits now link_id).get type).total =
      (((rowsOf link_id visits).filter (included now type)).map (fun r => r.total)).sum := by
    intro type
    rw [(find_get visits now link_id type).2.1, find_total]
  have hd := ht .lastDay
  have hw := ht .lastWeek
  have hm := ht .lastMonth
  have hy := ht .lastYear
  simp only [Response.get] at hd hw hm hy
  refine ⟨rfl, h1, h2, h3, ?_, ?_, ?_⟩
  · rw [hd, hw]
    exact sum_filter_le_of_imp _ _ _ (fun r => (included_mono now r).1)
  · rw [hw, hm]
    exact sum_filter_le_of_imp _ _ _ (fun r => (included_mono now r).2.1)
  · rw [hm, hy]
    exact sum_filter_le_of_imp _ _ _ (fun r => (included_mono now r).2.2)

/-! ### The sums of the tally objects -/

theorem nextId_gt (visits : List Visit) : ∀ v ∈ visits, v.id < nextId visits := by
  unfold nextId
  induction visits with
  | nil => intro v hv; cases hv
  | cons r rs ih =>
    intro v hv
    simp only [List.map_cons, List.foldr_cons]
    rcases List.mem_cons.1 hv with h | h
    · subst h; omega
    · have := ih v h; omega

theorem JsObj.valueSum_cons_num (k : String) (m : Nat) (o : JsObj) (s : Nat)
    (h : JsObj.valueSum ((k, .num m) :: o) = some s) :
    ∃ t, JsObj.valueSum o = some t ∧ s = m + t := by
  simp only [JsObj.valueSum] at h
  cases ho : JsObj.valueSum o with
  | none => rw [ho] at h; simp at h
  | some t => rw [ho] at h; simp at h; exact ⟨t, rfl, h.symm⟩

theorem JsObj.valueSum_append (o : JsObj) (key : String) (n : Nat) :
    ∀ s, o.valueSum = some s → JsObj.valueSum (o ++ [(key, .num n)]) = some (s + n) := by
  induction o with
  | nil =>
    intro s h
    simp only [JsObj.valueSum, Option.some.injEq] at h
    simp [JsObj.valueSum, ← h]
  | cons kv o ih =>
    intro s h
    obtain ⟨k, w⟩ := kv
    cases w with
    | num m =>
      obtain ⟨t, ht, hst⟩ := JsObj.valueSum_cons_num k m o s h
      have e : JsObj.valueSum ((k, JsVal.num m) :: (o ++ [(key, JsVal.num n)])) =
          (JsObj.valueSum (o ++ [(key, JsVal.num n)])).map (fun s => m + s) := rfl
      rw [List.cons_append, e, ih t ht, hst]
      simp only [Option.map_some', Option.some.injEq]
      omega
    | str t => simp [JsObj.valueSum] at h

theorem JsObj.valueSum_replace (key : String) (n : Nat) (o : JsObj) :
    ∀ s, (o.map Prod.fst).Nodup → o.own key = some (.num n) → o.valueSum = some s →
      JsObj.valueSum (o.map (fun kv => if kv.1 = key then (key, JsVal.num (n + 1)) else kv)) =
        some (s + 1) := by
  induction o with
  | nil => intro s _ ho _; simp [JsObj.own] at ho
  | cons kv o ih =>
    intro s hn ho hs
    obtain ⟨k, w⟩ := kv
    simp only [List.map_cons, List.nodup_cons] at hn
    rw [JsObj.own_cons] at ho
    by_cases hk : k = key
    · rw [if_pos hk] at ho
      simp only [Option.some.injEq] at ho
      subst ho
      obtain ⟨t, ht, hst⟩ := JsObj.valueSum_cons_num k n o s hs
      have hid : o.map (fun kv => if kv.1 = key then (key, JsVal.num (n + 1)) else kv) = o := by
        have : ∀ kv ∈ o, (fun kv : String × JsVal =>
            if kv.1 = key then (key, JsVal.num (n + 1)) else kv) kv = kv := by
          intro kv hkv
          have : kv.1 ≠ key := by
            intro e
            apply hn.1
            rw [hk, ← e]
            exact List.mem_map_of_mem _ hkv
          simp [this]
        rw [List.map_congr_left this, List.map_id']
      simp only [List.map_cons, hk, if_true, hid, JsObj.valueSum, ht, Option.map_some', hst,
        Option.some.injEq]
      omega
    · rw [if_neg hk] at ho
      cases w with
      | num m =>
        obtain ⟨t, ht, hst⟩ := JsObj.valueSum_cons_num k m o s hs
        simp only [List.map_cons, hk, if_false, JsObj.valueSum, ih t hn.2 ho ht, Option.map_some',
          hst, Option.some.injEq]
        omega
      | str t => simp [JsObj.valueSum] at hs

theorem JsObj.valueSum_own (o : JsObj) (key : String) (v : JsVal) :
    ∀ s, o.valueSum = some s → o.own key = some v → ∃ n, v = .num n := by
  induction o with
  | nil => intro s _ ho; simp [JsObj.own] at ho
  | cons kv o ih =>
    intro s hs ho
    obtain ⟨k, w⟩ := kv
    cases w with
    | num m =>
      obtain ⟨t, ht, _⟩ := JsObj.valueSum_cons_num k m o s hs
      rw [JsObj.own_cons] at ho
      by_cases hk : k = key
      · rw [if_pos hk] at ho
        exact ⟨m, by simpa using ho.symm⟩
      · rw [if_neg hk] at ho
        exact ih t ht ho
    | str t => simp [JsObj.valueSum] at hs

theorem JsObj.valueSum_set_plusOne (o : JsObj) (key : String) (s : Nat)
    (hk : inherited key = false) (hn : (o.map Prod.fst).Nodup) (hs : o.valueSum = some s) :
    (o.set key (plusOne (o.get key))).valueSum = some (s + 1) := by
  rw [JsObj.get_of_not_inherited o key hk]
  unfold JsObj.set
  cases ho : o.own key with
  | none =>
    simp only [Option.isSome_none, Bool.false_eq_true, if_false, plusOne]
    exact JsObj.valueSum_append o key 1 s hs
  | some v =>
    obtain ⟨n, rfl⟩ := JsObj.valueSum_own o key v s hs ho
    simp only [Option.isSome_some, if_true, plusOne]
    exact JsObj.valueSum_replace key n o s hn ho hs

/-- What holds of the sums of the tally objects: a call of `add` whose country and referrer key
name no inherited property keeps, on a table where ids are a key, "in every row the keys of
`countries` and of `referrers` are distinct and the values of each sum up to `total`". -/
theorem add_preserves_tally_sums (visits visits' : List Visit) (now : Int) (params : VisitParams)
    (hkc : inherited (toLowerCase params.country) = false)
    (hkr : inherited (toLowerCase params.referrer) = false)
    (hids : (visits.map (fun v => v.id)).Nodup)
    (hinv : ∀ r ∈ visits, (r.countries.map Prod.fst).Nodup ∧ (r.referrers.map Prod.fst).Nodup ∧
      r.countries.valueSum = some r.total ∧ r.referrers.valueSum = some r.total)
    (h : add visits now params = some visits') :
    (visits'.map (fun v => v.id)).Nodup ∧
      ∀ r ∈ visits', (r.countries.map Prod.fst).Nodup ∧ (r.referrers.map Prod.fst).Nodup ∧
        r.countries.valueSum = some r.total ∧ r.referrers.valueSum = some r.total := by
  cases hbr : Column.ofName ("br_" ++ params.browser) with
  | none =>
    have hb' : Column.ofName ("br_" ++ (addData params).browser) = none := hbr
    unfold add at h
    simp only [hb'] at h
    exact absurd h (by simp)
  | some br =>
    cases hos : Column.ofName ("os_" ++ params.os) with
    | none =>
      have hb' : Column.ofName ("br_" ++ (addData params).browser) = some br := hbr
      have ho' : Column.ofName ("os_" ++ (addData params).os) = none := hos
      unfold add at h
      simp only [hb', ho'] at h
      exact absurd h (by simp)
    | some os =>
      rw [add_of_columns visits now params br os hbr hos] at h
      cases hf : findVisit visits now params.link_id with
      | none =>
        rw [hf] at h
        simp only [Option.some.injEq] at h
        subst h
        constructor
        · rw [List.map_append, List.nodup_append]
          refine ⟨hids, List.nodup_singleton _, ?_⟩
          intro a ha hb
          simp only [List.map_cons, List.map_nil, List.mem_singleton] at hb
          obtain ⟨v, hv, rfl⟩ := List.mem_map.1 ha
          have := nextId_gt visits v hv
          simp only [insertedRow, Visit.put_id] at hb
          omega
        · intro r hr
          rcases List.mem_append.1 hr with hr | hr
          · exact hinv r hr
          · rw [List.mem_singleton.1 hr]
            simp [insertedRow, JsObj.valueSum]
      | some visit =>
        rw [hf] at h
        simp only [Option.some.injEq] at h
        subst h
        have hmem := (findVisit_some visits now _ visit hf).1
        constructor
        · have : (visits.map (fun row =>
              if row.id = visit.id then updatedRow visit now (addData params) br os row
              else row)).map (fun v => v.id) = visits.map (fun v => v.id) := by
            rw [List.map_map]
            apply List.map_congr_left
            intro row _
            by_cases hid : row.id = visit.id
            · simp [hid, updatedRow, Visit.increment]
            · simp [hid]
          rw [this]; exact hids
        · intro r hr
          obtain ⟨row, hrow, rfl⟩ := List.mem_map.1 hr
          by_cases hid : row.id = visit.id
          · have hrv : row = visit := List.inj_on_of_nodup_map hids hrow hmem hid
            subst hrv
            obtain ⟨h1, h2, h3, h4⟩ := hinv row hrow
            rw [if_pos rfl]
            refine ⟨JsObj.nodup_set _ _ _ h1, JsObj.nodup_set _ _ _ h2, ?_, ?_⟩
            · exact JsObj.valueSum_set_plusOne _ _ _ hkc h1 h3
            · exact JsObj.valueSum_set_plusOne _ _ _ hkr h2 h4
          · rw [if_neg hid]
            exact hinv row hrow

/-- The sums of the tally objects away from inherited keys: when no event has a country or
referrer key that names an inherited property, every row of the table that a sequence of `add`
calls builds from the empty table has the values of `countries` and the values of `referrers`
sum up to its `total`. -/
theorem addAll_tally_sums (events : List Event) :
    ∀ visits visits' : List Visit,
      (∀ e ∈ events, inherited (toLowerCase e.params.country) = false) →
      (∀ e ∈ events, inherited (toLowerCase e.params.referrer) = false) →
      (visits.map (fun v => v.id)).Nodup →
      (∀ r ∈ visits, (r.countries.map Prod.fst).Nodup ∧ (r.referrers.map Prod.fst).Nodup ∧
        r.countries.valueSum = some r.total ∧ r.referrers.valueSum = some r.total) →
      addAll visits events = some visits' →
      (visits'.map (fun v => v.id)).Nodup ∧
        ∀ r ∈ visits', (r.countries.map Prod.fst).Nodup ∧ (r.referrers.map Prod.fst).Nodup ∧
          r.countries.valueSum = some r.total ∧ r.referrers.valueSum = some r.total := by
  induction events with
  | nil =>
    intro visits visits' _ _ hids hinv h
    simp only [addAll, Option.some.injEq] at h
    subst h
    exact ⟨hids, hinv⟩
  | cons e es ih =>
    intro visits visits' hkc hkr hids hinv h
    simp only [addAll] at h
    cases h1 : add visits e.now e.params with
    | none => rw [h1] at h; simp at h
    | some v1 =>
      rw [h1] at h
      simp only [Option.some_bind] at h
      obtain ⟨hids1, hinv1⟩ := add_preserves_tally_sums visits v1 e.now e.params
        (hkc e (List.mem_cons_self _ _)) (hkr e (List.mem_cons_self _ _)) hids hinv h1
      exact ih v1 visits' (fun x hx => hkc x (List.mem_cons_of_mem _ hx))
        (fun x hx => hkr x (List.mem_cons_of_mem _ hx)) hids1 hinv1 h

/-- C29, at a failing input: two visits of link 7 in one hour, run from the empty table; the
second has the country key `constructor` (the header `x-country: constructor`) and the referrer
key `constructor` (the hostname of `http://constructor/`). The row ends with `total` 2, while
`countries` holds 1 under `us` and a string under `constructor`, and `referrers` holds 1 under
`direct` and a string under `constructor`: the values of neither map sum up to 2. -/
theorem addAll_inherited_key_sums :
    (addAll []
        [⟨1730900712345, ⟨"chrome", "US", 7, 3, "windows", "Direct"⟩⟩,
         ⟨1730900999000, ⟨"chrome", "constructor", 7, 3, "windows", "constructor"⟩⟩]).map
        (List.map Visit.total) = some [2] ∧
    (addAll []
        [⟨1730900712345, ⟨"chrome", "US", 7, 3, "windows", "Direct"⟩⟩,
         ⟨1730900999000, ⟨"chrome", "constructor", 7, 3, "windows", "constructor"⟩⟩]).map
        (List.map Visit.countries) =
      some [[("us", .num 1),
        ("constructor", .str "function Object() \x7b [native code] \x7d1")]] ∧
    (addAll []
        [⟨1730900712345, ⟨"chrome", "US", 7, 3, "windows", "Direct"⟩⟩,
         ⟨1730900999000, ⟨"chrome", "constructor", 7, 3, "windows", "constructor"⟩⟩]).map
        (List.map Visit.referrers) =
      some [[("direct", .num 1),
        ("constructor", .str "function Object() \x7b [native code] \x7d1")]] ∧
    (addAll []
        [⟨1730900712345, ⟨"chrome", "US", 7, 3, "windows", "Direct"⟩⟩,
         ⟨1730900999000, ⟨"chrome", "constructor", 7, 3, "windows", "constructor"⟩⟩]).map
        (List.map (fun v => JsObj.valueSum v.countries)) = some [none] ∧
    (addAll []
        [⟨1730900712345, ⟨"chrome", "US", 7, 3, "windows", "Direct"⟩⟩,
         ⟨1730900999000, ⟨"chrome", "constructor", 7, 3, "windows", "constructor"⟩⟩]).map
        (List.map (fun v => JsObj.valueSum v.referrers)) = some [none] := by
  decide

/-! ### The limit of one domain in `add` of the domains handler -/

/-- What holds of the limit check: the string that the handler passes to `isPremium` has no
property `role`, so the call returns `false` for every role, and the check throws exactly when
the user owns at least one domain. -/
theorem domainsAdd_eq (user : User) (total : Nat) :
    isPremium (.string user.role) = false ∧
      domainsAdd user total =
        if total ≥ 1 then
          some ⟨"Your plan does not allow you to add more domains.", 403⟩
        else none := by
  refine ⟨rfl, ?_⟩
  unfold domainsAdd
  have h : isPremium (.string user.role) = false := rfl
  rw [h]
  rfl

/-- C30, at a failing input: a user of role `PREMIUM` and a user of role `ADMIN` who each own
one domain. `isPremium` is true of both users, but the handler calls it with `user.role`, a
string, for which it is false: both are rejected with
`Your plan does not allow you to add more domains.` and status 403, as a user of role `USER`
is. -/
theorem domainsAdd_rejects_premium :
    isPremium (.user ⟨1, ROLES.PREMIUM⟩) = true ∧ isPremium (.user ⟨2, ROLES.ADMIN⟩) = true ∧
      isPremium (.string ROLES.PREMIUM) = false ∧
      domainsAdd ⟨1, ROLES.PREMIUM⟩ 1 =
        some ⟨"Your plan does not allow you to add more domains.", 403⟩ ∧
      domainsAdd ⟨2, ROLES.ADMIN⟩ 1 =
        some ⟨"Your plan does not allow you to add more domains.", 403⟩ ∧
      domainsAdd ⟨3, ROLES.USER⟩ 1 =
        some ⟨"Your plan does not allow you to add more domains.", 403⟩ ∧
      domainsAdd ⟨1, ROLES.PREMIUM⟩ 0 = none := by
  decide

end Kutt
